import Mathlib

/-!
Verification development for the AIG optimization engine (ABC-based core).

The definitions below are shallow embeddings of the C sources under
`src/lib/abc/c/`.  Pure functions become Lean functions; the mutable
managers become explicit state records that are threaded through the
operations.  Machine pointers tagged with a complement bit become a
record of a node id and a boolean.  Components of the repository whose
implementation files are not part of the source tree (only their
declarations and callers are) are modelled from the specification text
and marked `Modelled from the spec:` in their doc comment.
-/

namespace Aig

/-- Edge reference into the AIG: the id of the regular (untagged) node
together with the complement bit carried in the low bit of the pointer
(`aig.h`, `Aig_Regular`/`Aig_Not`/`Aig_IsComplement`). -/
structure ARef where
  id : Nat
  c : Bool
deriving DecidableEq, Repr

/-- `Aig_Not`: flip the complement bit (`aig.h` line 188). -/
def aigNot (p : ARef) : ARef := ⟨p.id, !p.c⟩

/-- `Aig_Regular`: strip the complement bit (`aig.h` line 187). -/
def aigRegular (p : ARef) : ARef := ⟨p.id, false⟩

/-- `Aig_NotCond`: conditionally flip the complement bit (`aig.h` line 189). -/
def aigNotCond (p : ARef) (f : Bool) : ARef := ⟨p.id, xor p.c f⟩

/-- `Aig_IsComplement` (`aig.h` line 190). -/
def aigIsComplement (p : ARef) : Bool := p.c

/-- Object types of the AIG package (`aig.h`, `Aig_Type_t`). -/
inductive AigType where
  | none
  | const1
  | ci
  | co
  | buf
  | and
  | void
deriving DecidableEq, Repr

/-- An AIG object (`aig.h`, `Aig_Obj_t`).  The intrusive `pNext` hash
chain is represented by the manager-level table instead of a per-node
pointer; the remaining fields follow the struct. -/
structure AigObj where
  type : AigType
  fanin0 : Option ARef
  fanin1 : Option ARef
  fPhase : Bool
  nRefs : Nat
  travId : Int
  id : Nat
  pData : Option Nat
deriving DecidableEq, Repr

/-- Canonical structural-hash key of an AND node: both fanin references,
in the canonical (smaller regular id first) order. -/
def andKey (f0 f1 : ARef) : ARef × ARef := (f0, f1)

/-- The AIG manager (`aig.h`, `Aig_Man_t`), restricted to the fields the
embedded operations read and write.  `vObjs` is the id-indexed object
array (`Aig_ManFetchMemory` assigns `Id = Vec_PtrSize(p->vObjs)` and
pushes, so position `i` holds the object with id `i`).  The structural
hash table `pTable` is modelled as an association list from canonical
fanin keys to node ids. -/
structure AigMan where
  vObjs : List AigObj
  vCis : List Nat
  vCos : List Nat
  table : List ((ARef × ARef) × Nat)
  nTravIds : Int
deriving DecidableEq, Repr

/-- The constant-1 node reference: the constant node has id 0
(`Aig_ManStart` creates it first). -/
def aigConst1Ref : AigMan → ARef := fun _ => ⟨0, false⟩

/-- `Aig_ManObj`: the object stored at a given id. -/
def aigManObj (m : AigMan) (i : Nat) : Option AigObj := m.vObjs.get? i

/-- `Aig_ObjPhaseReal` (`aig.h` line 236): phase of the regular node
xor-ed with the complement bit of the reference. -/
def aigObjPhaseReal (m : AigMan) (p : ARef) : Bool :=
  match aigManObj m p.id with
  | some o => xor o.fPhase p.c
  | none => true

/-- `Aig_ManStart` (`aigMan.c`): fresh manager holding only the
constant-1 node (id 0, phase 1) with `nTravIds = 1` and an empty table. -/
def aigManStart : AigMan :=
  { vObjs := [{ type := .const1, fanin0 := none, fanin1 := none,
                fPhase := true, nRefs := 0, travId := 0, id := 0, pData := none }]
    vCis := []
    vCos := []
    table := []
    nTravIds := 1 }

/-- `Aig_ObjCreateGhost` for AND nodes (`aig.h` lines 279-298): order the
two fanins so that the one with the smaller regular id comes first. -/
def aigObjCreateGhost (p0 p1 : ARef) : ARef × ARef :=
  if (aigRegular p0).id < (aigRegular p1).id then (p0, p1) else (p1, p0)

/-- Modelled from the spec: `Aig_TableLookup` (file `aigTable.c` is not
in the source tree).  The structural-hash table maps the canonical key
`(smaller_fanin, larger_fanin)` to the AND node implementing that exact
pair; lookup returns the stored node, always in regular form. -/
def aigTableLookup (m : AigMan) (g0 g1 : ARef) : Option Nat :=
  (m.table.find? (fun e => e.1 = andKey g0 g1)).map (·.2)

/-- Increment the reference counter of the object with the given id
(`Aig_ObjRef`, `aig.h` line 238). -/
def aigObjRef (m : AigMan) (i : Nat) : AigMan :=
  { m with vObjs := m.vObjs.map (fun o => if o.id = i then { o with nRefs := o.nRefs + 1 } else o) }

/-- Modelled from the spec: `Aig_ObjCreate` for AND ghosts (file
`aigObj.c` is not in the source tree).  Per the spec: allocate a fresh
`And`, copy fanins from the ghost, compute its phase, connect the fanins
(incrementing their reference counts), insert it into the hash table and
return it. -/
def aigObjCreate (m : AigMan) (g0 g1 : ARef) : AigMan × ARef :=
  let i := m.vObjs.length
  let o : AigObj :=
    { type := .and, fanin0 := some g0, fanin1 := some g1,
      fPhase := (aigObjPhaseReal m g0) && (aigObjPhaseReal m g1),
      nRefs := 0, travId := 0, id := i, pData := none }
  let m := { m with vObjs := m.vObjs ++ [o], table := (andKey g0 g1, i) :: m.table }
  let m := aigObjRef (aigObjRef m (aigRegular g0).id) (aigRegular g1).id
  (m, ⟨i, false⟩)

/-- Modelled from the spec: `Aig_ObjCreateCi` (file `aigObj.c` is not in
the source tree).  Allocates an input terminal, appends it to the CI
list and returns it. -/
def aigObjCreateCi (m : AigMan) : AigMan × ARef :=
  let i := m.vObjs.length
  let o : AigObj :=
    { type := .ci, fanin0 := none, fanin1 := none,
      fPhase := false, nRefs := 0, travId := 0, id := i, pData := none }
  ({ m with vObjs := m.vObjs ++ [o], vCis := m.vCis ++ [i] }, ⟨i, false⟩)

/-- `Aig_And` (`aigOper.c` lines 57-73): trivial-case simplification,
then canonicalization through the ghost, table lookup, and creation on a
miss.  Returns the updated manager together with the resulting
reference. -/
def aigAnd (m : AigMan) (p0 p1 : ARef) : AigMan × ARef :=
  if p0 = p1 then (m, p0)
  else if p0 = aigNot p1 then (m, aigNot (aigConst1Ref m))
  else if aigRegular p0 = aigConst1Ref m then
    (m, if p0 = aigConst1Ref m then p1 else aigNot (aigConst1Ref m))
  else if aigRegular p1 = aigConst1Ref m then
    (m, if p1 = aigConst1Ref m then p0 else aigNot (aigConst1Ref m))
  else
    let (g0, g1) := aigObjCreateGhost p0 p1
    match aigTableLookup m g0 g1 with
    | some i => (m, ⟨i, false⟩)
    | none => aigObjCreate m g0 g1

/-- Number of AND nodes held by a manager. -/
def aigManAndNum (m : AigMan) : Nat :=
  (m.vObjs.filter (fun o => o.type = .and)).length

end Aig

namespace Aig

/-- Operations a client can perform on one manager: creating a
combinational input or calling `Aig_And` on two references. -/
inductive AigOp where
  | createCi
  | mkAnd (p q : ARef)

/-- Run a sequence of operations against a manager, keeping only the
final manager state. -/
def aigRun (m : AigMan) : List AigOp → AigMan
  | [] => m
  | .createCi :: ops => aigRun (aigObjCreateCi m).1 ops
  | .mkAnd p q :: ops => aigRun (aigAnd m p q).1 ops

/-- The canonical fanin tuple of an object:
`(Regular(fanin0).id, IsCompl(fanin0), Regular(fanin1).id, IsCompl(fanin1))`. -/
def canonTuple (o : AigObj) : Nat × Bool × Nat × Bool :=
  match o.fanin0, o.fanin1 with
  | some a, some b => (a.id, a.c, b.id, b.c)
  | _, _ => (0, false, 0, false)

/-- Well-formedness of the manager's structural-hash table relative to
its object array: objects sit at the position given by their id, every
live AND node is found in the table under its fanin pair, and every
table entry points back to a live AND node with exactly that fanin
pair. -/
structure ManInv (m : AigMan) : Prop where
  idPos : ∀ j o, m.vObjs.get? j = some o → o.id = j
  covered : ∀ o ∈ m.vObjs, o.type = .and →
    ∃ a b, o.fanin0 = some a ∧ o.fanin1 = some b ∧ aigTableLookup m a b = some o.id
  sound : ∀ k i, (k, i) ∈ m.table →
    ∃ o, m.vObjs.get? i = some o ∧ o.type = .and ∧ o.fanin0 = some k.1 ∧ o.fanin1 = some k.2

end Aig

namespace Aig

/-- The reference bump performed by `aigObjRef` on a single object. -/
def refBump (i : Nat) (o : AigObj) : AigObj :=
  if o.id = i then { o with nRefs := o.nRefs + 1 } else o

/-- `Aig_ManCleanData` (`aigUtil.c` lines 55-61): clears the scratch
data pointer of every object of the manager. -/
def aigManCleanData (m : AigMan) : AigMan :=
  { m with vObjs := m.vObjs.map (fun o => { o with pData := none }) }

/-- `Aig_ManIncrementTravId` (`aigUtil.c` lines 38-43): when the counter
has reached `(1<<30)-1` (written `2^30 - 1` here) it calls
`Aig_ManCleanData`, then it increments the counter.  Note that
`Aig_ManCleanData` clears the per-object scratch data pointers, not the
stored traversal IDs, and the counter is not restarted. -/
def aigManIncrementTravId (m : AigMan) : AigMan :=
  let m1 := if m.nTravIds ≥ (2 ^ 30 : Int) - 1 then aigManCleanData m else m
  { m1 with nTravIds := m1.nTravIds + 1 }

/-- A default object used when reading a list position. -/
def aigDummyObj : AigObj :=
  { type := .none, fanin0 := none, fanin1 := none, fPhase := false,
    nRefs := 0, travId := 0, id := 0, pData := none }

/-- A concrete operation sequence creating two CIs and two distinct AND
nodes, used to exhibit the strashing invariant on a concrete manager. -/
def c2RunOps : List AigOp :=
  [.createCi, .createCi, .mkAnd ⟨1, false⟩ ⟨2, false⟩, .mkAnd ⟨1, false⟩ ⟨2, true⟩]

/-- A concrete manager whose traversal-ID counter sits at the threshold
`(1<<30)-1` and whose constant node carries the traversal ID 7. -/
def c9SatMan : AigMan :=
  { vObjs := [{ type := .const1, fanin0 := none, fanin1 := none,
                fPhase := true, nRefs := 0, travId := 7, id := 0, pData := none }]
    vCis := []
    vCos := []
    table := []
    nTravIds := (2 ^ 30 : Int) - 1 }

end Aig



namespace Abc

/-- Object types of the network package (`abc.h`, `Abc_ObjType_t`). -/
inductive AbcType where
  | none
  | const1
  | pi
  | po
  | bi
  | bo
  | node
  | latch
deriving DecidableEq, Repr

/-- A network object (`abc.h`, `Abc_Obj_t`), restricted to the fields
the embedded code reads and writes.  `vFanins` holds fanin object ids
with the two AIG complement bits `fCompl0`/`fCompl1`; `vFanouts` holds
fanout object ids and `nFanouts` is its `nSize` field, which the
reference-counting utilities of `abcRefs.c` increment and decrement
directly. -/
structure AbcObj where
  oid : Nat
  otype : AbcType
  vFanins : List Nat
  fCompl0 : Bool
  fCompl1 : Bool
  vFanouts : List Nat
  nFanouts : Nat
  fPhase : Bool
  pData : Nat
  pCopy : Option Nat
deriving DecidableEq, Repr

/-- The network (`abc.h`, `Abc_Ntk_t`), restricted to the fields the
embedded code uses.  `vObjs` is the id-indexed object array with `none`
in the positions of deleted objects.  `names` models the name manager
`pManName` as pairs of an object id and an (opaque, numbered) name.
`table` models the structural-hash table of the AIG manager
`pManFunc`. -/
structure AbcNtk where
  vObjs : List (Option AbcObj)
  vPis : List Nat
  vPos : List Nat
  vCis : List Nat
  vCos : List Nat
  vBoxes : List Nat
  nTravIds : Int
  vTravIds : List Int
  names : List (Nat × Nat)
  table : List ((Nat × Bool × Nat × Bool) × Nat)
deriving DecidableEq, Repr

/-- `Abc_NtkObj`: the object stored at a given id. -/
def abcNtkObj (n : AbcNtk) (i : Nat) : Option AbcObj := (n.vObjs.get? i).getD none

/-- `Abc_NtkObjNumMax`: size of the object array. -/
def abcNtkObjNumMax (n : AbcNtk) : Nat := n.vObjs.length

/-- `Abc_ObjFaninNum`. -/
def abcObjFaninNum (o : AbcObj) : Nat := o.vFanins.length

/-- `Abc_ObjFanoutNum` (`vFanouts.nSize`). -/
def abcObjFanoutNum (o : AbcObj) : Nat := o.nFanouts

/-- `Abc_ObjFanin0`: id of the first fanin. -/
def abcObjFanin0 (o : AbcObj) : Nat := o.vFanins.getD 0 0

/-- `Abc_ObjFanin1`: id of the second fanin. -/
def abcObjFanin1 (o : AbcObj) : Nat := o.vFanins.getD 1 0

/-- `Abc_ObjIsCi`: a PI or a box output. -/
def abcObjIsCi (o : AbcObj) : Bool := o.otype = .pi || o.otype = .bo

/-- `Abc_ObjIsCo`: a PO or a box input. -/
def abcObjIsCo (o : AbcObj) : Bool := o.otype = .po || o.otype = .bi

/-- `Abc_ObjIsNode`. -/
def abcObjIsNode (o : AbcObj) : Bool := o.otype = .node

/-- `Abc_ObjIsLatch`. -/
def abcObjIsLatch (o : AbcObj) : Bool := o.otype = .latch

/-- Number of latch boxes (`Abc_NtkLatchNum`; the object counters of the
C network are recomputed here from the live objects). -/
def abcNtkLatchNum (n : AbcNtk) : Nat :=
  (n.vObjs.filterMap id).countP (fun o => abcObjIsLatch o)

/-- `Abc_NtkNodeNum`, recomputed from the live objects. -/
def abcNtkNodeNum (n : AbcNtk) : Nat :=
  (n.vObjs.filterMap id).countP (fun o => abcObjIsNode o)

/-- `Abc_NtkHasOnlyLatchBoxes`: every box is a latch. -/
def abcNtkHasOnlyLatchBoxes (n : AbcNtk) : Bool :=
  abcNtkLatchNum n = n.vBoxes.length

/-- `Vec_IntGetEntry` on the traversal-ID array: out-of-range entries
read as 0. -/
def abcNodeTravId (n : AbcNtk) (i : Nat) : Int := n.vTravIds.getD i 0

/-- `Vec_IntSetEntry` on the traversal-ID array: grow with zeroes if
needed, then overwrite position `i`. -/
def abcNodeSetTravId (n : AbcNtk) (i : Nat) (t : Int) : AbcNtk :=
  let v := if n.vTravIds.length ≤ i
           then n.vTravIds ++ List.replicate (i + 1 - n.vTravIds.length) 0
           else n.vTravIds
  { n with vTravIds := v.set i t }

/-- `Abc_NodeSetTravIdCurrent` (`abc.h` line 240). -/
def abcNodeSetTravIdCurrent (n : AbcNtk) (i : Nat) : AbcNtk :=
  abcNodeSetTravId n i n.nTravIds

/-- `Abc_NodeIsTravIdCurrent` (`abc.h` line 242). -/
def abcNodeIsTravIdCurrent (n : AbcNtk) (i : Nat) : Bool :=
  abcNodeTravId n i = n.nTravIds

/-- `Abc_NodeIsTravIdPrevious` (`abc.h` line 243). -/
def abcNodeIsTravIdPrevious (n : AbcNtk) (i : Nat) : Bool :=
  abcNodeTravId n i = n.nTravIds - 1

/-- `Abc_NtkIncrementTravId` (`abc.h` line 237): fill the traversal-ID
array with zeroes on first use, then increment the counter.  The
function only asserts that the counter stays below `1<<30`; it neither
zeroes the stored traversal IDs nor restarts the counter. -/
def abcNtkIncrementTravId (n : AbcNtk) : AbcNtk :=
  let n1 := if n.vTravIds = []
            then { n with vTravIds := List.replicate (abcNtkObjNumMax n + 500) 0 }
            else n
  { n1 with nTravIds := n1.nTravIds + 1 }

/-- An empty network with the traversal counter at 1. -/
def abcEmptyNtk : AbcNtk :=
  { vObjs := [], vPis := [], vPos := [], vCis := [], vCos := [], vBoxes := [],
    nTravIds := 1, vTravIds := [0], names := [], table := [] }

end Abc


namespace Io

open Abc

/-- `Io_ObjMakeLit` (`ioWriteAiger.c` line 135): literal `2*Var | fCompl`. -/
def ioObjMakeLit (v : Nat) (fCompl : Bool) : Nat :=
  (v <<< 1) ||| (if fCompl then 1 else 0)

/-- `Io_WriteAigerEncode` (`ioWriteAiger.c` lines 155-169): write the
unsigned integer `x` in 7-bit groups, least-significant group first,
setting the high bit of every byte except the final one.  The loop
condition `x & ~0x7f` of the C code is nonzero exactly when `x ≥ 0x80`. -/
def ioWriteAigerEncode (x : Nat) : List Nat :=
  if x < 0x80 then [x]
  else ((x &&& 0x7f) ||| 0x80) :: ioWriteAigerEncode (x >>> 7)
termination_by x
decreasing_by
  simp [Nat.shiftRight_eq_div_pow]
  exact Nat.div_lt_self (by omega) (by norm_num)

/-- Inverse reading of the 7-bit encoding: drop the high bit of every
byte and accumulate least-significant group first. -/
def ioAigerDecode : List Nat → Nat
  | [] => 0
  | b :: bs => (b &&& 0x7f) ||| (ioAigerDecode bs <<< 7)

/-- Modelled from the spec: `Abc_AigConst1` reads the constant-1 node of
the AIG manager (`abcAig.c` is not in the source tree); per the spec the
constant-1 node has ID 0. -/
def abcAigConst1Id : Nat := 0

/-- The ids of the AND nodes of a strashed network in object-array order
(`Abc_AigForEachAnd`: iterate `vObjs`, skipping objects that are not
nodes). -/
def abcAndIds (n : AbcNtk) : List Nat :=
  (List.range n.vObjs.length).filter (fun i =>
    match abcNtkObj n i with
    | some o => abcObjIsNode o
    | none => false)

/-- Position of the first occurrence of `a` in a list. -/
def listIndexOf (a : Nat) : List Nat → Option Nat
  | [] => none
  | b :: t => if b = a then some 0 else (listIndexOf a t).map (· + 1)

/-- The AIGER variable numbering assigned by `Io_WriteAiger` lines
232-237: 0 for the constant node, then the CIs in list order, then the
AND nodes in object-array order. -/
def ioObjAigerNum (n : AbcNtk) (i : Nat) : Nat :=
  if i = abcAigConst1Id then 0
  else
    match listIndexOf i n.vCis with
    | some j => 1 + j
    | none =>
      match listIndexOf i (abcAndIds n) with
      | some j => 1 + n.vCis.length + j
      | none => 0

/-- The literal emitted by `Io_WriteAiger` for a combinational-output
terminal (a PO at line 272, or the latch input at line 257): the driver
is the terminal's first fanin, and the complement bit of the fanin edge
is xor-ed with the test `Io_ObjAigerNum(pDriver) == 0`. -/
def ioWriteAigerCoLit (n : AbcNtk) (co : AbcObj) : Nat :=
  ioObjMakeLit (ioObjAigerNum n (abcObjFanin0 co))
    (xor co.fCompl0 (ioObjAigerNum n (abcObjFanin0 co) = 0))

/-- The binary AND-gate section written by `Io_WriteAiger` lines
279-300: for each AND node, form the three literals, swap the fanin
literals so the smaller comes first, and append the delta encodings
`encode(lhs - uLit1)` and `encode(uLit1 - uLit0)` to the buffer. -/
def ioWriteAigerAnds (n : AbcNtk) : List Nat :=
  (abcAndIds n).foldl (fun buf i =>
    match abcNtkObj n i with
    | some o =>
      let uLit := ioObjMakeLit (ioObjAigerNum n i) false
      let uLit0 := ioObjMakeLit (ioObjAigerNum n (abcObjFanin0 o)) o.fCompl0
      let uLit1 := ioObjMakeLit (ioObjAigerNum n (abcObjFanin1 o)) o.fCompl1
      let p := if uLit0 > uLit1 then (uLit1, uLit0) else (uLit0, uLit1)
      buf ++ ioWriteAigerEncode (uLit - p.2) ++ ioWriteAigerEncode (p.2 - p.1)
    | none => buf) []

/-- The byte block predicted by the specification for one AND gate:
`encode(lhs - rhs0)` followed by `encode(rhs0 - rhs1)`, where `rhs0` is
the larger of the two fanin literals and `rhs1` the smaller. -/
def ioGateDeltaBytes (n : AbcNtk) (i : Nat) : List Nat :=
  match abcNtkObj n i with
  | some o =>
    let lhs := ioObjMakeLit (ioObjAigerNum n i) false
    let u0 := ioObjMakeLit (ioObjAigerNum n (abcObjFanin0 o)) o.fCompl0
    let u1 := ioObjMakeLit (ioObjAigerNum n (abcObjFanin1 o)) o.fCompl1
    ioWriteAigerEncode (lhs - max u0 u1) ++ ioWriteAigerEncode (max u0 u1 - min u0 u1)
  | none => []

/-- A small concrete strashed network: the constant node, two PIs, one
AND over them (second fanin complemented), and a PO driven by the
AND. -/
def ioTestNtk : AbcNtk :=
  { vObjs :=
      [some { oid := 0, otype := .const1, vFanins := [], fCompl0 := false, fCompl1 := false,
              vFanouts := [], nFanouts := 0, fPhase := true, pData := 0, pCopy := none },
       some { oid := 1, otype := .pi, vFanins := [], fCompl0 := false, fCompl1 := false,
              vFanouts := [3], nFanouts := 1, fPhase := false, pData := 0, pCopy := none },
       some { oid := 2, otype := .pi, vFanins := [], fCompl0 := false, fCompl1 := false,
              vFanouts := [3], nFanouts := 1, fPhase := false, pData := 0, pCopy := none },
       some { oid := 3, otype := .node, vFanins := [1, 2], fCompl0 := false, fCompl1 := true,
              vFanouts := [4], nFanouts := 1, fPhase := false, pData := 0, pCopy := none },
       some { oid := 4, otype := .po, vFanins := [3], fCompl0 := false, fCompl1 := false,
              vFanouts := [], nFanouts := 0, fPhase := false, pData := 0, pCopy := none }]
    vPis := [1, 2], vPos := [4], vCis := [1, 2], vCos := [4], vBoxes := []
    nTravIds := 1, vTravIds := [], names := [(1, 10), (2, 11), (4, 12)], table := [] }

/-- A PO terminal whose driver is the constant node. -/
def ioTestPoConst : AbcObj :=
  { oid := 5, otype := .po, vFanins := [0], fCompl0 := false, fCompl1 := false,
    vFanouts := [], nFanouts := 0, fPhase := false, pData := 0, pCopy := none }

end Io


namespace Cut

/-- The merging loop of `Cut_CutMergeTwo` (`cutMerge.c` lines 88-130),
parametrized by the number of remaining result slots (`Limit - c`).  The
C loop first checks whether cut 1 is exhausted (taking from cut 0, or
finishing when both are exhausted), then whether cut 0 is exhausted, and
otherwise emits the smaller head, collapsing equal heads; when the slots
run out with leaves left over it returns `NULL`. -/
def cutMergeLoop : Nat → List Nat → List Nat → Option (List Nat)
  | 0, xs, ys => if xs = [] ∧ ys = [] then some [] else none
  | _ + 1, [], [] => some []
  | s + 1, x :: xs, [] => (cutMergeLoop s xs []).map (x :: ·)
  | s + 1, [], y :: ys => (cutMergeLoop s [] ys).map (y :: ·)
  | s + 1, x :: xs, y :: ys =>
    if x < y then (cutMergeLoop s xs (y :: ys)).map (x :: ·)
    else if x > y then (cutMergeLoop s (x :: xs) ys).map (y :: ·)
    else (cutMergeLoop s xs ys).map (x :: ·)

/-- `Cut_CutMergeTwo` (`cutMerge.c` lines 38-131) on the leaf lists:
when both cuts have the maximal size the result exists only if the leaf
lists coincide elementwise; when only the first is maximal the result
exists only if every leaf of the second occurs in the first (the
backward search of lines 67-74); otherwise the merging loop runs with
`Limit` slots. -/
def cutMergeTwo (limit : Nat) (xs ys : List Nat) : Option (List Nat) :=
  if xs.length = limit ∧ ys.length = limit then
    if xs = ys then some xs else none
  else if xs.length = limit then
    if ys.all (fun y => xs.contains y) then some xs else none
  else cutMergeLoop limit xs ys

/-- The sorted union of two leaf lists (the function the specification
describes): merge by ascending ID, collapsing duplicates. -/
def mergeUnion : List Nat → List Nat → List Nat
  | [], ys => ys
  | xs, [] => xs
  | x :: xs, y :: ys =>
    if x < y then x :: mergeUnion xs (y :: ys)
    else if x > y then y :: mergeUnion (x :: xs) ys
    else x :: mergeUnion xs ys
termination_by xs ys => xs.length + ys.length

end Cut


namespace Abc

/-- All live (non-deleted) objects of the network, in array order. -/
def liveObjs (n : AbcNtk) : List AbcObj := n.vObjs.filterMap id

/-- `Nm_ManFindNameById`: the name attached to an object id, if any. -/
def nmFindNameById (n : AbcNtk) (i : Nat) : Option Nat :=
  (n.names.find? (fun e => e.1 == i)).map (·.2)

/-- `Nm_ManFindIdByNameTwoTypes` for the PI/BO types: the id of a CI
carrying the given name, if any. -/
def nmFindIdByNameTwoTypes (n : AbcNtk) (nm : Nat) : Option Nat :=
  (n.names.find? (fun e =>
    e.2 == nm &&
      (match abcNtkObj n e.1 with
       | some o => abcObjIsCi o
       | none => false))).map (·.1)

/-- Whether a list has pairwise-distinct entries (the C code sorts and
compares adjacent entries, which detects exactly a duplicate). -/
def distinctList {α : Type} [DecidableEq α] : List α → Bool
  | [] => true
  | x :: t => !(t.contains x) && distinctList t

/-- `Abc_NodeSetTravIdPrevious` (`abc.h` line 241). -/
def abcNodeSetTravIdPrevious (n : AbcNtk) (i : Nat) : AbcNtk :=
  abcNodeSetTravId n i (n.nTravIds - 1)

/-- `Abc_NtkCleanCopy`: clear the copy field of every object. -/
def abcNtkCleanCopy (n : AbcNtk) : AbcNtk :=
  { n with vObjs := n.vObjs.map (fun x => x.map (fun o => { o with pCopy := none })) }

/-- The CI/CO-count checks at the head of `Abc_NtkDoCheck`
(`abcCheck.c` lines 85-102). -/
def abcNtkCheckCounts (n : AbcNtk) : Bool :=
  !(abcNtkHasOnlyLatchBoxes n) ||
    ((n.vPis.length + abcNtkLatchNum n == n.vCis.length) &&
     (n.vPos.length + abcNtkLatchNum n == n.vCos.length))

/-- `Abc_NtkCheckNames` (`abcCheck.c` lines 149-204): every CI and CO
has a name, every named id is a live object, CI names and CO names are
each unique, and a CO sharing its name with a CI links directly to
it. -/
def abcNtkCheckNames (n : AbcNtk) : Bool :=
  (n.vCis.all (fun i => (nmFindNameById n i).isSome)) &&
  (n.vCos.all (fun i => (nmFindNameById n i).isSome)) &&
  (n.names.all (fun e => (abcNtkObj n e.1).isSome)) &&
  distinctList (n.vCis.filterMap (nmFindNameById n)) &&
  distinctList (n.vCos.filterMap (nmFindNameById n)) &&
  (n.vCos.all (fun i =>
    match abcNtkObj n i with
    | none => false
    | some co =>
      match nmFindNameById n i with
      | none => false
      | some nm =>
        match nmFindIdByNameTwoTypes n nm with
        | none => true
        | some ci => abcObjFanin0 co == ci))

/-- `Abc_NtkCheckPis` (`abcCheck.c` lines 217-252): list entries are
PIs without logic functions or fanins, and every PI object is listed. -/
def abcNtkCheckPis (n : AbcNtk) : Bool :=
  (n.vPis.all (fun i =>
    match abcNtkObj n i with
    | some o => (o.otype == .pi) && (o.pData == 0) && (o.vFanins.length == 0)
    | none => false)) &&
  ((liveObjs n).all (fun o => !(o.otype == AbcType.pi) || n.vPis.contains o.oid))

/-- `Abc_NtkCheckPos` (`abcCheck.c` lines 265-305). -/
def abcNtkCheckPos (n : AbcNtk) : Bool :=
  (n.vPos.all (fun i =>
    match abcNtkObj n i with
    | some o => (o.otype == .po) && (o.pData == 0) && (o.vFanins.length == 1)
        && (abcObjFanoutNum o == 0)
    | none => false)) &&
  ((liveObjs n).all (fun o => !(o.otype == AbcType.po) || n.vPos.contains o.oid))

/-- `Abc_NtkCheckObj` (`abcCheck.c` lines 318-381): ids are in range and
the fanin/fanout lists are mutually consistent.  Duplicated fanins or
fanouts only print a warning in the C code and do not fail the check. -/
def abcNtkCheckObj (n : AbcNtk) (o : AbcObj) : Bool :=
  (o.oid < n.vObjs.length) &&
  (o.vFanins.all (fun f =>
    match abcNtkObj n f with
    | some fo => fo.vFanouts.contains o.oid
    | none => false)) &&
  (o.vFanouts.all (fun g =>
    match abcNtkObj n g with
    | some go => go.vFanins.contains o.oid
    | none => false))

/-- Modelled from the spec: `Abc_AigCheck` (file `abcAig.c` is not in
the source tree) verifies the strashed-AIG invariants of spec section 3:
every AND node has two fanins in canonical (ascending-id) order, no
constant fanin (trivial-freeness), a phase bit consistent with its
fanins, and no two AND nodes share the fanin pair. -/
def abcAigCheck (n : AbcNtk) : Bool :=
  ((liveObjs n).all (fun o => !(abcObjIsNode o) || (
    (o.vFanins.length == 2) &&
    (abcObjFanin0 o < abcObjFanin1 o) &&
    (!(abcObjFanin0 o == 0)) && (!(abcObjFanin1 o == 0)) &&
    ((match abcNtkObj n (abcObjFanin0 o), abcNtkObj n (abcObjFanin1 o) with
      | some a, some b =>
          o.fPhase == ((xor a.fPhase o.fCompl0) && (xor b.fPhase o.fCompl1))
      | _, _ => false))))) &&
  distinctList ((liveObjs n).filterMap (fun o =>
    if abcObjIsNode o
    then some (abcObjFanin0 o, o.fCompl0, abcObjFanin1 o, o.fCompl1)
    else none))

/-- `Abc_NtkCheckLatch` (`abcCheck.c` lines 394-444) at a box id. -/
def abcNtkCheckLatchAt (n : AbcNtk) (i : Nat) : Bool :=
  match abcNtkObj n i with
  | none => false
  | some o =>
    (o.otype == AbcType.latch) &&
    (1 ≤ o.pData && o.pData ≤ 3) &&
    (o.vFanins.length == 1) && (abcObjFanoutNum o == 1) &&
    (match abcNtkObj n (abcObjFanin0 o) with
     | some bi => (bi.vFanins.length == 1) && (abcObjFanoutNum bi == 1)
     | none => false) &&
    (match abcNtkObj n (o.vFanouts.getD 0 0) with
     | some bo => bo.vFanins.length == 1
     | none => false)

/-- `Abc_NtkIsAcyclic_rec` (`abcDfs.c` lines 245-282): fueled DFS with
the two-traversal-ID scheme; a node already carrying the current ID is
on the active path, signalling a combinational loop. -/
def abcNtkIsAcyclicRec : Nat → AbcNtk → Nat → Bool × AbcNtk
  | 0, n, _ => (false, n)
  | fuel + 1, n, i =>
    match abcNtkObj n i with
    | none => (true, n)
    | some o =>
      if abcObjIsCi o || abcObjIsLatch o || o.otype == AbcType.const1 then (true, n)
      else if abcNodeIsTravIdCurrent n i then (false, n)
      else
        let n1 := abcNodeSetTravIdCurrent n i
        let r := o.vFanins.foldl (fun (acc : Bool × AbcNtk) f =>
          if !acc.1 then acc
          else if abcNodeIsTravIdPrevious acc.2 f then acc
          else abcNtkIsAcyclicRec fuel acc.2 f) (true, n1)
        if r.1 then (true, abcNodeSetTravIdPrevious r.2 i) else (false, r.2)

/-- `Abc_NtkIsAcyclic` (`abcDfs.c` lines 302-328). -/
def abcNtkIsAcyclic (n : AbcNtk) : Bool :=
  let n0 := abcNtkIncrementTravId (abcNtkIncrementTravId n)
  (n0.vCos.foldl (fun (acc : Bool × AbcNtk) coId =>
    if !acc.1 then acc
    else
      match abcNtkObj acc.2 coId with
      | none => acc
      | some co =>
        let d := abcObjFanin0 co
        if abcNodeIsTravIdPrevious acc.2 d then acc
        else abcNtkIsAcyclicRec (acc.2.vObjs.length + 1) acc.2 d) (true, n0)).1

/-- `Abc_NtkDoCheck` (`abcCheck.c` lines 80-136).  Note line 121: the
result of `Abc_AigCheck` is computed but discarded, so the strashed-AIG
invariants do not influence the return value. -/
def abcNtkDoCheck (n : AbcNtk) : Bool :=
  if !abcNtkCheckCounts n then false
  else if !abcNtkCheckNames n then false
  else
    let n1 := abcNtkCleanCopy n
    if !abcNtkCheckPis n1 then false
    else if !abcNtkCheckPos n1 then false
    else if !(liveObjs n1).all (abcNtkCheckObj n1) then false
    else
      let _discarded := abcAigCheck n1
      if !n1.vBoxes.all (abcNtkCheckLatchAt n1) then false
      else if !abcNtkIsAcyclic n1 then false
      else true

/-- A concrete strashed network whose single AND node has the constant
node as a fanin, violating trivial-freeness (spec invariant 2) while
satisfying every connectivity, name, terminal, latch and acyclicity
check. -/
def c5Net : AbcNtk :=
  { vObjs :=
      [some { oid := 0, otype := .const1, vFanins := [], fCompl0 := false, fCompl1 := false,
              vFanouts := [2], nFanouts := 1, fPhase := true, pData := 0, pCopy := none },
       some { oid := 1, otype := .pi, vFanins := [], fCompl0 := false, fCompl1 := false,
              vFanouts := [2], nFanouts := 1, fPhase := false, pData := 0, pCopy := none },
       some { oid := 2, otype := .node, vFanins := [0, 1], fCompl0 := false, fCompl1 := false,
              vFanouts := [3], nFanouts := 1, fPhase := false, pData := 0, pCopy := none },
       some { oid := 3, otype := .po, vFanins := [2], fCompl0 := false, fCompl1 := false,
              vFanouts := [], nFanouts := 0, fPhase := false, pData := 0, pCopy := none }]
    vPis := [1], vPos := [3], vCis := [1], vCos := [3], vBoxes := []
    nTravIds := 1, vTravIds := [], names := [(1, 10), (3, 11)], table := [] }

end Abc


namespace Mffc

structure MObj where
  ci : Bool
  a : Nat
  b : Nat
deriving DecidableEq, Repr

def upd (s : Nat → Nat) (x v : Nat) : Nat → Nat :=
  fun y => if y = x then v else s y

def mInternal (g : Nat → Option MObj) (v : Nat) : Prop :=
  ∃ o, g v = some o ∧ o.ci = false

def mFaninOf (g : Nat → Option MObj) (p x : Nat) : Prop :=
  ∃ o, g p = some o ∧ (o.a = x ∨ o.b = x)

def mContrib (g : Nat → Option MObj) (v x : Nat) : Nat :=
  match g v with
  | some o =>
    if o.ci then 0
    else (if o.a = x then 1 else 0) + (if o.b = x then 1 else 0)
  | none => 0

def mEdges (g : Nat → Option MObj) (l : List Nat) (x : Nat) : Nat :=
  (l.map (fun v => mContrib g v x)).sum

structure MRes where
  s : Nat → Nat
  cnt : Nat
  vis : List Nat

def mPass (g : Nat → Option MObj) (fRef : Bool) : Nat → (Nat → Nat) → Nat → Option MRes
  | 0, _, _ => none
  | fuel + 1, s, i =>
    match g i with
    | none => some ⟨s, 0, [i]⟩
    | some o =>
      if o.ci then some ⟨s, 0, [i]⟩
      else
        let c0 := if fRef then s o.a + 1 else s o.a - 1
        let s1 := upd s o.a c0
        let t0 := if fRef then s o.a else c0
        match (if t0 = 0 then mPass g fRef fuel s1 o.a else some ⟨s1, 0, []⟩) with
        | none => none
        | some r0 =>
          let c1 := if fRef then r0.s o.b + 1 else r0.s o.b - 1
          let s2 := upd r0.s o.b c1
          let t1 := if fRef then r0.s o.b else c1
          match (if t1 = 0 then mPass g fRef fuel s2 o.b else some ⟨s2, 0, []⟩) with
          | none => none
          | some r1 => some ⟨r1.s, 1 + r0.cnt + r1.cnt, i :: (r0.vis ++ r1.vis)⟩

/-- Bool test for an internal (non-CI, present) object. -/

def mInternalB (g : Nat → Option MObj) (v : Nat) : Bool :=
  match g v with
  | some o => !o.ci
  | none => false

/-- The elements of `U` not occurring in `Q`. -/

def rem (U Q : List Nat) : List Nat :=
  U.filter (fun u => decide (u ∉ Q))

/-- Well-formedness of the static graph data for the reference passes. -/

structure GOk (g : Nat → Option MObj) (U : List Nat) (rank : Nat → Nat) : Prop where
  ranklt : ∀ u x, mInternal g u → mFaninOf g u x → rank x < rank u
  ab : ∀ u o, g u = some o → o.ci = false → o.a ≠ o.b
  uclosed : ∀ u ∈ U, ∀ x, mFaninOf g u x → mInternal g x → x ∈ U
  uint : ∀ u ∈ U, mInternal g u
  unodup : U.Nodup

structure DPost (g : Nat → Option MObj) (U : List Nat) (rank extra : Nat → Nat)
    (P : List Nat) (i : Nat) (s : Nat → Nat) (r : MRes) : Prop where
  nodup : r.vis.Nodup
  disj : ∀ x ∈ r.vis, x ∉ P
  self_mem : i ∈ r.vis
  state : ∀ x, r.s x = mEdges g (rem U (P ++ r.vis)) x + extra x
  cnt : r.cnt = (r.vis.filter (fun v => mInternalB g v)).length
  fresh : ∀ x, x ∉ P → x ∉ r.vis → r.s x = 0 → s x = 0
  pos : ∀ x ∈ U, x ∉ P → x ∉ r.vis → 0 < r.s x
  drained : ∀ x ∈ r.vis, x ≠ i → r.s x = 0 ∧ extra x = 0
  parent : ∀ x ∈ r.vis, x ≠ i → ∃ p ∈ r.vis, mInternal g p ∧ mFaninOf g p x
  rankle : ∀ x ∈ r.vis, rank x ≤ rank i
  visU : ∀ x ∈ r.vis, mInternal g x → x ∈ U

/-- Postcondition of one conditional-recursion step of the dereference
pass: after decrementing the count of fanin `f`, the pass recurses into
`f` exactly when the new count is zero. -/

structure BPost (g : Nat → Option MObj) (U : List Nat) (rank extra : Nat → Nat)
    (P : List Nat) (f : Nat) (s : Nat → Nat) (r : MRes) : Prop where
  nodup : r.vis.Nodup
  disj : ∀ x ∈ r.vis, x ∉ P
  state : ∀ x, r.s x = mEdges g (rem U (P ++ r.vis)) x + extra x
  cnt : r.cnt = (r.vis.filter (fun v => mInternalB g v)).length
  fresh : ∀ x, x ∉ P → x ∉ r.vis → r.s x = 0 → s x = 0
  pos : ∀ x ∈ U, x ∉ P → x ∉ r.vis → 0 < r.s x
  drained : ∀ x ∈ r.vis, r.s x = 0 ∧ extra x = 0
  parent : ∀ x ∈ r.vis, x ≠ f → ∃ p ∈ r.vis, mInternal g p ∧ mFaninOf g p x
  rankle : ∀ x ∈ r.vis, rank x ≤ rank f
  mem_zero : s f = 0 → f ∈ r.vis
  visU : ∀ x ∈ r.vis, mInternal g x → x ∈ U

structure RPost (g : Nat → Option MObj) (U : List Nat) (rank extra : Nat → Nat)
    (Q : List Nat) (i : Nat) (s : Nat → Nat) (r : MRes) : Prop where
  nodup : r.vis.Nodup
  self_mem : i ∈ r.vis
  state : ∀ x, r.s x = mEdges g (rem U (rem Q r.vis)) x + extra x
  cnt : r.cnt = (r.vis.filter (fun v => mInternalB g v)).length
  visQ : ∀ x ∈ r.vis, x ≠ i → mInternal g x → x ∈ Q
  mono : ∀ x, s x ≤ r.s x
  zero_vis : ∀ x, s x = 0 → x ∈ r.vis ∨ r.s x = 0
  pos_vis : ∀ x ∈ r.vis, x ≠ i → 0 < r.s x
  avoid : ∀ x, 0 < s x → x ∈ r.vis → x = i
  rankle : ∀ x ∈ r.vis, rank x ≤ rank i

/-- Postcondition of one conditional-recursion step of the reference
pass: the count of fanin `f` is incremented and the pass recurses into
`f` exactly when the old count was zero. -/

structure RBPost (g : Nat → Option MObj) (U : List Nat) (rank extra : Nat → Nat)
    (Q : List Nat) (f : Nat) (s : Nat → Nat) (r : MRes) : Prop where
  nodup : r.vis.Nodup
  state : ∀ x, r.s x = mEdges g (rem U (rem Q r.vis)) x +
    (extra x + (if f = x then 1 else 0))
  cnt : r.cnt = (r.vis.filter (fun v => mInternalB g v)).length
  visQ : ∀ x ∈ r.vis, mInternal g x → x ∈ Q
  mono : ∀ x, s x ≤ r.s x
  zero_vis : ∀ x, s x = 0 → x ∈ r.vis ∨ r.s x = 0
  pos_vis : ∀ x ∈ r.vis, 0 < r.s x
  avoid : ∀ x, 0 < s x → x ∈ r.vis → False
  mem_zero : s f = 0 → f ∈ r.vis
  rankle : ∀ x ∈ r.vis, rank x ≤ rank f

end Mffc

namespace Abc

def abcNtkFanoutCount (n : AbcNtk) (i : Nat) : Nat :=
  match abcNtkObj n i with
  | some o => o.nFanouts
  | none => 0

/-- Overwrite `pNode->vFanouts.nSize` of the object stored at id `i`. -/

def abcNtkWriteFanout (n : AbcNtk) (i : Nat) (k : Nat) : AbcNtk :=
  { n with
    vObjs := n.vObjs.set i ((abcNtkObj n i).map (fun o => { o with nFanouts := k })) }

/-- `Abc_NodeRefDeref` (`abcRefs.c` lines 69-100): label the node when
`fLabel` is set, return 0 for a CI, and otherwise process the two
fanins: when `fRef` is set each fanin count is incremented and the call
recurses if the old count was zero; otherwise each fanin count is
decremented and the call recurses if the new count is zero.  The C
recursion terminates by acyclicity; here a fuel argument bounds the
depth. -/

def abcNodeRefDeref : Nat → AbcNtk → Nat → Bool → Bool → AbcNtk × Nat
  | 0, n, _, _, _ => (n, 0)
  | fuel + 1, n, i, fRef, fLabel =>
    let n0 := if fLabel then abcNodeSetTravIdCurrent n i else n
    match abcNtkObj n0 i with
    | none => (n0, 0)
    | some o =>
      if abcObjIsCi o then (n0, 0)
      else
        let f0 := abcObjFanin0 o
        let f1 := abcObjFanin1 o
        let c0 := abcNtkFanoutCount n0 f0
        let c0n := if fRef then c0 + 1 else c0 - 1
        let n1 := abcNtkWriteFanout n0 f0 c0n
        let t0 := if fRef then c0 else c0n
        let p0 := if t0 = 0 then abcNodeRefDeref fuel n1 f0 fRef fLabel else (n1, 0)
        let c1 := abcNtkFanoutCount p0.1 f1
        let c1n := if fRef then c1 + 1 else c1 - 1
        let n3 := abcNtkWriteFanout p0.1 f1 c1n
        let t1 := if fRef then c1 else c1n
        let p1 := if t1 = 0 then abcNodeRefDeref fuel n3 f1 fRef fLabel else (n3, 0)
        (p1.1, 1 + p0.2 + p1.2)

/-- `Abc_NodeMffcLabelAig` (`abcRefs.c` lines 44-56): dereference with
labelling, then the mirror reference pass; returns the first count. -/

def abcNodeMffcLabelAig (n : AbcNtk) (i : Nat) : AbcNtk × Nat :=
  match abcNtkObj n i with
  | none => (n, 0)
  | some o =>
    if abcObjFaninNum o = 0 then (n, 0)
    else
      let d := abcNodeRefDeref (abcNtkObjNumMax n + 1) n i false true
      let r := abcNodeRefDeref (abcNtkObjNumMax n + 1) d.1 i true false
      (r.1, d.2)

/-- The static view of a network that the reference-counting pass
reads: CI flag and the two fanin ids of each object. -/

def abcGraphView (n : AbcNtk) : Nat → Option Mffc.MObj := fun i =>
  match abcNtkObj n i with
  | some o => some ⟨abcObjIsCi o, abcObjFanin0 o, abcObjFanin1 o⟩
  | none => none

/-- The reference-count map of a network. -/

def abcFanView (n : AbcNtk) : Nat → Nat := fun i => abcNtkFanoutCount n i

/-- The ids of the live `Abc_ObjIsNode` objects. -/

def abcNodeIds (n : AbcNtk) : List Nat :=
  (List.range n.vObjs.length).filter (fun j =>
    match abcNtkObj n j with
    | some o => abcObjIsNode o
    | none => false)

/-- The ids whose traversal ID is the current one. -/

def abcMarkedIds (n : AbcNtk) : List Nat :=
  (List.range n.vObjs.length).filter (fun x => abcNodeIsTravIdCurrent n x)

structure SimRes (n : AbcNtk) (fLabel : Bool) (r : Mffc.MRes) (res : AbcNtk × Nat) : Prop where
  cnt : res.2 = r.cnt
  objs : ∀ j, abcNtkObj res.1 j = (abcNtkObj n j).map (fun o => { o with nFanouts := r.s j })
  absent : ∀ j, abcNtkObj n j = none → r.s j = abcFanView n j
  len : res.1.vObjs.length = n.vObjs.length
  ntrav : res.1.nTravIds = n.nTravIds
  trav : ∀ x, abcNodeTravId res.1 x =
    if fLabel = true ∧ x ∈ r.vis then n.nTravIds else abcNodeTravId n x
  pis : res.1.vPis = n.vPis
  pos : res.1.vPos = n.vPos
  cis : res.1.vCis = n.vCis
  cos : res.1.vCos = n.vCos
  boxes : res.1.vBoxes = n.vBoxes
  names : res.1.names = n.names
  table : res.1.table = n.table

/-- A small strashed network: PIs 0 and 1, AND node 2 = (0,1),
AND node 3 = (0,2), PO 4 driven by 3. -/
def c4Net : AbcNtk :=
  { vObjs :=
      [some { oid := 0, otype := .pi, vFanins := [], fCompl0 := false, fCompl1 := false,
              vFanouts := [2, 3], nFanouts := 2, fPhase := false, pData := 0, pCopy := none },
       some { oid := 1, otype := .pi, vFanins := [], fCompl0 := false, fCompl1 := false,
              vFanouts := [2], nFanouts := 1, fPhase := false, pData := 0, pCopy := none },
       some { oid := 2, otype := .node, vFanins := [0, 1], fCompl0 := false, fCompl1 := false,
              vFanouts := [3], nFanouts := 1, fPhase := false, pData := 0, pCopy := none },
       some { oid := 3, otype := .node, vFanins := [0, 2], fCompl0 := false, fCompl1 := true,
              vFanouts := [4], nFanouts := 1, fPhase := false, pData := 0, pCopy := none },
       some { oid := 4, otype := .po, vFanins := [3], fCompl0 := false, fCompl1 := false,
              vFanouts := [], nFanouts := 0, fPhase := false, pData := 0, pCopy := none }],
    vPis := [0, 1], vPos := [4], vCis := [0, 1], vCos := [4], vBoxes := [],
    nTravIds := 1, vTravIds := [], names := [], table := [] }

/-- `Abc_ObjRegular(pFanin)->vFanouts.nSize++` over the cut leaves
(`rwrEva.c` lines 110-112, `abcRefactor.c` lines 157-158). -/
def abcBumpFanouts (n : AbcNtk) (cut : List Nat) : AbcNtk :=
  cut.foldl (fun net c => abcNtkWriteFanout net c (abcNtkFanoutCount net c + 1)) n

/-- The matching decrements of the boundary (`rwrEva.c` lines
117-119). -/
def abcUnbumpFanouts (n : AbcNtk) (cut : List Nat) : AbcNtk :=
  cut.foldl (fun net c => abcNtkWriteFanout net c (abcNtkFanoutCount net c - 1)) n

/-- The network-facing effect of evaluating one cut of a node
(`rwrEva.c` lines 109-121; identically `abcRefactor.c` lines 155-166):
bump the fanin boundary, increment the traversal ID, label and restore
the MFFC of the node, unbump the boundary.  The candidate evaluation
itself (`Rwr_CutEvaluate` and `Dec_GraphToNetworkCount`) only reads the
network; cut-manager and rewriting-manager state is outside the
network. -/
def rwrCutStepNet (node : Nat) (net : AbcNtk) (cut : List Nat) : AbcNtk :=
  abcUnbumpFanouts
    ((abcNodeMffcLabelAig (abcNtkIncrementTravId (abcBumpFanouts net cut)) node).1) cut

/-- The network-facing effect of `Rwr_NodeRewrite` over its cut loop. -/
def rwrNodeRewriteNet (n : AbcNtk) (node : Nat) (cuts : List (List Nat)) : AbcNtk :=
  cuts.foldl (rwrCutStepNet node) n

/-- One iteration of the node loop of `Abc_NtkRewrite` (`abcRewrite.c`
lines 91-105): evaluate the node with `Rwr_NodeRewrite` (whose returned
gain is the oracle `nGain`, computed from the precomputed library), and
call `Dec_GraphUpdateNetwork` only when
`nGain > 0 || (nGain == 0 && fUseZeros)` holds. -/
def abcNtkRewriteStep (n : AbcNtk) (node : Nat) (cuts : List (List Nat)) (nGain : Int)
    (fUseZeros : Bool) (update : AbcNtk → AbcNtk) : AbcNtk :=
  let n1 := rwrNodeRewriteNet n node cuts
  if 0 < nGain ∨ (nGain = 0 ∧ fUseZeros = true) then update n1 else n1

/-- The acceptance test of `Abc_NodeRefactor` (`abcRefactor.c` lines
168-172): the factored form is kept unless
`nNodesAdded == -1 || (nNodesAdded == nNodesSaved && !fUseZeros)`. -/
def abcNodeRefactorAccept (nNodesAdded nNodesSaved : Int) (fUseZeros : Bool) : Bool :=
  !((nNodesAdded == -1) || ((nNodesAdded == nNodesSaved) && !fUseZeros))

/-- `Abc_NodeConeTruth` (`abcRefactor.c` lines 61-101) computes the
truth table of the cut cone by storing truth-table pointers into the
`pCopy` scratch field of the cut leaves (line 69) and of every
collected cone node (line 98); these writes are not undone.  The
stored values are abstracted by `copyf`. -/
def abcWriteCopies (n : AbcNtk) (ids : List Nat) (copyf : Nat → Option Nat) : AbcNtk :=
  { n with vObjs := n.vObjs.map (fun slot => slot.map (fun o =>
      if o.oid ∈ ids then { o with pCopy := copyf o.oid } else o)) }

/-- The network-facing effect of `Abc_NodeRefactor` (`abcRefactor.c`
lines 130-180) up to its acceptance test: `Abc_NodeConeTruth` writes
the `pCopy` scratch of the cut leaves and cone nodes, then the fanin
boundary is bumped, the traversal ID incremented, the MFFC labelled
and restored, and the boundary unbumped; `Kit_TruthToGraph` and
`Dec_GraphToNetworkCount` only read the network. -/
def abcNodeRefactorEvalNet (n : AbcNtk) (node : Nat) (vFanins cone : List Nat)
    (copyf : Nat → Option Nat) : AbcNtk :=
  rwrCutStepNet node (abcWriteCopies n (vFanins ++ cone) copyf) vFanins

/-- One iteration of the node loop of `Abc_NtkRefactor`: the network
effect of `Abc_NodeRefactor` followed by `Dec_GraphUpdateNetwork`
exactly when a factored form was returned. -/
def abcNtkRefactorStep (n : AbcNtk) (node : Nat) (vFanins cone : List Nat)
    (copyf : Nat → Option Nat) (accept : Bool) (update : AbcNtk → AbcNtk) : AbcNtk :=
  let n1 := abcNodeRefactorEvalNet n node vFanins cone copyf
  if accept then update n1 else n1

/-- Two networks with the same objects, object order, and collector
lists: everything except the traversal-ID state coincides. -/
def abcSameShell (n n2 : AbcNtk) : Prop :=
  n2.vObjs = n.vObjs ∧ n2.vPis = n.vPis ∧ n2.vPos = n.vPos ∧ n2.vCis = n.vCis ∧
  n2.vCos = n.vCos ∧ n2.vBoxes = n.vBoxes ∧ n2.names = n.names ∧ n2.table = n.table

/-- Two networks with the same collector lists, names and hash table;
the object arrays are compared separately. -/
def abcSameLists (n n2 : AbcNtk) : Prop :=
  n2.vPis = n.vPis ∧ n2.vPos = n.vPos ∧ n2.vCis = n.vCis ∧ n2.vCos = n.vCos ∧
  n2.vBoxes = n.vBoxes ∧ n2.names = n.names ∧ n2.table = n.table

/-- The fields of an object that define its wiring: everything except
the per-node scratch (the `fPhase` simulation-normalization bit,
`pData`, `pCopy`). -/
def abcObjWire (o : AbcObj) :
    Nat × AbcType × List Nat × Bool × Bool × List Nat × Nat :=
  (o.oid, o.otype, o.vFanins, o.fCompl0, o.fCompl1, o.vFanouts, o.nFanouts)

/-- The wiring view of the object array: which nodes exist and how
they are connected. -/
def abcWireView (n : AbcNtk) :
    List (Option (Nat × AbcType × List Nat × Bool × Bool × List Nat × Nat)) :=
  n.vObjs.map (fun slot => slot.map abcObjWire)

/-- Every object field except the `pCopy` scratch pointer. -/
def abcObjNoCopy (o : AbcObj) :
    Nat × AbcType × List Nat × Bool × Bool × List Nat × Nat × Bool × Nat :=
  (o.oid, o.otype, o.vFanins, o.fCompl0, o.fCompl1, o.vFanouts, o.nFanouts,
    o.fPhase, o.pData)

/-- The object array seen through every field but `pCopy`. -/
def abcNoCopyView (n : AbcNtk) :
    List (Option (Nat × AbcType × List Nat × Bool × Bool × List Nat × Nat × Bool × Nat)) :=
  n.vObjs.map (fun slot => slot.map abcObjNoCopy)

/-- `Abc_NodeSetTravIdCurrent` over a list of visited nodes. -/
def abcMarkList (n : AbcNtk) (marks : List Nat) : AbcNtk :=
  marks.foldl (fun m x => abcNodeSetTravIdCurrent m x) n

/-- `Abc_NodeMffcInside` (`abcRefs.c` lines 219-238): bump the leaf
fanouts, dereference the node's MFFC (`Abc_NodeDeref_rec`, lines
113-126, which is the dereferencing, non-labelling mode of the
embedded `abcNodeRefDeref`), mark the dereferenced cone under a fresh
traversal ID (`Abc_NodeMffcConeSupp`, lines 197-206, whose visited set
is the `marks` list), reference the MFFC back (`Abc_NodeRef_rec`,
lines 139-150), and unbump the leaves. -/
def abcNodeMffcInsideNet (n : AbcNtk) (node : Nat) (vLeaves marks : List Nat) : AbcNtk :=
  let n1 := abcBumpFanouts n vLeaves
  let n2 := (abcNodeRefDeref (abcNtkObjNumMax n + 1) n1 node false false).1
  let n3 := abcMarkList (abcNtkIncrementTravId n2) marks
  let n4 := (abcNodeRefDeref (abcNtkObjNumMax n + 1) n3 node true false).1
  abcUnbumpFanouts n4 vLeaves

/-- The network-facing effect of `Abc_ManResubEval` (`abcResub.c`
lines 1470-1540): `Abc_NodeMffcInside`, then `Abc_ManResubCollectDivs`
— a second traversal-ID increment with marking (lines 313-317 and
346-355) — then `Abc_ManResubSimulate`, which overwrites the `pData`
simulation pointer and the `fPhase` normalization bit of every divisor
(lines 396-402 and 422-429) without restoring them; the divisor checks
and the graph construction only read the network. -/
def abcManResubEvalNet (n : AbcNtk) (node : Nat) (vLeaves marks1 marks2 divs : List Nat)
    (dataf : Nat → Nat) (phasef : Nat → Bool) : AbcNtk :=
  let n1 := abcNodeMffcInsideNet n node vLeaves marks1
  let n2 := abcMarkList (abcNtkIncrementTravId n1) marks2
  { n2 with vObjs := n2.vObjs.map (fun slot => slot.map (fun o =>
      if o.oid ∈ divs then { o with pData := dataf o.oid, fPhase := phasef o.oid }
      else o)) }

/-- One iteration of the node loop of `Abc_NtkResubstitute`
(`abcResub.c` lines 137-157): compute a cut, evaluate the node, and
call `Dec_GraphUpdateNetwork` exactly when a factored form was
returned. -/
def abcNtkResubStep (n : AbcNtk) (node : Nat) (vLeaves marks1 marks2 divs : List Nat)
    (dataf : Nat → Nat) (phasef : Nat → Bool) (found : Bool)
    (update : AbcNtk → AbcNtk) : AbcNtk :=
  let n1 := abcManResubEvalNet n node vLeaves marks1 marks2 divs dataf phasef
  if found then update n1 else n1

/-- The fanin literals an object's Boolean function reads: none for the
constant and the CIs, both fanin edges for an AND node, the single
driving edge for a CO. -/
def abcReadLits (o : AbcObj) : List (Nat × Bool) :=
  if o.otype = AbcType.const1 then []
  else if abcObjIsCi o then []
  else if abcObjIsNode o then
    [(abcObjFanin0 o, o.fCompl0), (abcObjFanin1 o, o.fCompl1)]
  else [(abcObjFanin0 o, o.fCompl0)]

/-- The Boolean function computed at an object under a CI assignment
`inp`: constant 1 evaluates to true, a CI reads `inp`, an AND node
conjoins its two fanin edges (xor-ing each with its complement bit),
and a CO forwards its driving edge. -/
def abcEvalObj (n : AbcNtk) (inp : Nat → Bool) : Nat → Nat → Bool
  | 0, _ => false
  | fuel + 1, i =>
    match abcNtkObj n i with
    | none => false
    | some o =>
      if o.otype = AbcType.const1 then true
      else if abcObjIsCi o then inp i
      else if abcObjIsNode o then
        (Bool.xor (abcEvalObj n inp fuel (abcObjFanin0 o)) o.fCompl0) &&
        (Bool.xor (abcEvalObj n inp fuel (abcObjFanin1 o)) o.fCompl1)
      else Bool.xor (abcEvalObj n inp fuel (abcObjFanin0 o)) o.fCompl0

/-- Evaluation with the canonical fuel derived from a rank function. -/
def abcEvalR (n : AbcNtk) (inp : Nat → Bool) (rank : Nat → Nat) (i : Nat) : Bool :=
  abcEvalObj n inp (rank i + 1) i

/-- Evaluation of an edge literal (object id plus complement bit). -/
def abcEvalLitR (n : AbcNtk) (inp : Nat → Bool) (rank : Nat → Nat) (l : Nat × Bool) : Bool :=
  Bool.xor (abcEvalR n inp rank l.1) l.2

/-- Acyclicity witness: a rank function that strictly decreases along
every fanin edge the evaluator reads. -/
def RankOk (n : AbcNtk) (rank : Nat → Nat) : Prop :=
  ∀ i o, abcNtkObj n i = some o → ∀ l ∈ abcReadLits o, rank l.1 < rank i

/-- Conjunction of a list of Booleans. -/
def bconj (l : List Bool) : Bool := l.foldr (fun a b => a && b) true

/-- Modelled from the spec: the per-object effect of `Abc_AigReplace`
(file `abcAig.c` is not in `src`): every fanin edge that points at the
replaced node is redirected to the replacement literal, xor-ing the
edge's complement bit with the literal's.  Reference counts and the
deletion of the dangling old cone are omitted: they do not affect the
combinational functions. -/
def abcReplaceObj (root : Nat) (nl : Nat × Bool) (o : AbcObj) : AbcObj :=
  { o with
    vFanins := o.vFanins.map (fun f => if f = root then nl.1 else f),
    fCompl0 := if o.vFanins.getD 0 0 = root then Bool.xor o.fCompl0 nl.2 else o.fCompl0,
    fCompl1 := if o.vFanins.getD 1 0 = root then Bool.xor o.fCompl1 nl.2 else o.fCompl1 }

/-- Modelled from the spec: `Abc_AigReplace` (file `abcAig.c` is not in
`src`) as called by `Dec_GraphUpdateNetwork` (`decAbc.c` line 151):
redirect every fanout of the root, including the CO drivers, to the
replacement literal. -/
def abcAigReplaceModel (n : AbcNtk) (root : Nat) (nl : Nat × Bool) : AbcNtk :=
  { n with vObjs := n.vObjs.map (fun s => s.map (abcReplaceObj root nl)) }

/-- The replacement skeleton of a rewrite, refactor, or resubstitute
pass: the sequence of accepted `Abc_AigReplace` redirections performed
by `Dec_GraphUpdateNetwork` (`decAbc.c` lines 142-152), each sending a
root to a literal standing for the structure built for it.  The node
creation performed by `Dec_GraphToNetwork` (`decAbc.c` lines 38-58)
is not represented: this models only the redirection part of a
pass. -/
def abcUpdateSeq (n : AbcNtk) : List (Nat × Nat × Bool) → AbcNtk
  | [] => n
  | u :: us => abcUpdateSeq (abcAigReplaceModel n u.1 (u.2.1, u.2.2)) us

/-- `Abc_ObjNot` on an edge literal. -/
def litNot (l : Nat × Bool) : Nat × Bool := (l.1, !l.2)

/-- `Abc_NodeBalanceCone_rec` (`abcBalance.c` lines 243-280) over the
supergate accumulator: a literal already collected is absorbed; a
literal whose complement was collected aborts with the constant-0
result; a complemented edge, a non-node, a shared node (unless
duplicating), or an oversized supergate starts a new gate and is
pushed; otherwise the AND node is flattened into its two fanin edges.
The `fMarkB` visited marks are represented by membership in the
accumulator, which the code keeps in sync with the marks. -/
def abcBalanceConeRec (n : AbcNtk) (fDup fSel : Bool) :
    Nat → Nat × Bool → Bool → List (Nat × Bool) → Option (Option (List (Nat × Bool)))
  | 0, _, _, _ => none
  | fuel + 1, p, fFirst, S =>
    if p ∈ S then some (some S)
    else if litNot p ∈ S then some none
    else
      match abcNtkObj n p.1 with
      | none => some (some (S ++ [p]))
      | some o =>
        if !fFirst && (p.2 || !(abcObjIsNode o) ||
            (!fDup && !fSel && decide (1 < o.nFanouts)) || decide (10000 < S.length)) then
          some (some (S ++ [p]))
        else
          match abcBalanceConeRec n fDup fSel fuel (abcObjFanin0 o, o.fCompl0) false S with
          | none => none
          | some none => some none
          | some (some S1) =>
            match abcBalanceConeRec n fDup fSel fuel (abcObjFanin1 o, o.fCompl1) false S1 with
            | none => none
            | some none => some none
            | some (some S2) => some (some S2)

/-- The balancing loop of `Abc_NodeBalance_rec` (`abcBalance.c` lines
173-185) at the level of the computed Boolean values: while more than
one literal remains, pop two and push their conjunction. -/
def abcBalanceBuild : Nat → List Bool → Bool
  | 0, l => bconj l
  | fuel + 1, l =>
    match l with
    | x :: y :: rest => abcBalanceBuild fuel ((x && y) :: rest)
    | [x] => x
    | [] => true

/-- A strashed network with a pair of duplicate AND nodes: PIs 0 and 1,
AND nodes 2 and 3 both computing `0 & 1`, PO 4 driven by node 3. -/
def c1Net : AbcNtk :=
  { vObjs :=
      [some { oid := 0, otype := .pi, vFanins := [], fCompl0 := false, fCompl1 := false,
              vFanouts := [2, 3], nFanouts := 2, fPhase := false, pData := 0, pCopy := none },
       some { oid := 1, otype := .pi, vFanins := [], fCompl0 := false, fCompl1 := false,
              vFanouts := [2, 3], nFanouts := 2, fPhase := false, pData := 0, pCopy := none },
       some { oid := 2, otype := .node, vFanins := [0, 1], fCompl0 := false, fCompl1 := false,
              vFanouts := [], nFanouts := 0, fPhase := false, pData := 0, pCopy := none },
       some { oid := 3, otype := .node, vFanins := [0, 1], fCompl0 := false, fCompl1 := false,
              vFanouts := [4], nFanouts := 1, fPhase := false, pData := 0, pCopy := none },
       some { oid := 4, otype := .po, vFanins := [3], fCompl0 := false, fCompl1 := false,
              vFanouts := [], nFanouts := 0, fPhase := false, pData := 0, pCopy := none }],
    vPis := [0, 1], vPos := [4], vCis := [0, 1], vCos := [4], vBoxes := [],
    nTravIds := 1, vTravIds := [], names := [], table := [] }

end Abc

namespace Aig

/-- `Aig_And` on two equal references returns that reference and leaves
the manager untouched. -/
theorem aigAnd_self (m : AigMan) (p : ARef) : aigAnd m p p = (m, p) := by
  simp [aigAnd]

/-- Negating a reference is an involution. -/
theorem aigNot_aigNot (p : ARef) : aigNot (aigNot p) = p := by
  simp [aigNot]

/-- A reference never equals its own negation. -/
theorem aigNot_ne (p : ARef) : p ≠ aigNot p := by
  intro h
  have hc := congrArg ARef.c h
  simp [aigNot] at hc

end Aig


namespace Aig

theorem refBump_id (i : Nat) (o : AigObj) : (refBump i o).id = o.id := by
  unfold refBump; split <;> rfl

theorem refBump_type (i : Nat) (o : AigObj) : (refBump i o).type = o.type := by
  unfold refBump; split <;> rfl

theorem refBump_fanin0 (i : Nat) (o : AigObj) : (refBump i o).fanin0 = o.fanin0 := by
  unfold refBump; split <;> rfl

theorem refBump_fanin1 (i : Nat) (o : AigObj) : (refBump i o).fanin1 = o.fanin1 := by
  unfold refBump; split <;> rfl

theorem manInv_start : ManInv aigManStart := by
  constructor
  · intro j o hj
    match j with
    | 0 => simp [aigManStart] at hj; simp [← hj]
    | n + 1 => simp [aigManStart] at hj
  · intro o ho hand
    simp [aigManStart] at ho
    rw [ho] at hand
    simp at hand
  · intro k i hk
    simp [aigManStart] at hk

theorem manInv_createCi (m : AigMan) (h : ManInv m) : ManInv (aigObjCreateCi m).1 := by
  obtain ⟨hid, hcov, hsound⟩ := h
  constructor
  · intro j o hj
    simp only [aigObjCreateCi] at hj
    rcases lt_trichotomy j m.vObjs.length with hlt | heq | hgt
    · rw [List.get?_append hlt] at hj
      exact hid j o hj
    · subst heq
      rw [List.get?_append_right (le_refl _)] at hj
      simp at hj
      simp [← hj]
    · rw [List.get?_append_right (le_of_lt hgt)] at hj
      have : j - m.vObjs.length ≥ 1 := by omega
      match hj2 : j - m.vObjs.length, this with
      | n + 1, _ => rw [hj2] at hj; simp at hj
  · intro o ho hand
    simp only [aigObjCreateCi, List.mem_append, List.mem_singleton] at ho
    rcases ho with ho | ho
    · obtain ⟨a, b, h0, h1, hl⟩ := hcov o ho hand
      exact ⟨a, b, h0, h1, hl⟩
    · rw [ho] at hand; simp at hand
  · intro k i hk
    simp only [aigObjCreateCi] at hk
    obtain ⟨o, hgo, ht, h0, h1⟩ := hsound k i hk
    refine ⟨o, ?_, ht, h0, h1⟩
    have hlen : i < m.vObjs.length := by
      by_contra hge
      rw [List.get?_eq_none.2 (by omega)] at hgo
      exact Option.noConfusion hgo
    simp only [aigObjCreateCi]
    rw [List.get?_append hlen]
    exact hgo

theorem manInv_aigObjCreate (m : AigMan) (g0 g1 : ARef) (h : ManInv m)
    (hmiss : aigTableLookup m g0 g1 = none) : ManInv (aigObjCreate m g0 g1).1 := by
  obtain ⟨hid, hcov, hsound⟩ := h
  set len := m.vObjs.length with hlen
  set o : AigObj :=
    { type := .and, fanin0 := some g0, fanin1 := some g1,
      fPhase := (aigObjPhaseReal m g0) && (aigObjPhaseReal m g1),
      nRefs := 0, travId := 0, id := len, pData := none } with ho
  have hobjs : (aigObjCreate m g0 g1).1.vObjs
      = ((m.vObjs ++ [o]).map (refBump (aigRegular g0).id)).map (refBump (aigRegular g1).id) := rfl
  have htab : (aigObjCreate m g0 g1).1.table = (andKey g0 g1, len) :: m.table := rfl
  have hget : ∀ j, (aigObjCreate m g0 g1).1.vObjs.get? j
      = ((m.vObjs ++ [o]).get? j).map
          (fun x => refBump (aigRegular g1).id (refBump (aigRegular g0).id x)) := by
    intro j
    rw [hobjs, List.get?_map, List.get?_map, Option.map_map]
    rfl
  have hlook : ∀ a b, aigTableLookup (aigObjCreate m g0 g1).1 a b
      = (if andKey g0 g1 = andKey a b then some len else aigTableLookup m a b) := by
    intro a b
    unfold aigTableLookup
    rw [htab]
    by_cases hk : andKey g0 g1 = andKey a b
    · rw [List.find?_cons_of_pos _ (by simpa using hk), if_pos hk]
      rfl
    · rw [List.find?_cons_of_neg _ (by simpa using hk), if_neg hk]
  constructor
  · intro j o' hj
    rw [hget j] at hj
    rcases horig : (m.vObjs ++ [o]).get? j with _ | orig
    · rw [horig] at hj; exact Option.noConfusion hj
    · rw [horig] at hj
      have hj' : refBump (aigRegular g1).id (refBump (aigRegular g0).id orig) = o' :=
        Option.some.inj hj
      have : o'.id = orig.id := by rw [← hj', refBump_id, refBump_id]
      rw [this]
      rcases lt_trichotomy j len with hlt | heq | hgt
      · rw [List.get?_append hlt] at horig
        exact hid j orig horig
      · subst heq
        rw [List.get?_append_right (le_refl _)] at horig
        simp at horig
        rw [← horig]
      · rw [List.get?_append_right (by omega)] at horig
        have h1 : j - m.vObjs.length ≥ 1 := by omega
        match hj2 : j - m.vObjs.length, h1 with
        | n + 1, _ => rw [hj2] at horig; simp at horig
  · intro o' ho' hand
    rw [hobjs] at ho'
    simp only [List.mem_map, List.mem_append, List.mem_singleton] at ho'
    obtain ⟨y, ⟨orig, horig, hy⟩, ho'⟩ := ho'
    have htype : o'.type = orig.type := by
      rw [← ho', ← hy, refBump_type, refBump_type]
    have hf0 : o'.fanin0 = orig.fanin0 := by
      rw [← ho', ← hy, refBump_fanin0, refBump_fanin0]
    have hf1 : o'.fanin1 = orig.fanin1 := by
      rw [← ho', ← hy, refBump_fanin1, refBump_fanin1]
    have hidq : o'.id = orig.id := by
      rw [← ho', ← hy, refBump_id, refBump_id]
    rcases horig with horig | horig
    · obtain ⟨a, b, h0, h1, hl⟩ := hcov orig horig (htype ▸ hand)
      refine ⟨a, b, hf0 ▸ h0, hf1 ▸ h1, ?_⟩
      rw [hlook a b]
      have hne : ¬(andKey g0 g1 = andKey a b) := by
        intro hkey
        rw [show aigTableLookup m g0 g1 = aigTableLookup m a b from by
          unfold aigTableLookup; rw [hkey]] at hmiss
        rw [hl] at hmiss
        exact Option.noConfusion hmiss
      rw [if_neg hne, hl, hidq]
    · refine ⟨g0, g1, ?_, ?_, ?_⟩
      · rw [hf0, horig]
      · rw [hf1, horig]
      · rw [hlook g0 g1, if_pos rfl, hidq, horig]
  · intro k i hk
    rw [htab] at hk
    rcases List.mem_cons.1 hk with hk | hk
    · have hkk : k = andKey g0 g1 ∧ i = len := by
        constructor
        · exact congrArg Prod.fst hk
        · exact congrArg Prod.snd hk
      obtain ⟨hk1, hk2⟩ := hkk
      refine ⟨refBump (aigRegular g1).id (refBump (aigRegular g0).id o), ?_, ?_, ?_, ?_⟩
      · rw [hget i, hk2]
        rw [List.get?_append_right (le_refl _)]
        simp
      · rw [refBump_type, refBump_type]
      · rw [refBump_fanin0, refBump_fanin0, hk1]
        rfl
      · rw [refBump_fanin1, refBump_fanin1, hk1]
        rfl
    · obtain ⟨o2, hgo, ht, h0, h1⟩ := hsound k i hk
      have hlt : i < m.vObjs.length := by
        by_contra hge
        rw [List.get?_eq_none.2 (by omega)] at hgo
        exact Option.noConfusion hgo
      refine ⟨refBump (aigRegular g1).id (refBump (aigRegular g0).id o2), ?_, ?_, ?_, ?_⟩
      · rw [hget i, List.get?_append hlt, hgo]
        rfl
      · rw [refBump_type, refBump_type]; exact ht
      · rw [refBump_fanin0, refBump_fanin0]; exact h0
      · rw [refBump_fanin1, refBump_fanin1]; exact h1

theorem manInv_aigAnd (m : AigMan) (p q : ARef) (h : ManInv m) : ManInv (aigAnd m p q).1 := by
  unfold aigAnd
  split_ifs with h1 h2 h3 h4 h5 h6
  iterate 6 exact h
  · cases hg : aigObjCreateGhost p q with
    | mk g0 g1 =>
      change ManInv (match aigTableLookup m g0 g1 with
        | some i => (m, ARef.mk i false)
        | none => aigObjCreate m g0 g1).1
      cases hl : aigTableLookup m g0 g1 with
      | some i => exact h
      | none => exact manInv_aigObjCreate m g0 g1 h hl

theorem manInv_aigRun (m : AigMan) (ops : List AigOp) (h : ManInv m) :
    ManInv (aigRun m ops) := by
  induction ops generalizing m with
  | nil => exact h
  | cons op ops ih =>
    cases op with
    | createCi => exact ih _ (manInv_createCi m h)
    | mkAnd p q => exact ih _ (manInv_aigAnd m p q h)

theorem strash_distinct (m : AigMan) (h : ManInv m) :
    ∀ o1 ∈ m.vObjs, ∀ o2 ∈ m.vObjs, o1.type = .and → o2.type = .and →
      o1 ≠ o2 → canonTuple o1 ≠ canonTuple o2 := by
  intro o1 h1 o2 h2 t1 t2 hne heq
  obtain ⟨a1, b1, f01, f11, l1⟩ := h.covered o1 h1 t1
  obtain ⟨a2, b2, f02, f12, l2⟩ := h.covered o2 h2 t2
  have hc1 : canonTuple o1 = (a1.id, a1.c, b1.id, b1.c) := by
    unfold canonTuple
    rw [f01, f11]
  have hc2 : canonTuple o2 = (a2.id, a2.c, b2.id, b2.c) := by
    unfold canonTuple
    rw [f02, f12]
  rw [hc1, hc2] at heq
  have ha : a1 = a2 := by
    cases a1; cases a2
    simp_all
  have hb : b1 = b2 := by
    cases b1; cases b2
    simp_all
  rw [ha, hb] at l1
  rw [l1] at l2
  have hii : o1.id = o2.id := Option.some.inj l2
  obtain ⟨j1, hj1⟩ := List.get?_of_mem h1
  obtain ⟨j2, hj2⟩ := List.get?_of_mem h2
  have e1 := h.idPos j1 o1 hj1
  have e2 := h.idPos j2 o2 hj2
  have : j1 = j2 := by omega
  rw [this, hj2] at hj1
  exact hne (Option.some.inj hj1).symm

end Aig

namespace Aig

/-- Claim C2: after any sequence of `And` (and CI-creation) calls on one
manager, the set of live AND nodes has pairwise-distinct canonical fanin
tuples `(Regular(fanin0).id, IsCompl(fanin0), Regular(fanin1).id,
IsCompl(fanin1))`; in particular, after `x = And(a, b)`, a later call
`And(b, a)` returns `x` itself and creates no second AND node. -/
theorem c2_strash_unique :
    (∀ ops : List AigOp, ∀ o1 ∈ (aigRun aigManStart ops).vObjs,
       ∀ o2 ∈ (aigRun aigManStart ops).vObjs,
       o1.type = .and → o2.type = .and → o1 ≠ o2 → canonTuple o1 ≠ canonTuple o2)
  ∧ ((aigAnd (aigAnd ((aigObjCreateCi (aigObjCreateCi aigManStart).1).1)
        (aigObjCreateCi aigManStart).2 (aigObjCreateCi (aigObjCreateCi aigManStart).1).2).1
        (aigObjCreateCi (aigObjCreateCi aigManStart).1).2 (aigObjCreateCi aigManStart).2).2
      = (aigAnd ((aigObjCreateCi (aigObjCreateCi aigManStart).1).1)
          (aigObjCreateCi aigManStart).2 (aigObjCreateCi (aigObjCreateCi aigManStart).1).2).2
    ∧ aigManAndNum
        (aigAnd (aigAnd ((aigObjCreateCi (aigObjCreateCi aigManStart).1).1)
          (aigObjCreateCi aigManStart).2 (aigObjCreateCi (aigObjCreateCi aigManStart).1).2).1
          (aigObjCreateCi (aigObjCreateCi aigManStart).1).2 (aigObjCreateCi aigManStart).2).1 = 1) := by
  constructor
  · intro ops o1 h1 o2 h2 t1 t2 hne
    exact strash_distinct _ (manInv_aigRun aigManStart ops manInv_start) o1 h1 o2 h2 t1 t2 hne
  · exact ⟨by decide, by decide⟩

/-- Witness for C2: on the concrete run `c2RunOps` (two CIs, then
`And(a,b)` and `And(a,¬b)`), the two resulting AND nodes have distinct
canonical tuples. -/
theorem c2_strash_unique_witness :
    canonTuple ((aigRun aigManStart c2RunOps).vObjs.getD 3 aigDummyObj)
      ≠ canonTuple ((aigRun aigManStart c2RunOps).vObjs.getD 4 aigDummyObj) :=
  c2_strash_unique.1 c2RunOps _ (by decide) _ (by decide) (by decide) (by decide) (by decide)

/-- Claim C3: for all references `p` and `q`: `And(p, p)` returns `p`;
`And(p, Not(p))` returns the complemented constant-1 node (constant 0);
if `Regular(p)` is the constant-1 node then `And(p, q)` returns `q` when
`p` is constant 1 and constant 0 otherwise, and symmetrically for `q`;
in every one of these trivial cases the manager is unchanged, so no new
AND node is allocated. -/
theorem c3_aigAnd_trivial (m : AigMan) (p q : ARef) :
    aigAnd m p p = (m, p)
  ∧ aigAnd m p (aigNot p) = (m, aigNot (aigConst1Ref m))
  ∧ (aigRegular p = aigConst1Ref m →
      aigAnd m p q = (m, if p = aigConst1Ref m then q else aigNot (aigConst1Ref m)))
  ∧ (aigRegular q = aigConst1Ref m →
      aigAnd m p q = (m, if q = aigConst1Ref m then p else aigNot (aigConst1Ref m))) := by
  refine ⟨aigAnd_self m p, ?_, ?_, ?_⟩
  · unfold aigAnd
    rw [if_neg (aigNot_ne p), if_pos (aigNot_aigNot p).symm]
  · intro hp
    rcases p with ⟨pid, pc⟩
    have hpid : pid = 0 := congrArg ARef.id hp
    subst hpid
    rcases q with ⟨qid, qc⟩
    by_cases hq : qid = 0
    · subst hq
      cases pc <;> cases qc <;>
        simp_all [aigAnd, aigNot, aigRegular, aigConst1Ref]
    · cases pc <;> cases qc <;>
        simp_all [aigAnd, aigNot, aigRegular, aigConst1Ref]
  · intro hq
    rcases q with ⟨qid, qc⟩
    have hqid : qid = 0 := congrArg ARef.id hq
    subst hqid
    rcases p with ⟨pid, pc⟩
    by_cases hp : pid = 0
    · subst hp
      cases pc <;> cases qc <;>
        simp_all [aigAnd, aigNot, aigRegular, aigConst1Ref]
    · cases pc <;> cases qc <;>
        simp_all [aigAnd, aigNot, aigRegular, aigConst1Ref]

/-- Witness for C3: with `p` the constant-0 reference and `q` a fresh
reference, `And(p, q)` evaluates to constant 0 and the manager is left
unchanged. -/
theorem c3_aigAnd_trivial_witness :
    aigRegular ⟨0, true⟩ = aigConst1Ref aigManStart ∧
    aigAnd aigManStart ⟨0, true⟩ ⟨5, false⟩
      = (aigManStart, aigNot (aigConst1Ref aigManStart)) := by
  refine ⟨by decide, ?_⟩
  have h := (c3_aigAnd_trivial aigManStart ⟨0, true⟩ ⟨5, false⟩).2.2.1 (by decide)
  rw [h, if_neg (by decide)]

end Aig

/-- Counterexample to claim C9: on a concrete manager whose counter sits
at the threshold `(1<<30)-1` and whose node carries traversal ID 7,
`Aig_ManIncrementTravId` neither restarts the counter at 1 nor zeroes
the stored traversal IDs. -/
theorem c9_travId_counterexample :
    (Aig.aigManIncrementTravId Aig.c9SatMan).nTravIds ≠ 1
  ∧ ¬ (∀ o ∈ (Aig.aigManIncrementTravId Aig.c9SatMan).vObjs, o.travId = 0) := by
  refine ⟨by decide, ?_⟩
  intro h
  have := h ((Aig.aigManIncrementTravId Aig.c9SatMan).vObjs.getD 0 Aig.aigDummyObj) (by decide)
  revert this
  decide

/-- Claim C9 (amended): incrementing the traversal-ID counter always
increments it by one and never changes any stored traversal ID; at the
threshold `(1<<30)-1` the AIG manager merely clears the per-node scratch
data pointers (`Aig_ManCleanData`), below the threshold it changes
nothing else, and the network-level increment only allocates the
traversal-ID array on first use. -/
theorem c9_travId_amended (m : Aig.AigMan) (n : Abc.AbcNtk) :
    ((Aig.aigManIncrementTravId m).nTravIds = m.nTravIds + 1)
  ∧ ((Aig.aigManIncrementTravId m).vObjs.map Aig.AigObj.travId = m.vObjs.map Aig.AigObj.travId)
  ∧ (m.nTravIds ≥ (2 ^ 30 : Int) - 1 →
      (Aig.aigManIncrementTravId m).vObjs.map Aig.AigObj.pData = m.vObjs.map (fun _ => none))
  ∧ (m.nTravIds < (2 ^ 30 : Int) - 1 →
      (Aig.aigManIncrementTravId m).vObjs = m.vObjs)
  ∧ ((Abc.abcNtkIncrementTravId n).nTravIds = n.nTravIds + 1)
  ∧ (n.vTravIds ≠ [] → (Abc.abcNtkIncrementTravId n).vTravIds = n.vTravIds) := by
  refine ⟨?_, ?_, ?_, ?_, ?_, ?_⟩
  · simp only [Aig.aigManIncrementTravId]
    split <;> simp [Aig.aigManCleanData]
  · simp only [Aig.aigManIncrementTravId]
    split <;> simp [Aig.aigManCleanData]
  · intro h
    simp only [Aig.aigManIncrementTravId]
    rw [if_pos h]
    simp [Aig.aigManCleanData, Function.comp_def]
  · intro h
    simp only [Aig.aigManIncrementTravId]
    rw [if_neg (not_le.2 h)]
  · simp only [Abc.abcNtkIncrementTravId]
    split <;> rfl
  · intro h
    simp only [Abc.abcNtkIncrementTravId]
    rw [if_neg h]

/-- Witness for the amended C9: evaluated at the concrete saturated
manager, the increment clears the scratch data and bumps the counter. -/
theorem c9_travId_amended_witness :
    Aig.c9SatMan.nTravIds ≥ (2 ^ 30 : Int) - 1 ∧
    (Aig.aigManIncrementTravId Aig.c9SatMan).vObjs.map Aig.AigObj.pData
      = Aig.c9SatMan.vObjs.map (fun _ => none) :=
  ⟨by decide, (c9_travId_amended Aig.c9SatMan Abc.abcEmptyNtk).2.2.1 (by decide)⟩

namespace Io

theorem or_128_eq_add {b : Nat} (hb : b < 128) : b ||| 128 = b + 128 := by
  have h := Nat.mul_add_lt_is_or (i := 7) (b := b) (by norm_num [hb]) 1
  rw [Nat.lor_comm]
  norm_num at h
  omega

theorem and_127_eq_mod (x : Nat) : x &&& 127 = x % 128 := by
  have := Nat.and_pow_two_sub_one_eq_mod x 7
  norm_num at this
  exact this

theorem ioWriteAigerEncode_arith (x : Nat) :
    ioWriteAigerEncode x
      = if x < 128 then [x] else (x % 128 + 128) :: ioWriteAigerEncode (x >>> 7) := by
  by_cases h : x < 128
  · rw [ioWriteAigerEncode, if_pos h, if_pos h]
  · rw [ioWriteAigerEncode, if_neg h, if_neg h]
    have hm : (x &&& 127) ||| 128 = x % 128 + 128 := by
      rw [and_127_eq_mod x]
      exact or_128_eq_add (Nat.mod_lt _ (by norm_num))
    rw [hm]

theorem shiftRight7_eq (x : Nat) : x >>> 7 = x / 128 := by
  rw [Nat.shiftRight_eq_div_pow]

theorem ioWriteAigerEncode_ne_nil (x : Nat) : ioWriteAigerEncode x ≠ [] := by
  rw [ioWriteAigerEncode_arith]
  split <;> simp

theorem ioAigerDecode_encode (x : Nat) : ioAigerDecode (ioWriteAigerEncode x) = x := by
  induction x using Nat.strong_induction_on with
  | _ x ih =>
    rw [ioWriteAigerEncode_arith]
    split
    · rename_i h
      simp only [ioAigerDecode]
      rw [and_127_eq_mod]
      simp [Nat.mod_eq_of_lt h]
    · rename_i h
      simp only [ioAigerDecode]
      have hrec : ioAigerDecode (ioWriteAigerEncode (x >>> 7)) = x >>> 7 := by
        apply ih
        rw [shiftRight7_eq]
        exact Nat.div_lt_self (by omega) (by norm_num)
      rw [hrec, and_127_eq_mod, Nat.shiftLeft_eq, shiftRight7_eq]
      have hlt : (x % 128 + 128) % 128 = x % 128 := by omega
      rw [hlt]
      have hor := Nat.mul_add_lt_is_or (i := 7) (b := x % 128)
        (Nat.mod_lt _ (by norm_num)) (x / 128)
      norm_num at hor ⊢
      rw [Nat.lor_comm, Nat.mul_comm] at hor
      rw [← hor]
      omega

theorem ioWriteAigerEncode_internal (x : Nat) :
    ∀ i, i + 1 < (ioWriteAigerEncode x).length →
      (ioWriteAigerEncode x).getD i 0 = (x >>> (7 * i)) % 128 + 128 := by
  induction x using Nat.strong_induction_on with
  | _ x ih =>
    intro i hi
    rw [ioWriteAigerEncode_arith] at hi ⊢
    split at hi
    · simp at hi
    · rename_i h
      rw [if_neg h]
      match i with
      | 0 =>
        simp [List.getD]
      | j + 1 =>
        simp only [List.length_cons] at hi
        have hrec := ih (x >>> 7)
          (by rw [shiftRight7_eq]; exact Nat.div_lt_self (by omega) (by norm_num)) j (by omega)
        simp only [List.getD_cons_succ]
        rw [hrec, ← Nat.shiftRight_add,
          show 7 + 7 * j = 7 * (j + 1) from by omega]

theorem getLast?_cons_of_ne_nil {a : Nat} {l : List Nat} (h : l ≠ []) :
    (a :: l).getLast? = l.getLast? := by
  cases l with
  | nil => exact absurd rfl h
  | cons b t => rfl

theorem ioWriteAigerEncode_last (x : Nat) :
    (ioWriteAigerEncode x).getLast? =
      some (x >>> (7 * ((ioWriteAigerEncode x).length - 1)))
    ∧ x >>> (7 * ((ioWriteAigerEncode x).length - 1)) < 128 := by
  induction x using Nat.strong_induction_on with
  | _ x ih =>
    rw [ioWriteAigerEncode_arith]
    split
    · rename_i h
      simp [h]
    · rename_i h
      have hlt : x >>> 7 < x := by
        rw [shiftRight7_eq]
        exact Nat.div_lt_self (by omega) (by norm_num)
      obtain ⟨h1, h2⟩ := ih (x >>> 7) hlt
      have hne := ioWriteAigerEncode_ne_nil (x >>> 7)
      have hpos : (ioWriteAigerEncode (x >>> 7)).length ≥ 1 := List.length_pos.2 hne
      constructor
      · rw [getLast?_cons_of_ne_nil hne, h1, ← Nat.shiftRight_add]
        simp only [List.length_cons]
        rw [show 7 + 7 * ((ioWriteAigerEncode (x >>> 7)).length - 1)
            = 7 * ((ioWriteAigerEncode (x >>> 7)).length + 1 - 1) from by omega]
      · rw [← Nat.shiftRight_add] at h2
        simp only [List.length_cons]
        have heq : 7 * ((ioWriteAigerEncode (x >>> 7)).length + 1 - 1)
            = 7 + 7 * ((ioWriteAigerEncode (x >>> 7)).length - 1) := by omega
        rw [heq]
        exact h2

theorem listIndexOf_eq_none_of_not_mem {l : List Nat} {a : Nat}
    (h : a ∉ l) : listIndexOf a l = none := by
  induction l with
  | nil => rfl
  | cons b t ih =>
    unfold listIndexOf
    rw [if_neg (by intro hba; exact h (by rw [← hba]; exact List.mem_cons_self b t))]
    rw [ih (fun hm => h (List.mem_cons_of_mem b hm))]
    rfl

theorem listIndexOf_eq_some_of_get? {l : List Nat} {a : Nat} {j : Nat}
    (hnd : l.Nodup) (hj : l.get? j = some a) : listIndexOf a l = some j := by
  induction l generalizing j with
  | nil => simp at hj
  | cons b t ih =>
    match j with
    | 0 =>
      simp at hj
      unfold listIndexOf
      rw [if_pos hj]
    | k + 1 =>
      simp only [List.get?_cons_succ] at hj
      have hmem : a ∈ t := List.get?_mem hj
      have hne : ¬ (b = a) := by
        intro hba
        rw [hba] at hnd
        exact (List.nodup_cons.1 hnd).1 hmem
      unfold listIndexOf
      rw [if_neg hne, ih (List.nodup_cons.1 hnd).2 hj]
      rfl

theorem listIndexOf_isSome_of_mem {l : List Nat} {a : Nat} (h : a ∈ l) :
    ∃ j, listIndexOf a l = some j := by
  induction l with
  | nil => simp at h
  | cons b t ih =>
    by_cases hb : b = a
    · exact ⟨0, by unfold listIndexOf; rw [if_pos hb]⟩
    · have hmem : a ∈ t := by
        rcases List.mem_cons.1 h with h1 | h1
        · exact absurd h1.symm hb
        · exact h1
      obtain ⟨j, hj⟩ := ih hmem
      refine ⟨j + 1, ?_⟩
      unfold listIndexOf
      rw [if_neg hb, hj]
      rfl

theorem abcAndIds_nodup (n : Abc.AbcNtk) : (abcAndIds n).Nodup :=
  (List.nodup_range _).filter _

theorem ioObjAigerNum_of_and (n : Abc.AbcNtk) (i j : Nat)
    (h0 : 0 ∉ abcAndIds n)
    (hdisj : ∀ a ∈ abcAndIds n, a ∉ n.vCis)
    (hj : (abcAndIds n).get? j = some i) :
    ioObjAigerNum n i = 1 + n.vCis.length + j := by
  have hmem : i ∈ abcAndIds n := List.get?_mem hj
  have hne : i ≠ abcAigConst1Id := by
    intro h
    rw [h] at hmem
    exact h0 hmem
  unfold ioObjAigerNum
  rw [if_neg hne]
  rw [listIndexOf_eq_none_of_not_mem (hdisj i hmem)]
  rw [listIndexOf_eq_some_of_get? (abcAndIds_nodup n) hj]

theorem ioObjAigerNum_pos (n : Abc.AbcNtk) (i : Nat)
    (hne : i ≠ 0) (hdom : i ∈ n.vCis ∨ i ∈ abcAndIds n) :
    1 ≤ ioObjAigerNum n i := by
  unfold ioObjAigerNum
  rw [if_neg (by simpa [abcAigConst1Id] using hne)]
  rcases hdom with hmem | hmem
  · obtain ⟨j, hj⟩ := listIndexOf_isSome_of_mem hmem
    rw [hj]
    show 1 ≤ 1 + j
    omega
  · cases hfi : listIndexOf i n.vCis with
    | some j =>
      show 1 ≤ 1 + j
      omega
    | none =>
      obtain ⟨j, hj⟩ := listIndexOf_isSome_of_mem hmem
      rw [hj]
      show 1 ≤ 1 + n.vCis.length + j
      omega

end Io

namespace Io

theorem ioObjMakeLit_false (v : Nat) : ioObjMakeLit v false = 2 * v := by
  unfold ioObjMakeLit
  rw [if_neg (by simp), Nat.or_zero, Nat.shiftLeft_eq]
  ring

theorem swap_pair_eq_min_max (a b : Nat) :
    (if a > b then (b, a) else (a, b)) = (min a b, max a b) := by
  rcases Nat.lt_or_ge b a with h | h
  · rw [if_pos h, show min a b = b from by omega, show max a b = a from by omega]
  · rw [if_neg (by omega), show min a b = a from by omega, show max a b = b from by omega]

theorem ioWriteAigerAnds_fold (n : Abc.AbcNtk) (l : List Nat) (acc : List Nat) :
    l.foldl (fun buf i =>
      match Abc.abcNtkObj n i with
      | some o =>
        let uLit := ioObjMakeLit (ioObjAigerNum n i) false
        let uLit0 := ioObjMakeLit (ioObjAigerNum n (Abc.abcObjFanin0 o)) o.fCompl0
        let uLit1 := ioObjMakeLit (ioObjAigerNum n (Abc.abcObjFanin1 o)) o.fCompl1
        let p := if uLit0 > uLit1 then (uLit1, uLit0) else (uLit0, uLit1)
        buf ++ ioWriteAigerEncode (uLit - p.2) ++ ioWriteAigerEncode (p.2 - p.1)
      | none => buf) acc
    = acc ++ (l.map (ioGateDeltaBytes n)).join := by
  induction l generalizing acc with
  | nil => simp
  | cons i t ih =>
    simp only [List.foldl_cons, List.map_cons, List.join]
    cases ho : Abc.abcNtkObj n i with
    | none =>
      rw [ih]
      unfold ioGateDeltaBytes
      rw [ho]
      simp
    | some o =>
      rw [ih]
      unfold ioGateDeltaBytes
      rw [ho]
      simp only [swap_pair_eq_min_max]
      simp [List.append_assoc]

/-- Claim C7: the AIGER writer emits, for each AND gate in order of
increasing LHS literal, the byte sequence `encode(lhs - rhs0)` followed
by `encode(rhs0 - rhs1)`, where `rhs0` is the larger of the two fanin
literals, and `encode(x)` writes `x` in 7-bit groups, least-significant
group first, with the high bit set on every byte except the final one
(byte values `(x >> 7i) % 128 + 128`, final byte `x >> 7(len-1) < 128`,
and the groups reassemble to `x`). -/
theorem c7_aiger_delta_encoding (n : Abc.AbcNtk)
    (h0 : 0 ∉ abcAndIds n) (hdisj : ∀ a ∈ abcAndIds n, a ∉ n.vCis) :
    (∀ x : Nat,
        ioWriteAigerEncode x ≠ []
      ∧ (∀ i, i + 1 < (ioWriteAigerEncode x).length →
          (ioWriteAigerEncode x).getD i 0 = (x >>> (7 * i)) % 128 + 128)
      ∧ (ioWriteAigerEncode x).getLast?
          = some (x >>> (7 * ((ioWriteAigerEncode x).length - 1)))
      ∧ x >>> (7 * ((ioWriteAigerEncode x).length - 1)) < 128
      ∧ ioAigerDecode (ioWriteAigerEncode x) = x)
  ∧ ioWriteAigerAnds n = ((abcAndIds n).map (ioGateDeltaBytes n)).join
  ∧ List.Chain' (· < ·)
      ((abcAndIds n).map (fun i => ioObjMakeLit (ioObjAigerNum n i) false)) := by
  refine ⟨?_, ?_, ?_⟩
  · intro x
    exact ⟨ioWriteAigerEncode_ne_nil x, ioWriteAigerEncode_internal x,
      (ioWriteAigerEncode_last x).1, (ioWriteAigerEncode_last x).2,
      ioAigerDecode_encode x⟩
  · unfold ioWriteAigerAnds
    rw [ioWriteAigerAnds_fold]
    rfl
  · rw [List.chain'_iff_get]
    intro i hi
    simp only [List.length_map] at hi
    have hlt : i < (abcAndIds n).length := by omega
    have hlt1 : i + 1 < (abcAndIds n).length := by omega
    rw [List.get_map, List.get_map]
    rw [ioObjMakeLit_false, ioObjMakeLit_false]
    have e1 := ioObjAigerNum_of_and n _ i h0 hdisj
      (by rw [List.get?_eq_get hlt])
    have e2 := ioObjAigerNum_of_and n _ (i + 1) h0 hdisj
      (by rw [List.get?_eq_get hlt1])
    rw [e1, e2]
    omega

/-- Witness for C7: the encoder round-trips the concrete value 300, and
on the concrete test network the emitted AND section equals the
predicted concatenation of delta blocks. -/
theorem c7_aiger_delta_encoding_witness :
    ioAigerDecode (ioWriteAigerEncode 300) = 300
  ∧ ioWriteAigerAnds ioTestNtk = ((abcAndIds ioTestNtk).map (ioGateDeltaBytes ioTestNtk)).join :=
  ⟨((c7_aiger_delta_encoding ioTestNtk (by decide) (by decide)).1 300).2.2.2.2,
   (c7_aiger_delta_encoding ioTestNtk (by decide) (by decide)).2.1⟩

/-- Claim C10: when the writer emits the literal for a
combinational-output driver (PO or latch next-state), the complement bit
is the fanin edge complement xor-ed with 1 exactly when the driver is
the constant node (AIGER variable 0), and is emitted unchanged for every
other driver. -/
theorem c10_const_driver_complement (n : Abc.AbcNtk) (co : Abc.AbcObj)
    (hdom : Abc.abcObjFanin0 co = 0 ∨ Abc.abcObjFanin0 co ∈ n.vCis
      ∨ Abc.abcObjFanin0 co ∈ abcAndIds n) :
    ioWriteAigerCoLit n co
      = if Abc.abcObjFanin0 co = abcAigConst1Id
        then ioObjMakeLit 0 (xor co.fCompl0 true)
        else ioObjMakeLit (ioObjAigerNum n (Abc.abcObjFanin0 co)) co.fCompl0 := by
  by_cases hd : Abc.abcObjFanin0 co = abcAigConst1Id
  · rw [if_pos hd]
    unfold ioWriteAigerCoLit
    have hz : ioObjAigerNum n (Abc.abcObjFanin0 co) = 0 := by
      unfold ioObjAigerNum
      rw [if_pos hd]
    rw [hz]
    simp
  · rw [if_neg hd]
    unfold ioWriteAigerCoLit
    have hdom2 : Abc.abcObjFanin0 co ∈ n.vCis ∨ Abc.abcObjFanin0 co ∈ abcAndIds n := by
      rcases hdom with h | h | h
      · exact absurd h hd
      · exact Or.inl h
      · exact Or.inr h
    have hpos := ioObjAigerNum_pos n (Abc.abcObjFanin0 co) (by simpa [abcAigConst1Id] using hd) hdom2
    have hnz : ¬ (ioObjAigerNum n (Abc.abcObjFanin0 co) = 0) := by omega
    simp [hnz]

/-- Witness for C10: on the concrete PO terminal driven by the constant
node, the emitted literal is `Io_ObjMakeLit(0, 0 xor 1)` = 1. -/
theorem c10_const_driver_complement_witness :
    ioWriteAigerCoLit ioTestNtk ioTestPoConst = ioObjMakeLit 0 (xor false true) := by
  have h := c10_const_driver_complement ioTestNtk ioTestPoConst (Or.inl (by decide))
  rw [h, if_pos (by decide)]
  decide

end Io

namespace Cut

theorem mergeUnion_nil_right (xs : List Nat) : mergeUnion xs [] = xs := by
  cases xs <;> simp [mergeUnion]

theorem mergeUnion_mem (xs ys : List Nat) :
    ∀ a, a ∈ mergeUnion xs ys ↔ a ∈ xs ∨ a ∈ ys := by
  induction xs, ys using mergeUnion.induct with
  | case1 ys => simp [mergeUnion]
  | case2 xs h => rw [mergeUnion_nil_right]; simp_all
  | case3 x xs y ys hlt ih =>
    intro a
    unfold mergeUnion
    rw [if_pos hlt]
    simp only [List.mem_cons, ih]
    tauto
  | case4 x xs y ys hlt hgt ih =>
    intro a
    unfold mergeUnion
    rw [if_neg hlt, if_pos hgt]
    simp only [List.mem_cons, ih]
    tauto
  | case5 x xs y ys hlt hgt ih =>
    intro a
    have hxy : x = y := by omega
    unfold mergeUnion
    rw [if_neg hlt, if_neg hgt]
    simp only [List.mem_cons, ih]
    subst hxy
    tauto

end Cut

namespace Cut

theorem mergeUnion_length_left (xs ys : List Nat) :
    xs.length ≤ (mergeUnion xs ys).length := by
  induction xs, ys using mergeUnion.induct with
  | case1 ys => simp [mergeUnion]
  | case2 xs h => rw [mergeUnion_nil_right]
  | case3 x xs y ys hlt ih =>
    unfold mergeUnion
    rw [if_pos hlt]
    simpa using ih
  | case4 x xs y ys hlt hgt ih =>
    unfold mergeUnion
    rw [if_neg hlt, if_pos hgt]
    simp only [List.length_cons] at ih ⊢
    omega
  | case5 x xs y ys hlt hgt ih =>
    unfold mergeUnion
    rw [if_neg hlt, if_neg hgt]
    simp only [List.length_cons] at ih ⊢
    omega

theorem mergeUnion_pairwise (xs ys : List Nat)
    (hxs : List.Pairwise (· < ·) xs) (hys : List.Pairwise (· < ·) ys) :
    List.Pairwise (· < ·) (mergeUnion xs ys) := by
  induction xs, ys using mergeUnion.induct with
  | case1 ys => simpa [mergeUnion] using hys
  | case2 xs h => rw [mergeUnion_nil_right]; exact hxs
  | case3 x xs y ys hlt ih =>
    unfold mergeUnion
    rw [if_pos hlt]
    rw [List.pairwise_cons] at hxs ⊢
    refine ⟨?_, ih hxs.2 hys⟩
    intro a ha
    rcases (mergeUnion_mem xs (y :: ys) a).1 ha with h1 | h1
    · exact hxs.1 a h1
    · rcases List.mem_cons.1 h1 with h2 | h2
      · omega
      · rw [List.pairwise_cons] at hys
        have := hys.1 a h2
        omega
  | case4 x xs y ys hlt hgt ih =>
    unfold mergeUnion
    rw [if_neg hlt, if_pos hgt]
    rw [List.pairwise_cons] at hys ⊢
    refine ⟨?_, ih hxs hys.2⟩
    intro a ha
    rcases (mergeUnion_mem (x :: xs) ys a).1 ha with h1 | h1
    · rcases List.mem_cons.1 h1 with h2 | h2
      · omega
      · rw [List.pairwise_cons] at hxs
        have := hxs.1 a h2
        omega
    · exact hys.1 a h1
  | case5 x xs y ys hlt hgt ih =>
    have hxy : x = y := by omega
    subst hxy
    unfold mergeUnion
    rw [if_neg hlt, if_neg hgt]
    rw [List.pairwise_cons] at hxs hys ⊢
    refine ⟨?_, ih hxs.2 hys.2⟩
    intro a ha
    rcases (mergeUnion_mem xs ys a).1 ha with h1 | h1
    · exact hxs.1 a h1
    · exact hys.1 a h1

theorem mergeUnion_diag (xs : List Nat) : mergeUnion xs xs = xs := by
  induction xs with
  | nil => simp [mergeUnion]
  | cons x t ih =>
    unfold mergeUnion
    rw [if_neg (by omega), if_neg (by omega), ih]

theorem pairwise_nodup {l : List Nat} (h : List.Pairwise (· < ·) l) : l.Nodup :=
  h.imp Nat.ne_of_lt

theorem mergeUnion_eq_left_of_length_le (xs ys : List Nat)
    (hxs : List.Pairwise (· < ·) xs) (hys : List.Pairwise (· < ·) ys)
    (hlen : (mergeUnion xs ys).length ≤ xs.length) : mergeUnion xs ys = xs := by
  have hsub : xs ⊆ mergeUnion xs ys := by
    intro a ha
    exact (mergeUnion_mem xs ys a).2 (Or.inl ha)
  have hsp := (pairwise_nodup hxs).subperm hsub
  have hperm := hsp.perm_of_length_le hlen
  exact (List.eq_of_perm_of_sorted hperm hxs
    (mergeUnion_pairwise xs ys hxs hys)).symm

theorem mergeUnion_eq_left_of_subset (xs ys : List Nat)
    (hxs : List.Pairwise (· < ·) xs) (hys : List.Pairwise (· < ·) ys)
    (hsub : ∀ y ∈ ys, y ∈ xs) : mergeUnion xs ys = xs := by
  apply mergeUnion_eq_left_of_length_le xs ys hxs hys
  have hu : mergeUnion xs ys ⊆ xs := by
    intro a ha
    rcases (mergeUnion_mem xs ys a).1 ha with h1 | h1
    · exact h1
    · exact hsub a h1
  have := (pairwise_nodup (mergeUnion_pairwise xs ys hxs hys)).subperm hu
  exact this.length_le

theorem mergeUnion_length_of_not_mem (xs ys : List Nat) (y : Nat)
    (hxs : List.Pairwise (· < ·) xs)
    (hy : y ∈ ys) (hny : y ∉ xs) :
    xs.length + 1 ≤ (mergeUnion xs ys).length := by
  have hsub : (y :: xs) ⊆ mergeUnion xs ys := by
    intro a ha
    rcases List.mem_cons.1 ha with h1 | h1
    · exact (mergeUnion_mem xs ys a).2 (Or.inr (h1 ▸ hy))
    · exact (mergeUnion_mem xs ys a).2 (Or.inl h1)
  have hnd : (y :: xs).Nodup := List.nodup_cons.2 ⟨hny, pairwise_nodup hxs⟩
  have := (hnd.subperm hsub).length_le
  simpa using this

end Cut

namespace Cut

theorem cutMergeLoop_spec (s : Nat) (xs ys : List Nat) :
    cutMergeLoop s xs ys
      = if (mergeUnion xs ys).length ≤ s then some (mergeUnion xs ys) else none := by
  induction s generalizing xs ys with
  | zero =>
    match xs, ys with
    | [], [] => simp [cutMergeLoop, mergeUnion]
    | x :: xs, [] =>
      rw [mergeUnion_nil_right]
      simp [cutMergeLoop]
    | [], y :: ys => simp [cutMergeLoop, mergeUnion]
    | x :: xs, y :: ys =>
      have h1 := mergeUnion_length_left (x :: xs) (y :: ys)
      simp only [cutMergeLoop]
      rw [if_neg (by simp), if_neg (by
        intro hle
        simp only [List.length_cons] at h1
        omega)]
  | succ s ih =>
    match xs, ys with
    | [], [] => simp [cutMergeLoop, mergeUnion]
    | x :: xs, [] =>
      simp only [cutMergeLoop]
      rw [ih xs [], mergeUnion_nil_right, mergeUnion_nil_right]
      by_cases h : xs.length ≤ s
      · rw [if_pos h, if_pos (by simp; omega)]
        rfl
      · rw [if_neg h, if_neg (by simp; omega)]
        rfl
    | [], y :: ys =>
      simp only [cutMergeLoop]
      rw [ih [] ys]
      have hu : mergeUnion ([] : List Nat) ys = ys := by simp [mergeUnion]
      have hu2 : mergeUnion ([] : List Nat) (y :: ys) = y :: ys := by simp [mergeUnion]
      rw [hu, hu2]
      by_cases h : ys.length ≤ s
      · rw [if_pos h, if_pos (by simp; omega)]
        rfl
      · rw [if_neg h, if_neg (by simp; omega)]
        rfl
    | x :: xs, y :: ys =>
      simp only [cutMergeLoop]
      rcases lt_trichotomy x y with hc | hc | hc
      · rw [if_pos hc, ih xs (y :: ys)]
        have hu : mergeUnion (x :: xs) (y :: ys) = x :: mergeUnion xs (y :: ys) := by
          conv_lhs => rw [mergeUnion]
          rw [if_pos hc]
        rw [hu]
        by_cases h : (mergeUnion xs (y :: ys)).length ≤ s
        · rw [if_pos h, if_pos (by simp; omega)]
          rfl
        · rw [if_neg h, if_neg (by simp; omega)]
          rfl
      · subst hc
        rw [if_neg (by omega), if_neg (by omega), ih xs ys]
        have hu : mergeUnion (x :: xs) (x :: ys) = x :: mergeUnion xs ys := by
          conv_lhs => rw [mergeUnion]
          rw [if_neg (by omega), if_neg (by omega)]
        rw [hu]
        by_cases h : (mergeUnion xs ys).length ≤ s
        · rw [if_pos h, if_pos (by simp; omega)]
          rfl
        · rw [if_neg h, if_neg (by simp; omega)]
          rfl
      · rw [if_neg (by omega), if_pos hc, ih (x :: xs) ys]
        have hu : mergeUnion (x :: xs) (y :: ys) = y :: mergeUnion (x :: xs) ys := by
          conv_lhs => rw [mergeUnion]
          rw [if_neg (by omega), if_pos hc]
        rw [hu]
        by_cases h : (mergeUnion (x :: xs) ys).length ≤ s
        · rw [if_pos h, if_pos (by simp; omega)]
          rfl
        · rw [if_neg h, if_neg (by simp; omega)]
          rfl

end Cut

namespace Cut

/-- Claim C8: for two cuts with strictly ascending leaf lists, the first
at least as large as the second and both within the cut-size limit,
`Cut_CutMergeTwo` returns the sorted-ascending union of the two leaf
lists, and returns `NULL` exactly when that union would have more than
`nVarsMax` leaves. -/
theorem c8_cut_merge (limit : Nat) (xs ys : List Nat)
    (hxs : List.Chain' (· < ·) xs) (hys : List.Chain' (· < ·) ys)
    (hlen : ys.length ≤ xs.length) (hxl : xs.length ≤ limit) (hyl : ys.length ≤ limit) :
    (List.Chain' (· < ·) (mergeUnion xs ys)
      ∧ (∀ a, a ∈ mergeUnion xs ys ↔ a ∈ xs ∨ a ∈ ys))
  ∧ (if (mergeUnion xs ys).length ≤ limit
     then cutMergeTwo limit xs ys = some (mergeUnion xs ys)
     else cutMergeTwo limit xs ys = none) := by
  have pxs := List.chain'_iff_pairwise.1 hxs
  have pys := List.chain'_iff_pairwise.1 hys
  refine ⟨⟨List.chain'_iff_pairwise.2 (mergeUnion_pairwise xs ys pxs pys),
    mergeUnion_mem xs ys⟩, ?_⟩
  unfold cutMergeTwo
  by_cases hb1 : xs.length = limit ∧ ys.length = limit
  · rw [if_pos hb1]
    by_cases heq : xs = ys
    · subst heq
      rw [if_pos rfl, mergeUnion_diag]
      rw [if_pos (by omega)]
    · rw [if_neg heq]
      have hgt : limit < (mergeUnion xs ys).length := by
        by_contra hle
        push_neg at hle
        have h1 := mergeUnion_eq_left_of_length_le xs ys pxs pys (by omega)
        have hsuby : ys ⊆ xs := by
          intro a ha
          have := (mergeUnion_mem xs ys a).2 (Or.inr ha)
          rw [h1] at this
          exact this
        have hsp := (pairwise_nodup pys).subperm hsuby
        have hperm := hsp.perm_of_length_le (by omega)
        exact heq ((List.eq_of_perm_of_sorted hperm pys pxs).symm)
      rw [if_neg (by omega)]
  · rw [if_neg hb1]
    by_cases hb2 : xs.length = limit
    · rw [if_pos hb2]
      by_cases hall : ys.all (fun y => xs.contains y)
      · rw [if_pos hall]
        have hsub : ∀ y ∈ ys, y ∈ xs := by
          intro y hy
          have := List.all_eq_true.1 hall y hy
          simpa using this
        rw [mergeUnion_eq_left_of_subset xs ys pxs pys hsub]
        rw [if_pos (by omega)]
      · rw [if_neg hall]
        have hex : ∃ y ∈ ys, y ∉ xs := by
          by_contra hc
          push_neg at hc
          apply hall
          rw [List.all_eq_true]
          intro y hy
          simpa using hc y hy
        obtain ⟨y, hy, hny⟩ := hex
        have := mergeUnion_length_of_not_mem xs ys y pxs hy hny
        rw [if_neg (by omega)]
    · rw [if_neg hb2]
      rw [cutMergeLoop_spec]
      by_cases h : (mergeUnion xs ys).length ≤ limit
      · rw [if_pos h, if_pos h]
      · rw [if_neg h, if_neg h]

/-- Witness for C8: merging the concrete sorted cuts `[1,3]` and `[2,3]`
under limit 4 yields `[1,2,3]`. -/
theorem c8_cut_merge_witness :
    cutMergeTwo 4 [1, 3] [2, 3] = some (mergeUnion [1, 3] [2, 3])
  ∧ mergeUnion [1, 3] [2, 3] = [1, 2, 3] := by
  have h := (c8_cut_merge 4 [1, 3] [2, 3] (by simp) (by simp)
    (by simp) (by simp) (by simp)).2
  have hu : mergeUnion [1, 3] [2, 3] = [1, 2, 3] := by
    simp [mergeUnion]
  constructor
  · rw [if_pos (by rw [hu]; simp)] at h
    exact h
  · exact hu

end Cut

namespace Abc

set_option maxRecDepth 40000 in
/-- Counterexample to claim C5: on the concrete network `c5Net`, whose
AND node has the constant node as a fanin (violating trivial-freeness,
spec invariant 2, as witnessed by the failing `Abc_AigCheck`),
`Abc_NtkDoCheck` nevertheless returns success, because the result of
`Abc_AigCheck` is discarded at `abcCheck.c` line 121. -/
theorem c5_check_counterexample :
    abcNtkDoCheck c5Net = true
  ∧ abcAigCheck c5Net = false
  ∧ (match abcNtkObj c5Net 2 with
     | some o => abcObjFanin0 o == 0
     | none => false) = true := by
  refine ⟨by decide, by decide, by decide⟩

/-- Claim C5 (amended): `Abc_NtkDoCheck` returns failure exactly when
the CI/CO-count, name, PI-list, PO-list, fanin/fanout-connectivity,
latch, or acyclicity checks fail; the strashed-AIG invariants (canonical
fanin order, trivial-freeness, structural-hash uniqueness, phase
consistency) are computed by `Abc_AigCheck` but its result is discarded,
so their violation does not cause failure. -/
theorem c5_check_amended (n : AbcNtk) :
    abcNtkDoCheck n =
      (abcNtkCheckCounts n && abcNtkCheckNames n
        && abcNtkCheckPis (abcNtkCleanCopy n) && abcNtkCheckPos (abcNtkCleanCopy n)
        && (liveObjs (abcNtkCleanCopy n)).all (abcNtkCheckObj (abcNtkCleanCopy n))
        && (abcNtkCleanCopy n).vBoxes.all (abcNtkCheckLatchAt (abcNtkCleanCopy n))
        && abcNtkIsAcyclic (abcNtkCleanCopy n)) := by
  simp only [abcNtkDoCheck]
  cases abcNtkCheckCounts n <;>
    cases abcNtkCheckNames n <;>
      cases abcNtkCheckPis (abcNtkCleanCopy n) <;>
        cases abcNtkCheckPos (abcNtkCleanCopy n) <;>
          cases (liveObjs (abcNtkCleanCopy n)).all (abcNtkCheckObj (abcNtkCleanCopy n)) <;>
            cases (abcNtkCleanCopy n).vBoxes.all (abcNtkCheckLatchAt (abcNtkCleanCopy n)) <;>
              cases abcNtkIsAcyclic (abcNtkCleanCopy n) <;> simp

end Abc

namespace Mffc

theorem upd_self (s : Nat → Nat) (x v : Nat) : upd s x v x = v := by
  simp [upd]

theorem upd_other (s : Nat → Nat) (x v y : Nat) (h : y ≠ x) : upd s x v y = s y := by
  simp [upd, h]

theorem mInternalB_iff (g : Nat → Option MObj) (v : Nat) :
    mInternalB g v = true ↔ mInternal g v := by
  unfold mInternalB mInternal
  cases h : g v with
  | none => simp
  | some o => simp [h]

theorem mem_rem (U Q : List Nat) (x : Nat) : x ∈ rem U Q ↔ x ∈ U ∧ x ∉ Q := by
  simp [rem]

theorem rem_congr (U Q Q' : List Nat) (h : ∀ u ∈ U, (u ∈ Q ↔ u ∈ Q')) :
    rem U Q = rem U Q' := by
  unfold rem
  apply List.filter_congr
  intro u hu
  simp [h u hu]

theorem mEdges_nil (g : Nat → Option MObj) (x : Nat) : mEdges g [] x = 0 := rfl

theorem mEdges_cons (g : Nat → Option MObj) (v : Nat) (l : List Nat) (x : Nat) :
    mEdges g (v :: l) x = mContrib g v x + mEdges g l x := by
  simp [mEdges]

theorem mEdges_perm (g : Nat → Option MObj) {l l' : List Nat} (h : l.Perm l') (x : Nat) :
    mEdges g l x = mEdges g l' x := by
  unfold mEdges
  exact List.Perm.sum_eq (h.map _)

theorem mContrib_le_mEdges (g : Nat → Option MObj) {v : Nat} {l : List Nat} (h : v ∈ l)
    (x : Nat) : mContrib g v x ≤ mEdges g l x := by
  unfold mEdges
  exact List.single_le_sum (fun _ _ => Nat.zero_le _) _ (List.mem_map_of_mem _ h)

theorem rem_sub (U Q Q' : List Nat) (h : ∀ u, u ∈ Q → u ∈ Q') :
    rem U Q' = (rem U Q).filter (fun u => decide (u ∉ Q')) := by
  unfold rem
  rw [List.filter_filter]
  apply List.filter_congr
  intro u _
  by_cases hq : u ∈ Q'
  · simp [hq, h]
  · have : u ∉ Q := fun hu => hq (h u hu)
    simp [hq, this]

theorem mEdges_filter_le (g : Nat → Option MObj) (p : Nat → Bool) (l : List Nat) (x : Nat) :
    mEdges g (l.filter p) x ≤ mEdges g l x := by
  induction l with
  | nil => exact Nat.le_refl _
  | cons v l ih =>
    rw [List.filter_cons]
    by_cases hv : p v = true
    · rw [if_pos hv, mEdges_cons, mEdges_cons]
      exact Nat.add_le_add_left ih _
    · rw [if_neg hv, mEdges_cons]
      exact le_trans ih (Nat.le_add_left _ _)

theorem mEdges_rem_anti (g : Nat → Option MObj) (U Q Q' : List Nat)
    (h : ∀ u, u ∈ Q → u ∈ Q') (x : Nat) :
    mEdges g (rem U Q') x ≤ mEdges g (rem U Q) x := by
  rw [rem_sub U Q Q' h]
  exact mEdges_filter_le g _ _ x

theorem rem_perm_cons (U Q : List Nat) (i : Nat) (hU : U.Nodup) (hiU : i ∈ U)
    (hiQ : i ∉ Q) : (rem U Q).Perm (i :: rem U (i :: Q)) := by
  have h1 : i ∈ rem U Q := (mem_rem U Q i).2 ⟨hiU, hiQ⟩
  have h2 : (rem U Q).Perm (i :: (rem U Q).erase i) := List.perm_cons_erase h1
  have h3 : (rem U Q).erase i = rem U (i :: Q) := by
    have hnd : (rem U Q).Nodup := List.Nodup.filter _ hU
    rw [List.Nodup.erase_eq_filter hnd]
    unfold rem
    rw [List.filter_filter]
    apply List.filter_congr
    intro u _
    by_cases hu : u = i
    · simp [hu]
    · by_cases hq : u ∈ Q <;> simp [hu, hq]
  rw [h3] at h2
  exact h2

theorem mEdges_rem_pivot (g : Nat → Option MObj) (U Q : List Nat) (i : Nat)
    (hU : U.Nodup) (hiU : i ∈ U) (hiQ : i ∉ Q) (x : Nat) :
    mEdges g (rem U Q) x = mContrib g i x + mEdges g (rem U (i :: Q)) x := by
  rw [mEdges_perm g (rem_perm_cons U Q i hU hiU hiQ) x, mEdges_cons]

theorem mContrib_at (g : Nat → Option MObj) (o : MObj) (i x : Nat)
    (hgi : g i = some o) (hoci : o.ci = false) :
    mContrib g i x = (if o.a = x then 1 else 0) + (if o.b = x then 1 else 0) := by
  simp [mContrib, hgi, hoci]

theorem mContrib_zero (g : Nat → Option MObj) (i x : Nat)
    (h : ¬ mInternal g i) : mContrib g i x = 0 := by
  unfold mContrib
  cases hgi : g i with
  | none => rfl
  | some o =>
    cases hci : o.ci with
    | true => simp [hci]
    | false => exact absurd ⟨o, hgi, hci⟩ h

theorem mPass_eq_none {g : Nat → Option MObj} {fRef : Bool} {fuel : Nat} {s : Nat → Nat}
    {i : Nat} (hgi : g i = none) :
    mPass g fRef (fuel + 1) s i = some ⟨s, 0, [i]⟩ := by
  simp [mPass, hgi]

theorem mPass_eq_ci {g : Nat → Option MObj} {fRef : Bool} {fuel : Nat} {s : Nat → Nat}
    {i : Nat} {o : MObj} (hgi : g i = some o) (hci : o.ci = true) :
    mPass g fRef (fuel + 1) s i = some ⟨s, 0, [i]⟩ := by
  simp [mPass, hgi, hci]

theorem mPass_deref_eq {g : Nat → Option MObj} {fuel : Nat} {s : Nat → Nat}
    {i : Nat} {o : MObj} {r0 r1 : MRes} (hgi : g i = some o) (hci : o.ci = false)
    (hr0 : (if upd s o.a (s o.a - 1) o.a = 0 then
        mPass g false fuel (upd s o.a (s o.a - 1)) o.a
      else some ⟨upd s o.a (s o.a - 1), 0, []⟩) = some r0)
    (hr1 : (if upd r0.s o.b (r0.s o.b - 1) o.b = 0 then
        mPass g false fuel (upd r0.s o.b (r0.s o.b - 1)) o.b
      else some ⟨upd r0.s o.b (r0.s o.b - 1), 0, []⟩) = some r1) :
    mPass g false (fuel + 1) s i =
      some ⟨r1.s, 1 + r0.cnt + r1.cnt, i :: (r0.vis ++ r1.vis)⟩ := by
  rw [upd_self] at hr0 hr1
  simp [mPass, hgi, hci, hr0, hr1]

/-- Postcondition of one dereference call `Abc_NodeRefDeref(i, fRef=0)`:
`P` is the set of nodes fully processed before the call (with the
in-flight ancestors), `extra` the part of the counts not owed to
unprocessed internal nodes, `s` the entry state, `r` the result. -/

theorem mDeref_branch (g : Nat → Option MObj) (U : List Nat) (rank : Nat → Nat)
    (fuel : Nat)
    (IH : ∀ P i s extra, rank i < fuel → i ∉ P → (mInternal g i → i ∈ U) →
      (∀ x, s x = mEdges g (rem U P) x + extra x) →
      (∀ x ∈ U, x ∉ P → x ≠ i → 0 < s x) →
      (∀ x ∈ P, (s x = 0 ∧ extra x = 0) ∨ rank i < rank x) →
      ∃ r, mPass g false fuel s i = some r ∧ DPost g U rank extra P i s r)
    (P : List Nat) (f : Nat) (s extra : Nat → Nat)
    (hfuel : rank f < fuel) (hfP : f ∉ P) (hfU : mInternal g f → f ∈ U)
    (hstate : ∀ x, s x = mEdges g (rem U P) x + extra x)
    (hpos : ∀ x ∈ U, x ∉ P → x ≠ f → 0 < s x)
    (hPmix : ∀ x ∈ P, (s x = 0 ∧ extra x = 0) ∨ rank f < rank x) :
    ∃ r, (if s f = 0 then mPass g false fuel s f else some ⟨s, 0, []⟩) = some r ∧
      BPost g U rank extra P f s r := by
  by_cases hz : s f = 0
  · obtain ⟨r, hr, hd⟩ := IH P f s extra hfuel hfP hfU hstate hpos hPmix
    refine ⟨r, by rw [if_pos hz]; exact hr, ?_⟩
    have hzf : mEdges g (rem U P) f + extra f = 0 := by rw [← hstate f]; exact hz
    have hef : extra f = 0 := by omega
    have hrf : r.s f = 0 := by
      have h1 := hd.state f
      have h2 : mEdges g (rem U (P ++ r.vis)) f ≤ mEdges g (rem U P) f :=
        mEdges_rem_anti g U P (P ++ r.vis) (fun u hu => List.mem_append_left _ hu) f
      omega
    refine ⟨hd.nodup, hd.disj, hd.state, hd.cnt, hd.fresh, hd.pos, ?_,
      hd.parent, hd.rankle, fun _ => hd.self_mem, hd.visU⟩
    intro x hx
    by_cases hxf : x = f
    · subst hxf
      exact ⟨hrf, hef⟩
    · exact hd.drained x hx hxf
  · refine ⟨⟨s, 0, []⟩, by rw [if_neg hz], ?_⟩
    refine ⟨List.nodup_nil, by simp, ?_, by simp, ?_, ?_, by simp, by simp, by simp,
      fun h => absurd h hz, by simp⟩
    · intro x
      rw [List.append_nil]
      exact hstate x
    · intro x _ _ h
      exact h
    · intro x hxU hxP hxv
      by_cases hxf : x = f
      · subst hxf
        exact Nat.pos_of_ne_zero hz
      · exact hpos x hxU hxP hxf

theorem mDeref_triv_post (g : Nat → Option MObj) (U : List Nat) (rank extra : Nat → Nat)
    (P : List Nat) (i : Nat) (s : Nat → Nat)
    (hnint : ¬ mInternal g i) (hiU : i ∉ U) (hiP : i ∉ P)
    (hstate : ∀ x, s x = mEdges g (rem U P) x + extra x)
    (hpos : ∀ x ∈ U, x ∉ P → x ≠ i → 0 < s x) :
    DPost g U rank extra P i s ⟨s, 0, [i]⟩ := by
  refine ⟨?_, ?_, ?_, ?_, ?_, ?_, ?_, ?_, ?_, ?_, ?_⟩
  · simp
  · intro x hx
    rw [List.mem_singleton] at hx
    subst hx
    exact hiP
  · exact List.mem_singleton.2 rfl
  · intro x
    have hre : rem U (P ++ [i]) = rem U P := by
      apply rem_congr
      intro u hu
      constructor
      · intro h
        rcases List.mem_append.1 h with h | h
        · exact h
        · rw [List.mem_singleton] at h
          subst h
          exact absurd hu hiU
      · intro h
        exact List.mem_append_left _ h
    rw [hre]
    exact hstate x
  · have hib : mInternalB g i = false := by
      cases h : mInternalB g i
      · rfl
      · exact absurd ((mInternalB_iff g i).1 h) hnint
    simp [hib]
  · intro x _ _ h
    exact h
  · intro x hxU hxP hxv
    have hxi : x ≠ i := by
      intro h
      subst h
      exact hxv (List.mem_singleton.2 rfl)
    exact hpos x hxU hxP hxi
  · intro x hx hxi
    rw [List.mem_singleton] at hx
    exact absurd hx hxi
  · intro x hx hxi
    rw [List.mem_singleton] at hx
    exact absurd hx hxi
  · intro x hx
    rw [List.mem_singleton] at hx
    subst hx
    exact Nat.le_refl _
  · intro x hx hint
    rw [List.mem_singleton] at hx
    subst hx
    exact absurd hint hnint

set_option maxHeartbeats 1000000 in
theorem mDeref_spec (g : Nat → Option MObj) (U : List Nat) (rank : Nat → Nat)
    (hG : GOk g U rank) :
    ∀ fuel P i s extra, rank i < fuel → i ∉ P → (mInternal g i → i ∈ U) →
      (∀ x, s x = mEdges g (rem U P) x + extra x) →
      (∀ x ∈ U, x ∉ P → x ≠ i → 0 < s x) →
      (∀ x ∈ P, (s x = 0 ∧ extra x = 0) ∨ rank i < rank x) →
      ∃ r, mPass g false fuel s i = some r ∧ DPost g U rank extra P i s r := by
  intro fuel
  induction fuel with
  | zero =>
    intro P i s extra hfuel
    exact absurd hfuel (Nat.not_lt_zero _)
  | succ fuel IH =>
    intro P i s extra hfuel hiP hiUopt hstate hpos hPmix
    cases hgi : g i with
    | none =>
      have hnint : ¬ mInternal g i := by
        rintro ⟨o', ho', _⟩
        rw [hgi] at ho'
        exact Option.noConfusion ho'
      exact ⟨⟨s, 0, [i]⟩, mPass_eq_none hgi,
        mDeref_triv_post g U rank extra P i s hnint (fun h => hnint (hG.uint i h)) hiP
          hstate hpos⟩
    | some o =>
      cases hci : o.ci with
      | true =>
        have hnint : ¬ mInternal g i := by
          rintro ⟨o', ho', hci'⟩
          rw [hgi] at ho'
          cases Option.some.inj ho'
          rw [hci] at hci'
          exact Bool.noConfusion hci'
        exact ⟨⟨s, 0, [i]⟩, mPass_eq_ci hgi hci,
          mDeref_triv_post g U rank extra P i s hnint (fun h => hnint (hG.uint i h)) hiP
            hstate hpos⟩
      | false =>
        have hint : mInternal g i := ⟨o, hgi, hci⟩
        have hiU : i ∈ U := hiUopt hint
        have hfUa : mInternal g o.a → o.a ∈ U :=
          fun hint2 => hG.uclosed i hiU o.a ⟨o, hgi, Or.inl rfl⟩ hint2
        have hfUb : mInternal g o.b → o.b ∈ U :=
          fun hint2 => hG.uclosed i hiU o.b ⟨o, hgi, Or.inr rfl⟩ hint2
        have hrka : rank o.a < rank i := hG.ranklt i o.a hint ⟨o, hgi, Or.inl rfl⟩
        have hrkb : rank o.b < rank i := hG.ranklt i o.b hint ⟨o, hgi, Or.inr rfl⟩
        have hab : o.a ≠ o.b := hG.ab i o hgi hci
        have hba : ¬ (o.b = o.a) := fun h => hab h.symm
        have hirem : i ∈ rem U P := (mem_rem U P i).2 ⟨hiU, hiP⟩
        have hconA : mContrib g i o.a = 1 := by
          rw [mContrib_at g o i o.a hgi hci, if_pos rfl, if_neg hba]
        have hconB : mContrib g i o.b = 1 := by
          rw [mContrib_at g o i o.b hgi hci, if_pos rfl, if_neg hab]
        have hsa1 : 1 ≤ s o.a := by
          have h1 := mContrib_le_mEdges g hirem o.a
          have h2 := hstate o.a
          omega
        have hsb1 : 1 ≤ s o.b := by
          have h1 := mContrib_le_mEdges g hirem o.b
          have h2 := hstate o.b
          omega
        have haP : o.a ∉ P := by
          intro h
          rcases hPmix o.a h with ⟨h0, _⟩ | hr
          · omega
          · omega
        have hbP : o.b ∉ P := by
          intro h
          rcases hPmix o.b h with ⟨h0, _⟩ | hr
          · omega
          · omega
        have hstate1 : ∀ x, upd s o.a (s o.a - 1) x =
            mEdges g (rem U (i :: P)) x + (extra x + (if o.b = x then 1 else 0)) := by
          intro x
          have hpiv := mEdges_rem_pivot g U P i hG.unodup hiU hiP x
          have hcx := mContrib_at g o i x hgi hci
          have hsx := hstate x
          by_cases hxa : x = o.a
          · subst hxa
            rw [upd_self]
            rw [if_pos rfl] at hcx
            rw [if_neg hba] at hcx ⊢
            omega
          · rw [upd_other _ _ _ _ hxa]
            rw [if_neg (fun h => hxa h.symm)] at hcx
            by_cases hxb : o.b = x
            · rw [if_pos hxb] at hcx ⊢
              omega
            · rw [if_neg hxb] at hcx ⊢
              omega
        have hpos1 : ∀ x ∈ U, x ∉ (i :: P) → x ≠ o.a →
            0 < upd s o.a (s o.a - 1) x := by
          intro x hxU hxP hxa
          rw [upd_other _ _ _ _ hxa]
          refine hpos x hxU (fun h => hxP (List.mem_cons_of_mem _ h)) ?_
          intro h
          exact hxP (h ▸ List.mem_cons_self _ _)
        have hPmix1 : ∀ x ∈ (i :: P), (upd s o.a (s o.a - 1) x = 0 ∧
            (extra x + (if o.b = x then 1 else 0)) = 0) ∨ rank o.a < rank x := by
          intro x hx
          rcases List.mem_cons.1 hx with rfl | hxP
          · right
            exact hrka
          · rcases hPmix x hxP with ⟨h0, he⟩ | hr
            · left
              have hxa : x ≠ o.a := fun h => haP (h ▸ hxP)
              have hxb : x ≠ o.b := fun h => hbP (h ▸ hxP)
              rw [upd_other _ _ _ _ hxa, if_neg (fun h => hxb h.symm)]
              exact ⟨h0, by omega⟩
            · right
              omega
        have hanP : o.a ∉ (i :: P) := by
          intro h
          rcases List.mem_cons.1 h with h | h
          · rw [h] at hrka
            exact lt_irrefl _ hrka
          · exact haP h
        have hfuelA : rank o.a < fuel := by omega
        obtain ⟨r0, hr0, bp0⟩ := mDeref_branch g U rank fuel IH (i :: P) o.a
          (upd s o.a (s o.a - 1)) (fun x => extra x + (if o.b = x then 1 else 0))
          hfuelA hanP hfUa hstate1 hpos1 hPmix1
        have hbnV0 : o.b ∉ r0.vis := by
          intro h
          have hd2 := (bp0.drained o.b h).2
          rw [if_pos rfl] at hd2
          omega
        have hsb2 : 1 ≤ r0.s o.b := by
          have h := bp0.state o.b
          rw [if_pos rfl] at h
          omega
        have hstate2 : ∀ x, upd r0.s o.b (r0.s o.b - 1) x =
            mEdges g (rem U ((i :: P) ++ r0.vis)) x + extra x := by
          intro x
          by_cases hxb : x = o.b
          · subst hxb
            rw [upd_self]
            have h := bp0.state o.b
            rw [if_pos rfl] at h
            omega
          · rw [upd_other _ _ _ _ hxb]
            have h := bp0.state x
            rw [if_neg (fun hh => hxb hh.symm)] at h
            omega
        have hpos2 : ∀ x ∈ U, x ∉ ((i :: P) ++ r0.vis) → x ≠ o.b →
            0 < upd r0.s o.b (r0.s o.b - 1) x := by
          intro x hxU hxP hxb
          rw [upd_other _ _ _ _ hxb]
          exact bp0.pos x hxU (fun h => hxP (List.mem_append_left _ h))
            (fun h => hxP (List.mem_append_right _ h))
        have hPmix2 : ∀ x ∈ ((i :: P) ++ r0.vis), (upd r0.s o.b (r0.s o.b - 1) x = 0 ∧
            extra x = 0) ∨ rank o.b < rank x := by
          intro x hx
          rcases List.mem_append.1 hx with hx | hxV
          · rcases List.mem_cons.1 hx with rfl | hxP
            · right
              exact hrkb
            · rcases hPmix x hxP with ⟨h0, he⟩ | hr
              · left
                have hxa : x ≠ o.b := fun h => hbP (h ▸ hxP)
                rw [upd_other _ _ _ _ hxa]
                have hb := bp0.state x
                rw [if_neg (fun h => hxa h.symm)] at hb
                have hanti : mEdges g (rem U ((i :: P) ++ r0.vis)) x ≤
                    mEdges g (rem U P) x :=
                  mEdges_rem_anti g U P _
                    (fun u hu => List.mem_append_left _ (List.mem_cons_of_mem _ hu)) x
                have hsx := hstate x
                exact ⟨by omega, he⟩
              · right
                omega
          · have hd := bp0.drained x hxV
            have hxb : x ≠ o.b := fun h => hbnV0 (h ▸ hxV)
            left
            rw [upd_other _ _ _ _ hxb]
            refine ⟨hd.1, ?_⟩
            have hd2 := hd.2
            rw [if_neg (fun h => hxb h.symm)] at hd2
            omega
        have hbnP2 : o.b ∉ ((i :: P) ++ r0.vis) := by
          intro h
          rcases List.mem_append.1 h with h | h
          · rcases List.mem_cons.1 h with h | h
            · rw [h] at hrkb
              exact lt_irrefl _ hrkb
            · exact hbP h
          · exact hbnV0 h
        have hfuelB : rank o.b < fuel := by omega
        obtain ⟨r1, hr1, bp1⟩ := mDeref_branch g U rank fuel IH ((i :: P) ++ r0.vis) o.b
          (upd r0.s o.b (r0.s o.b - 1)) extra hfuelB hbnP2 hfUb hstate2 hpos2 hPmix2
        refine ⟨⟨r1.s, 1 + r0.cnt + r1.cnt, i :: (r0.vis ++ r1.vis)⟩,
          mPass_deref_eq hgi hci hr0 hr1, ?_⟩
        refine ⟨?_, ?_, ?_, ?_, ?_, ?_, ?_, ?_, ?_, ?_, ?_⟩
        · refine List.nodup_cons.2 ⟨?_, ?_⟩
          · intro h
            rcases List.mem_append.1 h with h | h
            · have := bp0.rankle i h
              omega
            · have := bp1.rankle i h
              omega
          · refine List.Nodup.append bp0.nodup bp1.nodup ?_
            intro x hx0 hx1
            exact bp1.disj x hx1 (List.mem_append_right _ hx0)
        · intro x hx
          rcases List.mem_cons.1 hx with rfl | hx
          · exact hiP
          · rcases List.mem_append.1 hx with h | h
            · exact fun hp => bp0.disj x h (List.mem_cons_of_mem _ hp)
            · exact fun hp =>
                bp1.disj x h (List.mem_append_left _ (List.mem_cons_of_mem _ hp))
        · exact List.mem_cons_self _ _
        · intro x
          have h := bp1.state x
          have hsets : rem U (((i :: P) ++ r0.vis) ++ r1.vis) =
              rem U (P ++ (i :: (r0.vis ++ r1.vis))) := by
            apply rem_congr
            intro u _
            simp only [List.mem_append, List.mem_cons]
            tauto
          rw [hsets] at h
          exact h
        · show 1 + r0.cnt + r1.cnt =
            ((i :: (r0.vis ++ r1.vis)).filter (fun v => mInternalB g v)).length
          have hIb : mInternalB g i = true := (mInternalB_iff g i).2 hint
          have h0 := bp0.cnt
          have h1 := bp1.cnt
          rw [List.filter_cons, if_pos hIb, List.length_cons, List.filter_append,
            List.length_append]
          omega
        · intro x hxP hxv h
          have hxi : x ≠ i := fun hh => hxv (hh ▸ List.mem_cons_self _ _)
          have hxV0 : x ∉ r0.vis :=
            fun hh => hxv (List.mem_cons_of_mem _ (List.mem_append_left _ hh))
          have hxV1 : x ∉ r1.vis :=
            fun hh => hxv (List.mem_cons_of_mem _ (List.mem_append_right _ hh))
          have hxiP : x ∉ (i :: P) := by
            intro hh
            rcases List.mem_cons.1 hh with hh | hh
            · exact hxi hh
            · exact hxP hh
          have hxiPV : x ∉ ((i :: P) ++ r0.vis) := by
            intro hh
            rcases List.mem_append.1 hh with hh | hh
            · exact hxiP hh
            · exact hxV0 hh
          have h2 := bp1.fresh x hxiPV hxV1 h
          have hxb : x ≠ o.b := by
            intro hh
            subst hh
            exact hxV1 (bp1.mem_zero h2)
          rw [upd_other _ _ _ _ hxb] at h2
          have h3 := bp0.fresh x hxiP hxV0 h2
          have hxa : x ≠ o.a := by
            intro hh
            subst hh
            exact hxV0 (bp0.mem_zero h3)
          rw [upd_other _ _ _ _ hxa] at h3
          exact h3
        · intro x hxU hxP hxv
          have hxi : x ≠ i := fun hh => hxv (hh ▸ List.mem_cons_self _ _)
          have hxV0 : x ∉ r0.vis :=
            fun hh => hxv (List.mem_cons_of_mem _ (List.mem_append_left _ hh))
          have hxV1 : x ∉ r1.vis :=
            fun hh => hxv (List.mem_cons_of_mem _ (List.mem_append_right _ hh))
          have hxiPV : x ∉ ((i :: P) ++ r0.vis) := by
            intro hh
            rcases List.mem_append.1 hh with hh | hh
            · rcases List.mem_cons.1 hh with hh | hh
              · exact hxi hh
              · exact hxP hh
            · exact hxV0 hh
          exact bp1.pos x hxU hxiPV hxV1
        · intro x hx hxi
          rcases List.mem_cons.1 hx with rfl | hx
          · exact absurd rfl hxi
          rcases List.mem_append.1 hx with hx0 | hx1
          · have hd := bp0.drained x hx0
            have hxb : x ≠ o.b := fun hh => hbnV0 (hh ▸ hx0)
            have he : extra x = 0 := by
              have hd2 := hd.2
              rw [if_neg (fun h => hxb h.symm)] at hd2
              omega
            refine ⟨?_, he⟩
            show r1.s x = 0
            have h1 := bp1.state x
            have h0 := bp0.state x
            rw [if_neg (fun h => hxb h.symm)] at h0
            have hd1 := hd.1
            have hanti : mEdges g (rem U (((i :: P) ++ r0.vis) ++ r1.vis)) x ≤
                mEdges g (rem U ((i :: P) ++ r0.vis)) x :=
              mEdges_rem_anti g U _ _ (fun u hu => List.mem_append_left _ hu) x
            omega
          · have hd := bp1.drained x hx1
            exact ⟨hd.1, hd.2⟩
        · intro x hx hxi
          rcases List.mem_cons.1 hx with rfl | hx
          · exact absurd rfl hxi
          rcases List.mem_append.1 hx with hx0 | hx1
          · by_cases hxa : x = o.a
            · subst hxa
              exact ⟨i, List.mem_cons_self _ _, hint, ⟨o, hgi, Or.inl rfl⟩⟩
            · obtain ⟨p, hp, hpi, hpf⟩ := bp0.parent x hx0 hxa
              exact ⟨p, List.mem_cons_of_mem _ (List.mem_append_left _ hp), hpi, hpf⟩
          · by_cases hxb : x = o.b
            · subst hxb
              exact ⟨i, List.mem_cons_self _ _, hint, ⟨o, hgi, Or.inr rfl⟩⟩
            · obtain ⟨p, hp, hpi, hpf⟩ := bp1.parent x hx1 hxb
              exact ⟨p, List.mem_cons_of_mem _ (List.mem_append_right _ hp), hpi, hpf⟩
        · intro x hx
          rcases List.mem_cons.1 hx with rfl | hx
          · exact Nat.le_refl _
          rcases List.mem_append.1 hx with hx0 | hx1
          · exact le_trans (bp0.rankle x hx0) (Nat.le_of_lt hrka)
          · exact le_trans (bp1.rankle x hx1) (Nat.le_of_lt hrkb)
        · intro x hx hintx
          rcases List.mem_cons.1 hx with rfl | hx
          · exact hiU
          rcases List.mem_append.1 hx with hx0 | hx1
          · exact bp0.visU x hx0 hintx
          · exact bp1.visU x hx1 hintx

theorem rem_nil (Q : List Nat) : rem Q [] = Q := by
  simp [rem]

theorem mPass_ref_eq {g : Nat → Option MObj} {fuel : Nat} {s : Nat → Nat}
    {i : Nat} {o : MObj} {r0 r1 : MRes} (hgi : g i = some o) (hci : o.ci = false)
    (hr0 : (if s o.a = 0 then mPass g true fuel (upd s o.a (s o.a + 1)) o.a
      else some ⟨upd s o.a (s o.a + 1), 0, []⟩) = some r0)
    (hr1 : (if r0.s o.b = 0 then mPass g true fuel (upd r0.s o.b (r0.s o.b + 1)) o.b
      else some ⟨upd r0.s o.b (r0.s o.b + 1), 0, []⟩) = some r1) :
    mPass g true (fuel + 1) s i =
      some ⟨r1.s, 1 + r0.cnt + r1.cnt, i :: (r0.vis ++ r1.vis)⟩ := by
  simp [mPass, hgi, hci, hr0, hr1]

/-- Postcondition of one reference call `Abc_NodeRefDeref(i, fRef=1)`:
`Q` is the set of nodes whose fanin edges are still removed from the
counts, `extra` the remainder; the pass restores the members of `r.vis`. -/

theorem mRef_branch (g : Nat → Option MObj) (U : List Nat) (rank : Nat → Nat)
    (hG : GOk g U rank) (fuel : Nat)
    (IH : ∀ Q i s extra, rank i < fuel → (mInternal g i → i ∈ Q) →
      (mInternal g i → i ∈ U) →
      (∀ x, s x = mEdges g (rem U Q) x + extra x) →
      (∀ x ∈ U, x ∉ Q → 0 < s x) →
      ∃ r, mPass g true fuel s i = some r ∧ RPost g U rank extra Q i s r)
    (Q : List Nat) (f : Nat) (s extra : Nat → Nat)
    (hfuel : rank f < fuel) (hfU : mInternal g f → f ∈ U)
    (hstate : ∀ x, s x = mEdges g (rem U Q) x + extra x)
    (hQpos : ∀ x ∈ U, x ∉ Q → 0 < s x) :
    ∃ r, (if s f = 0 then mPass g true fuel (upd s f (s f + 1)) f
        else some ⟨upd s f (s f + 1), 0, []⟩) = some r ∧
      RBPost g U rank extra Q f s r := by
  have hstate1 : ∀ x, upd s f (s f + 1) x = mEdges g (rem U Q) x +
      (extra x + (if f = x then 1 else 0)) := by
    intro x
    by_cases hxf : x = f
    · subst hxf
      rw [upd_self, if_pos rfl]
      have := hstate x
      omega
    · rw [upd_other _ _ _ _ hxf, if_neg (fun h => hxf h.symm)]
      have := hstate x
      omega
  have hupge : ∀ x, s x ≤ upd s f (s f + 1) x := by
    intro x
    by_cases hxf : x = f
    · subst hxf
      rw [upd_self]
      omega
    · rw [upd_other _ _ _ _ hxf]
  by_cases hz : s f = 0
  · have hfQ : mInternal g f → f ∈ Q := by
      intro hint
      by_contra hfQ2
      have := hQpos f (hfU hint) hfQ2
      omega
    have hQpos1 : ∀ x ∈ U, x ∉ Q → 0 < upd s f (s f + 1) x := by
      intro x hxU hxQ
      exact lt_of_lt_of_le (hQpos x hxU hxQ) (hupge x)
    obtain ⟨r, hr, hR⟩ := IH Q f (upd s f (s f + 1))
      (fun x => extra x + (if f = x then 1 else 0)) hfuel hfQ hfU hstate1 hQpos1
    refine ⟨r, by rw [if_pos hz]; exact hr, ?_⟩
    refine ⟨hR.nodup, hR.state, hR.cnt, ?_, ?_, ?_, ?_, ?_, fun _ => hR.self_mem,
      hR.rankle⟩
    · intro x hx hint
      by_cases hxf : x = f
      · subst hxf
        exact hfQ hint
      · exact hR.visQ x hx hxf hint
    · intro x
      exact le_trans (hupge x) (hR.mono x)
    · intro x hx
      by_cases hxf : x = f
      · subst hxf
        exact Or.inl hR.self_mem
      · have : upd s f (s f + 1) x = 0 := by
          rw [upd_other _ _ _ _ hxf]
          exact hx
        exact hR.zero_vis x this
    · intro x hx
      by_cases hxf : x = f
      · have h1 : 0 < upd s f (s f + 1) x := by
          rw [hxf, upd_self]
          omega
        exact lt_of_lt_of_le h1 (hR.mono x)
      · exact hR.pos_vis x hx hxf
    · intro x hpos hx
      have h1 : 0 < upd s f (s f + 1) x := lt_of_lt_of_le hpos (hupge x)
      have h2 := hR.avoid x h1 hx
      subst h2
      omega
  · refine ⟨⟨upd s f (s f + 1), 0, []⟩, by rw [if_neg hz], ?_⟩
    refine ⟨List.nodup_nil, ?_, by simp, by simp, hupge, ?_, by simp, by simp,
      fun h => absurd h hz, by simp⟩
    · intro x
      rw [rem_nil]
      exact hstate1 x
    · intro x hx
      by_cases hxf : x = f
      · subst hxf
        exact absurd hx hz
      · right
        show upd s f (s f + 1) x = 0
        rw [upd_other _ _ _ _ hxf]
        exact hx

theorem mRef_triv_post (g : Nat → Option MObj) (U : List Nat) (rank extra : Nat → Nat)
    (Q : List Nat) (i : Nat) (s : Nat → Nat)
    (hnint : ¬ mInternal g i) (hiU : i ∉ U)
    (hstate : ∀ x, s x = mEdges g (rem U Q) x + extra x) :
    RPost g U rank extra Q i s ⟨s, 0, [i]⟩ := by
  refine ⟨by simp, List.mem_singleton.2 rfl, ?_, ?_, ?_, fun x => Nat.le_refl _, ?_,
    ?_, ?_, ?_⟩
  · intro x
    have hre : rem U (rem Q [i]) = rem U Q := by
      apply rem_congr
      intro u hu
      have hui : u ≠ i := fun h => hiU (h ▸ hu)
      rw [mem_rem]
      constructor
      · intro h
        exact h.1
      · intro h
        refine ⟨h, ?_⟩
        intro hmem
        rw [List.mem_singleton] at hmem
        exact hui hmem
    rw [hre]
    exact hstate x
  · have hib : mInternalB g i = false := by
      cases h : mInternalB g i
      · rfl
      · exact absurd ((mInternalB_iff g i).1 h) hnint
    simp [hib]
  · intro x hx hxi _
    rw [List.mem_singleton] at hx
    exact absurd hx hxi
  · intro x hx
    by_cases hxi : x = i
    · subst hxi
      exact Or.inl (List.mem_singleton.2 rfl)
    · exact Or.inr hx
  · intro x hx hxi
    rw [List.mem_singleton] at hx
    exact absurd hx hxi
  · intro x _ hx
    rw [List.mem_singleton] at hx
    exact hx
  · intro x hx
    rw [List.mem_singleton] at hx
    subst hx
    exact Nat.le_refl _

theorem mRef_spec (g : Nat → Option MObj) (U : List Nat) (rank : Nat → Nat)
    (hG : GOk g U rank) :
    ∀ fuel Q i s extra, rank i < fuel → (mInternal g i → i ∈ Q) →
      (mInternal g i → i ∈ U) →
      (∀ x, s x = mEdges g (rem U Q) x + extra x) →
      (∀ x ∈ U, x ∉ Q → 0 < s x) →
      ∃ r, mPass g true fuel s i = some r ∧ RPost g U rank extra Q i s r := by
  intro fuel
  induction fuel with
  | zero =>
    intro Q i s extra hfuel
    exact absurd hfuel (Nat.not_lt_zero _)
  | succ fuel IH =>
    intro Q i s extra hfuel hiQ hiUopt hstate hQpos
    cases hgi : g i with
    | none =>
      have hnint : ¬ mInternal g i := by
        rintro ⟨o', ho', _⟩
        rw [hgi] at ho'
        exact Option.noConfusion ho'
      exact ⟨⟨s, 0, [i]⟩, mPass_eq_none hgi,
        mRef_triv_post g U rank extra Q i s hnint (fun h => hnint (hG.uint i h)) hstate⟩
    | some o =>
      cases hci : o.ci with
      | true =>
        have hnint : ¬ mInternal g i := by
          rintro ⟨o', ho', hci'⟩
          rw [hgi] at ho'
          cases Option.some.inj ho'
          rw [hci] at hci'
          exact Bool.noConfusion hci'
        exact ⟨⟨s, 0, [i]⟩, mPass_eq_ci hgi hci,
          mRef_triv_post g U rank extra Q i s hnint (fun h => hnint (hG.uint i h)) hstate⟩
      | false =>
        have hint : mInternal g i := ⟨o, hgi, hci⟩
        have hiU : i ∈ U := hiUopt hint
        have hfUa : mInternal g o.a → o.a ∈ U :=
          fun hint2 => hG.uclosed i hiU o.a ⟨o, hgi, Or.inl rfl⟩ hint2
        have hfUb : mInternal g o.b → o.b ∈ U :=
          fun hint2 => hG.uclosed i hiU o.b ⟨o, hgi, Or.inr rfl⟩ hint2
        have hiQ' : i ∈ Q := hiQ hint
        have hrka : rank o.a < rank i := hG.ranklt i o.a hint ⟨o, hgi, Or.inl rfl⟩
        have hrkb : rank o.b < rank i := hG.ranklt i o.b hint ⟨o, hgi, Or.inr rfl⟩
        have hfuelA : rank o.a < fuel := by omega
        have hfuelB : rank o.b < fuel := by omega
        obtain ⟨r0, hr0, rb0⟩ := mRef_branch g U rank hG fuel IH Q o.a s extra
          hfuelA hfUa hstate hQpos
        have hQpos2 : ∀ x ∈ U, x ∉ rem Q r0.vis → 0 < r0.s x := by
          intro x hxU hxQ
          by_cases hxQ0 : x ∈ Q
          · have hxv : x ∈ r0.vis := by
              by_contra hxv
              exact hxQ ((mem_rem Q r0.vis x).2 ⟨hxQ0, hxv⟩)
            exact rb0.pos_vis x hxv
          · exact lt_of_lt_of_le (hQpos x hxU hxQ0) (rb0.mono x)
        obtain ⟨r1, hr1, rb1⟩ := mRef_branch g U rank hG fuel IH (rem Q r0.vis) o.b
          r0.s (fun x => extra x + (if o.a = x then 1 else 0)) hfuelB hfUb rb0.state hQpos2
        have hinV0 : i ∉ r0.vis := by
          intro h
          have := rb0.rankle i h
          omega
        have hinV1 : i ∉ r1.vis := by
          intro h
          have := rb1.rankle i h
          omega
        refine ⟨⟨r1.s, 1 + r0.cnt + r1.cnt, i :: (r0.vis ++ r1.vis)⟩,
          mPass_ref_eq hgi hci hr0 hr1, ?_⟩
        refine ⟨?_, List.mem_cons_self _ _, ?_, ?_, ?_, ?_, ?_, ?_, ?_, ?_⟩
        · refine List.nodup_cons.2 ⟨?_, ?_⟩
          · intro h
            rcases List.mem_append.1 h with h | h
            · exact hinV0 h
            · exact hinV1 h
          · refine List.Nodup.append rb0.nodup rb1.nodup ?_
            intro x hx0 hx1
            exact rb1.avoid x (rb0.pos_vis x hx0) hx1
        · intro x
          show r1.s x =
            mEdges g (rem U (rem Q (i :: (r0.vis ++ r1.vis)))) x + extra x
          have hval := rb1.state x
          have hinQ' : i ∉ rem Q (i :: (r0.vis ++ r1.vis)) := by
            intro h
            exact ((mem_rem _ _ i).1 h).2 (List.mem_cons_self _ _)
          have hpiv := mEdges_rem_pivot g U (rem Q (i :: (r0.vis ++ r1.vis))) i
            hG.unodup hiU hinQ' x
          have hcongr : rem U (i :: rem Q (i :: (r0.vis ++ r1.vis))) =
              rem U (rem (rem Q r0.vis) r1.vis) := by
            apply rem_congr
            intro u _
            rw [List.mem_cons, mem_rem, mem_rem, mem_rem]
            constructor
            · intro h
              rcases h with rfl | ⟨huQ, hun⟩
              · exact ⟨⟨hiQ', hinV0⟩, hinV1⟩
              · rw [List.mem_cons, List.mem_append] at hun
                exact ⟨⟨huQ, fun h => hun (Or.inr (Or.inl h))⟩,
                  fun h => hun (Or.inr (Or.inr h))⟩
            · intro h
              obtain ⟨⟨huQ, hu0⟩, hu1⟩ := h
              by_cases hui : u = i
              · exact Or.inl hui
              · refine Or.inr ⟨huQ, ?_⟩
                rw [List.mem_cons, List.mem_append]
                rintro (h | h | h)
                · exact hui h
                · exact hu0 h
                · exact hu1 h
          have hcx := mContrib_at g o i x hgi hci
          rw [hcongr] at hpiv
          omega
        · show 1 + r0.cnt + r1.cnt =
            ((i :: (r0.vis ++ r1.vis)).filter (fun v => mInternalB g v)).length
          have hIb : mInternalB g i = true := (mInternalB_iff g i).2 hint
          have h0 := rb0.cnt
          have h1 := rb1.cnt
          rw [List.filter_cons, if_pos hIb, List.length_cons, List.filter_append,
            List.length_append]
          omega
        · intro x hx hxi hintx
          rcases List.mem_cons.1 hx with rfl | hx
          · exact absurd rfl hxi
          rcases List.mem_append.1 hx with hx0 | hx1
          · exact rb0.visQ x hx0 hintx
          · exact ((mem_rem _ _ x).1 (rb1.visQ x hx1 hintx)).1
        · intro x
          exact le_trans (rb0.mono x) (rb1.mono x)
        · intro x hx
          rcases rb0.zero_vis x hx with h | h
          · exact Or.inl (List.mem_cons_of_mem _ (List.mem_append_left _ h))
          · rcases rb1.zero_vis x h with h2 | h2
            · exact Or.inl (List.mem_cons_of_mem _ (List.mem_append_right _ h2))
            · exact Or.inr h2
        · intro x hx hxi
          rcases List.mem_cons.1 hx with rfl | hx
          · exact absurd rfl hxi
          rcases List.mem_append.1 hx with hx0 | hx1
          · exact lt_of_lt_of_le (rb0.pos_vis x hx0) (rb1.mono x)
          · exact rb1.pos_vis x hx1
        · intro x hpos hx
          rcases List.mem_cons.1 hx with rfl | hx
          · rfl
          rcases List.mem_append.1 hx with hx0 | hx1
          · exact absurd hx0 (fun h => rb0.avoid x hpos h)
          · exact absurd hx1 (fun h => rb1.avoid x (lt_of_lt_of_le hpos (rb0.mono x)) h)
        · intro x hx
          rcases List.mem_cons.1 hx with rfl | hx
          · exact Nat.le_refl _
          rcases List.mem_append.1 hx with hx0 | hx1
          · exact le_trans (rb0.rankle x hx0) (Nat.le_of_lt hrka)
          · exact le_trans (rb1.rankle x hx1) (Nat.le_of_lt hrkb)

theorem mEdges_append (g : Nat → Option MObj) (l l' : List Nat) (x : Nat) :
    mEdges g (l ++ l') x = mEdges g l x + mEdges g l' x := by
  unfold mEdges
  rw [List.map_append, List.sum_append]

theorem mEdges_filter_int (g : Nat → Option MObj) (l : List Nat) (x : Nat) :
    mEdges g l x = mEdges g (l.filter (fun v => mInternalB g v)) x := by
  induction l with
  | nil => rfl
  | cons v l ih =>
    rw [mEdges_cons, List.filter_cons]
    by_cases hv : mInternalB g v = true
    · rw [if_pos hv, mEdges_cons, ih]
    · rw [if_neg hv, ih]
      have hz : mContrib g v x = 0 := by
        apply mContrib_zero
        intro hint
        exact hv ((mInternalB_iff g v).2 hint)
      omega

theorem mEdges_rem_split (g : Nat → Option MObj) (U V : List Nat) (x : Nat) :
    mEdges g U x = mEdges g (U.filter (fun u => decide (u ∈ V))) x +
      mEdges g (rem U V) x := by
  have h2 : U.filter (fun u => !(decide (u ∈ V))) = rem U V := by
    unfold rem
    apply List.filter_congr
    intro u _
    by_cases hu : u ∈ V <;> simp [hu]
  have hperm := List.filter_append_perm (fun u => decide (u ∈ V)) U
  rw [h2] at hperm
  rw [← mEdges_perm g hperm x, mEdges_append]

theorem mEdges_congr_nodup (g : Nat → Option MObj) (l l' : List Nat)
    (hl : l.Nodup) (hl' : l'.Nodup) (h : ∀ u, u ∈ l ↔ u ∈ l') (x : Nat) :
    mEdges g l x = mEdges g l' x :=
  mEdges_perm g ((List.perm_ext_iff_of_nodup hl hl').2 h) x

theorem mContrib_pos_of_fanin (g : Nat → Option MObj) (p x : Nat)
    (hint : mInternal g p) (hfan : mFaninOf g p x) : 1 ≤ mContrib g p x := by
  obtain ⟨o, hgp, hci⟩ := hint
  obtain ⟨o', hgp', hor⟩ := hfan
  rw [hgp] at hgp'
  cases Option.some.inj hgp'
  rw [mContrib_at g o p x hgp hci]
  rcases hor with h | h
  · rw [if_pos h]
    omega
  · rw [if_pos h]
    omega

/-- The combined specification of `Abc_NodeMffcLabelAig`: the
dereference pass from root `rt` followed by the mirror reference pass
returns the same count, restores every reference count, and the visited
(labelled) set is exactly the maximal fanout-free cone of `rt`: besides
`rt` it holds exactly the objects all of whose references come from
inside the set. -/

theorem mMffc_spec (g : Nat → Option MObj) (U : List Nat) (rank : Nat → Nat)
    (hG : GOk g U rank) (fuel rt : Nat) (s0 extra : Nat → Nat)
    (hfuel : rank rt < fuel)
    (hstate0 : ∀ x, s0 x = mEdges g U x + extra x)
    (hpos0 : ∀ x ∈ U, x ≠ rt → 0 < s0 x)
    (hrt : mInternal g rt) (hrtU : rt ∈ U) :
    ∃ rD rR, mPass g false fuel s0 rt = some rD ∧
      mPass g true fuel rD.s rt = some rR ∧
      rD.cnt = rR.cnt ∧ (∀ x, rR.s x = s0 x) ∧ rt ∈ rD.vis ∧ rD.vis.Nodup ∧
      (∀ x ∈ rD.vis, x ≠ rt → ∃ p ∈ U, mInternal g p ∧ mFaninOf g p x) ∧
      (∀ x, x ≠ rt → (x ∈ rD.vis ↔ 0 < s0 x ∧ s0 x = mEdges g rD.vis x)) := by
  have hstate0' : ∀ x, s0 x = mEdges g (rem U []) x + extra x := by
    intro x
    rw [rem_nil]
    exact hstate0 x
  obtain ⟨rD, hrD, dp⟩ := mDeref_spec g U rank hG fuel [] rt s0 extra hfuel
    (List.not_mem_nil rt) (fun _ => hrtU) hstate0'
    (fun x hxU _ hxr => hpos0 x hxU hxr)
    (fun x hx => absurd hx (List.not_mem_nil x))
  have hdstate : ∀ x, rD.s x = mEdges g (rem U rD.vis) x + extra x := dp.state
  have hdpos : ∀ x ∈ U, x ∉ rD.vis → 0 < rD.s x := by
    intro x hxU hxv
    exact dp.pos x hxU (List.not_mem_nil x) hxv
  obtain ⟨rR, hrR, rp⟩ := mRef_spec g U rank hG fuel rD.vis rt rD.s extra hfuel
    (fun _ => dp.self_mem) (fun _ => hrtU) hdstate hdpos
  -- every internal deref-visited node is re-visited by the reference pass
  have key : ∀ k x, x ∈ rD.vis → mInternal g x → rank rt < rank x + k →
      x ∈ rR.vis := by
    intro k
    induction k with
    | zero =>
      intro x hx _ hk
      have := dp.rankle x hx
      omega
    | succ k ih =>
      intro x hx hxint hk
      by_cases hxr : x = rt
      · subst hxr
        exact rp.self_mem
      · have hdr := dp.drained x hx hxr
        rcases rp.zero_vis x hdr.1 with h | h
        · exact h
        · exfalso
          obtain ⟨p, hp, hpint, hpfan⟩ := dp.parent x hx hxr
          have hrkpx : rank x < rank p := hG.ranklt p x hpint hpfan
          have hpW : p ∈ rR.vis := ih p hp hpint (by omega)
          have hpU : p ∈ U := dp.visU p hp hpint
          have hprem : p ∈ rem U (rem rD.vis rR.vis) := by
            rw [mem_rem]
            refine ⟨hpU, ?_⟩
            intro hmem
            exact ((mem_rem _ _ p).1 hmem).2 hpW
          have hcon := mContrib_pos_of_fanin g p x hpint hpfan
          have hle := mContrib_le_mEdges g hprem x
          have hst := rp.state x
          omega
  have hWVint : ∀ x ∈ rR.vis, mInternalB g x = true → x ∈ rD.vis := by
    intro x hx hxint
    by_cases hxr : x = rt
    · subst hxr
      exact dp.self_mem
    · exact rp.visQ x hx hxr ((mInternalB_iff g x).1 hxint)
  have hVWint : ∀ x ∈ rD.vis, mInternalB g x = true → x ∈ rR.vis := by
    intro x hx hxint
    exact key (rank rt + 1) x hx ((mInternalB_iff g x).1 hxint) (by omega)
  have hQWempty : ∀ u ∈ U, u ∈ rem rD.vis rR.vis ↔ u ∈ ([] : List Nat) := by
    intro u hu
    simp only [List.not_mem_nil, iff_false]
    intro hmem
    obtain ⟨huV, hunW⟩ := (mem_rem _ _ u).1 hmem
    have huint : mInternalB g u = true := (mInternalB_iff g u).2 (hG.uint u hu)
    exact hunW (hVWint u huV huint)
  have hrestore : ∀ x, rR.s x = s0 x := by
    intro x
    have h := rp.state x
    rw [rem_congr U _ _ hQWempty, rem_nil] at h
    rw [h]
    exact (hstate0 x).symm
  have hcnt : rD.cnt = rR.cnt := by
    rw [dp.cnt, rp.cnt]
    have hperm : (rD.vis.filter (fun v => mInternalB g v)).Perm
        (rR.vis.filter (fun v => mInternalB g v)) := by
      apply (List.perm_ext_iff_of_nodup (dp.nodup.filter _) (rp.nodup.filter _)).2
      intro u
      rw [List.mem_filter, List.mem_filter]
      constructor
      · rintro ⟨hu, hint⟩
        exact ⟨hVWint u hu hint, hint⟩
      · rintro ⟨hu, hint⟩
        exact ⟨hWVint u hu hint, hint⟩
    exact hperm.length_eq
  refine ⟨rD, rR, hrD, hrR, hcnt, hrestore, dp.self_mem, dp.nodup, ?_, ?_⟩
  · intro x hx hxr
    obtain ⟨p, hp, hpint, hpfan⟩ := dp.parent x hx hxr
    exact ⟨p, dp.visU p hp hpint, hpint, hpfan⟩
  intro x hxr
  constructor
  · intro hx
    have hdr := dp.drained x hx hxr
    have hsplit := mEdges_rem_split g U rD.vis x
    have hUV : mEdges g (U.filter (fun u => decide (u ∈ rD.vis))) x =
        mEdges g rD.vis x := by
      rw [mEdges_filter_int g (U.filter _) x, mEdges_filter_int g rD.vis x]
      apply mEdges_congr_nodup
      · exact (hG.unodup.filter _).filter _
      · exact dp.nodup.filter _
      · intro u
        rw [List.mem_filter, List.mem_filter, List.mem_filter]
        constructor
        · rintro ⟨⟨_, huV⟩, hint⟩
          rw [decide_eq_true_eq] at huV
          exact ⟨huV, hint⟩
        · rintro ⟨huV, hint⟩
          refine ⟨⟨dp.visU u huV ((mInternalB_iff g u).1 hint), ?_⟩, hint⟩
          rw [decide_eq_true_eq]
          exact huV
    have hzrem : mEdges g (rem U rD.vis) x = 0 := by
      have h := hdstate x
      omega
    have hs0 := hstate0 x
    obtain ⟨p, hp, hpint, hpfan⟩ := dp.parent x hx hxr
    have hcon := mContrib_pos_of_fanin g p x hpint hpfan
    have hle := mContrib_le_mEdges g hp x
    constructor
    · omega
    · omega
  · intro hcond
    by_contra hxv
    have hsplit := mEdges_rem_split g U rD.vis x
    have hUV : mEdges g (U.filter (fun u => decide (u ∈ rD.vis))) x =
        mEdges g rD.vis x := by
      rw [mEdges_filter_int g (U.filter _) x, mEdges_filter_int g rD.vis x]
      apply mEdges_congr_nodup
      · exact (hG.unodup.filter _).filter _
      · exact dp.nodup.filter _
      · intro u
        rw [List.mem_filter, List.mem_filter, List.mem_filter]
        constructor
        · rintro ⟨⟨_, huV⟩, hint⟩
          rw [decide_eq_true_eq] at huV
          exact ⟨huV, hint⟩
        · rintro ⟨huV, hint⟩
          refine ⟨⟨dp.visU u huV ((mInternalB_iff g u).1 hint), ?_⟩, hint⟩
          rw [decide_eq_true_eq]
          exact huV
    have hzero : rD.s x = 0 := by
      have h := hdstate x
      have hs0 := hstate0 x
      omega
    have := dp.fresh x (List.not_mem_nil x) hxv hzero
    omega

theorem mPass_deref_none0 {g : Nat → Option MObj} {fuel : Nat} {s : Nat → Nat}
    {i : Nat} {o : MObj} (hgi : g i = some o) (hci : o.ci = false)
    (hr0 : (if upd s o.a (s o.a - 1) o.a = 0 then
        mPass g false fuel (upd s o.a (s o.a - 1)) o.a
      else some ⟨upd s o.a (s o.a - 1), 0, []⟩) = none) :
    mPass g false (fuel + 1) s i = none := by
  rw [upd_self] at hr0
  simp [mPass, hgi, hci, hr0]

theorem mPass_deref_none1 {g : Nat → Option MObj} {fuel : Nat} {s : Nat → Nat}
    {i : Nat} {o : MObj} {r0 : MRes} (hgi : g i = some o) (hci : o.ci = false)
    (hr0 : (if upd s o.a (s o.a - 1) o.a = 0 then
        mPass g false fuel (upd s o.a (s o.a - 1)) o.a
      else some ⟨upd s o.a (s o.a - 1), 0, []⟩) = some r0)
    (hr1 : (if upd r0.s o.b (r0.s o.b - 1) o.b = 0 then
        mPass g false fuel (upd r0.s o.b (r0.s o.b - 1)) o.b
      else some ⟨upd r0.s o.b (r0.s o.b - 1), 0, []⟩) = none) :
    mPass g false (fuel + 1) s i = none := by
  rw [upd_self] at hr0 hr1
  simp [mPass, hgi, hci, hr0, hr1]

theorem mPass_deref_destruct {g : Nat → Option MObj} {fuel : Nat} {s : Nat → Nat}
    {i : Nat} {o : MObj} {r : MRes} (hgi : g i = some o) (hci : o.ci = false)
    (hm : mPass g false (fuel + 1) s i = some r) :
    ∃ r0 r1 : MRes,
      (if upd s o.a (s o.a - 1) o.a = 0 then
          mPass g false fuel (upd s o.a (s o.a - 1)) o.a
        else some ⟨upd s o.a (s o.a - 1), 0, []⟩) = some r0 ∧
      (if upd r0.s o.b (r0.s o.b - 1) o.b = 0 then
          mPass g false fuel (upd r0.s o.b (r0.s o.b - 1)) o.b
        else some ⟨upd r0.s o.b (r0.s o.b - 1), 0, []⟩) = some r1 ∧
      r = ⟨r1.s, 1 + r0.cnt + r1.cnt, i :: (r0.vis ++ r1.vis)⟩ := by
  cases h0 : (if upd s o.a (s o.a - 1) o.a = 0 then
      mPass g false fuel (upd s o.a (s o.a - 1)) o.a
    else some ⟨upd s o.a (s o.a - 1), 0, []⟩) with
  | none =>
    rw [mPass_deref_none0 hgi hci h0] at hm
    exact Option.noConfusion hm
  | some r0 =>
    cases h1 : (if upd r0.s o.b (r0.s o.b - 1) o.b = 0 then
        mPass g false fuel (upd r0.s o.b (r0.s o.b - 1)) o.b
      else some ⟨upd r0.s o.b (r0.s o.b - 1), 0, []⟩) with
    | none =>
      rw [mPass_deref_none1 hgi hci h0 h1] at hm
      exact Option.noConfusion hm
    | some r1 =>
      rw [mPass_deref_eq hgi hci h0 h1] at hm
      exact ⟨r0, r1, rfl, h1, (Option.some.inj hm).symm⟩

theorem mPass_ref_none0 {g : Nat → Option MObj} {fuel : Nat} {s : Nat → Nat}
    {i : Nat} {o : MObj} (hgi : g i = some o) (hci : o.ci = false)
    (hr0 : (if s o.a = 0 then mPass g true fuel (upd s o.a (s o.a + 1)) o.a
      else some ⟨upd s o.a (s o.a + 1), 0, []⟩) = none) :
    mPass g true (fuel + 1) s i = none := by
  simp [mPass, hgi, hci, hr0]

theorem mPass_ref_none1 {g : Nat → Option MObj} {fuel : Nat} {s : Nat → Nat}
    {i : Nat} {o : MObj} {r0 : MRes} (hgi : g i = some o) (hci : o.ci = false)
    (hr0 : (if s o.a = 0 then mPass g true fuel (upd s o.a (s o.a + 1)) o.a
      else some ⟨upd s o.a (s o.a + 1), 0, []⟩) = some r0)
    (hr1 : (if r0.s o.b = 0 then mPass g true fuel (upd r0.s o.b (r0.s o.b + 1)) o.b
      else some ⟨upd r0.s o.b (r0.s o.b + 1), 0, []⟩) = none) :
    mPass g true (fuel + 1) s i = none := by
  simp [mPass, hgi, hci, hr0, hr1]

theorem mPass_ref_destruct {g : Nat → Option MObj} {fuel : Nat} {s : Nat → Nat}
    {i : Nat} {o : MObj} {r : MRes} (hgi : g i = some o) (hci : o.ci = false)
    (hm : mPass g true (fuel + 1) s i = some r) :
    ∃ r0 r1 : MRes,
      (if s o.a = 0 then mPass g true fuel (upd s o.a (s o.a + 1)) o.a
        else some ⟨upd s o.a (s o.a + 1), 0, []⟩) = some r0 ∧
      (if r0.s o.b = 0 then mPass g true fuel (upd r0.s o.b (r0.s o.b + 1)) o.b
        else some ⟨upd r0.s o.b (r0.s o.b + 1), 0, []⟩) = some r1 ∧
      r = ⟨r1.s, 1 + r0.cnt + r1.cnt, i :: (r0.vis ++ r1.vis)⟩ := by
  cases h0 : (if s o.a = 0 then mPass g true fuel (upd s o.a (s o.a + 1)) o.a
      else some ⟨upd s o.a (s o.a + 1), 0, []⟩) with
  | none =>
    rw [mPass_ref_none0 hgi hci h0] at hm
    exact Option.noConfusion hm
  | some r0 =>
    cases h1 : (if r0.s o.b = 0 then mPass g true fuel (upd r0.s o.b (r0.s o.b + 1)) o.b
        else some ⟨upd r0.s o.b (r0.s o.b + 1), 0, []⟩) with
    | none =>
      rw [mPass_ref_none1 hgi hci h0 h1] at hm
      exact Option.noConfusion hm
    | some r1 =>
      rw [mPass_ref_eq hgi hci h0 h1] at hm
      exact ⟨r0, r1, rfl, h1, (Option.some.inj hm).symm⟩

theorem mPass_destruct {g : Nat → Option MObj} {fRef : Bool} {fuel : Nat} {s : Nat → Nat}
    {i : Nat} {o : MObj} {r : MRes} (hgi : g i = some o) (hci : o.ci = false)
    (hm : mPass g fRef (fuel + 1) s i = some r) :
    ∃ r0 r1 : MRes,
      (if (if fRef then s o.a else s o.a - 1) = 0
        then mPass g fRef fuel (upd s o.a (if fRef then s o.a + 1 else s o.a - 1)) o.a
        else some ⟨upd s o.a (if fRef then s o.a + 1 else s o.a - 1), 0, []⟩) = some r0 ∧
      (if (if fRef then r0.s o.b else r0.s o.b - 1) = 0
        then mPass g fRef fuel (upd r0.s o.b (if fRef then r0.s o.b + 1 else r0.s o.b - 1)) o.b
        else some ⟨upd r0.s o.b (if fRef then r0.s o.b + 1 else r0.s o.b - 1), 0, []⟩) = some r1 ∧
      r = ⟨r1.s, 1 + r0.cnt + r1.cnt, i :: (r0.vis ++ r1.vis)⟩ := by
  cases fRef
  · simp only [Bool.false_eq_true, if_false]
    obtain ⟨r0, r1, h0, h1, hr⟩ := mPass_deref_destruct hgi hci hm
    rw [upd_self] at h0 h1
    exact ⟨r0, r1, h0, h1, hr⟩
  · simp only [if_true]
    exact mPass_ref_destruct hgi hci hm

end Mffc

namespace Abc

theorem setTravId_obj (n : AbcNtk) (i : Nat) (t : Int) (x : Nat) :
    abcNtkObj (abcNodeSetTravId n i t) x = abcNtkObj n x := rfl

theorem setTravId_nTravIds (n : AbcNtk) (i : Nat) (t : Int) :
    (abcNodeSetTravId n i t).nTravIds = n.nTravIds := rfl

theorem getD_pad (l : List Int) (x k : Nat) :
    (l ++ List.replicate k (0 : Int)).getD x 0 = l.getD x 0 := by
  rw [List.getD_eq_getElem?_getD, List.getD_eq_getElem?_getD]
  by_cases h : x < l.length
  · rw [List.getElem?_append_left h]
  · rw [List.getElem?_append_right (by omega)]
    rw [List.getElem?_eq_none (show l.length ≤ x by omega)]
    by_cases h2 : x - l.length < k
    · rw [List.getElem?_replicate_of_lt h2]
      rfl
    · rw [List.getElem?_eq_none
        (show (List.replicate k (0 : Int)).length ≤ x - l.length by
          rw [List.length_replicate]
          omega)]

theorem getD_set_self (l : List Int) (i : Nat) (a : Int) (h : i < l.length) :
    (l.set i a).getD i 0 = a := by
  rw [List.getD_eq_getElem?_getD]
  rw [List.getElem?_set_self]
  · rfl
  · simpa using h

theorem getD_set_ne (l : List Int) (i x : Nat) (a : Int) (h : x ≠ i) :
    (l.set i a).getD x 0 = l.getD x 0 := by
  rw [List.getD_eq_getElem?_getD, List.getElem?_set_ne (fun hh => h hh.symm),
    ← List.getD_eq_getElem?_getD]

theorem setTravId_travId (n : AbcNtk) (i : Nat) (t : Int) (x : Nat) :
    abcNodeTravId (abcNodeSetTravId n i t) x = if x = i then t else abcNodeTravId n x := by
  unfold abcNodeTravId abcNodeSetTravId
  show (let v := if n.vTravIds.length ≤ i
      then n.vTravIds ++ List.replicate (i + 1 - n.vTravIds.length) 0
      else n.vTravIds
    { n with vTravIds := v.set i t }).vTravIds.getD x 0 =
      if x = i then t else n.vTravIds.getD x 0
  by_cases hgrow : n.vTravIds.length ≤ i
  · simp only [if_pos hgrow]
    by_cases hxi : x = i
    · subst hxi
      rw [if_pos rfl]
      apply getD_set_self
      rw [List.length_append, List.length_replicate]
      omega
    · rw [if_neg hxi, getD_set_ne _ _ _ _ hxi, getD_pad]
  · simp only [if_neg hgrow]
    by_cases hxi : x = i
    · subst hxi
      rw [if_pos rfl]
      apply getD_set_self
      omega
    · rw [if_neg hxi, getD_set_ne _ _ _ _ hxi]

theorem writeFanout_obj (n : AbcNtk) (i k x : Nat) :
    abcNtkObj (abcNtkWriteFanout n i k) x =
      if x = i then (abcNtkObj n i).map (fun o => { o with nFanouts := k })
      else abcNtkObj n x := by
  unfold abcNtkWriteFanout
  show ((n.vObjs.set i _).get? x).getD none = _
  by_cases hxi : x = i
  · subst hxi
    rw [if_pos rfl]
    by_cases hlen : x < n.vObjs.length
    · rw [List.get?_eq_getElem?, List.getElem?_set_self (by simpa using hlen)]
      rfl
    · rw [List.get?_eq_getElem?,
        List.getElem?_eq_none (show (n.vObjs.set x _).length ≤ x by simpa using by omega)]
      have : abcNtkObj n x = none := by
        unfold abcNtkObj
        rw [List.get?_eq_getElem?, List.getElem?_eq_none (by omega)]
        rfl
      rw [this]
      rfl
  · rw [if_neg hxi]
    unfold abcNtkObj
    rw [List.get?_eq_getElem?, List.get?_eq_getElem?,
      List.getElem?_set_ne (fun hh => hxi hh.symm)]
    rw [List.get?_eq_getElem?]

theorem writeFanout_travId (n : AbcNtk) (i k x : Nat) :
    abcNodeTravId (abcNtkWriteFanout n i k) x = abcNodeTravId n x := rfl

theorem writeFanout_nTravIds (n : AbcNtk) (i k : Nat) :
    (abcNtkWriteFanout n i k).nTravIds = n.nTravIds := rfl

theorem mapFan_mapFan (x : Option AbcObj) (k k' : Nat) :
    (x.map (fun o => { o with nFanouts := k })).map (fun o => { o with nFanouts := k' }) =
      x.map (fun o => { o with nFanouts := k' }) := by
  cases x <;> rfl

theorem mapFan_self (n : AbcNtk) (j : Nat) :
    (abcNtkObj n j).map (fun o => { o with nFanouts := abcFanView n j }) = abcNtkObj n j := by
  unfold abcFanView abcNtkFanoutCount
  cases h : abcNtkObj n j <;> simp [h]

theorem labelStep_obj (n : AbcNtk) (i : Nat) (b : Bool) (j : Nat) :
    abcNtkObj (if b then abcNodeSetTravIdCurrent n i else n) j = abcNtkObj n j := by
  cases b
  · rfl
  · simp [abcNodeSetTravIdCurrent, setTravId_obj]

theorem labelStep_vObjs (n : AbcNtk) (i : Nat) (b : Bool) :
    (if b then abcNodeSetTravIdCurrent n i else n).vObjs = n.vObjs := by
  cases b
  · rfl
  · rfl

theorem labelStep_ntrav (n : AbcNtk) (i : Nat) (b : Bool) :
    (if b then abcNodeSetTravIdCurrent n i else n).nTravIds = n.nTravIds := by
  cases b
  · rfl
  · rfl

theorem labelStep_trav (n : AbcNtk) (i : Nat) (b : Bool) (x : Nat) :
    abcNodeTravId (if b then abcNodeSetTravIdCurrent n i else n) x =
      if b = true ∧ x = i then n.nTravIds else abcNodeTravId n x := by
  cases b
  · simp
  · rw [if_pos rfl, abcNodeSetTravIdCurrent, setTravId_travId]
    by_cases hxi : x = i
    · simp [hxi]
    · simp [hxi]

theorem labelStep_pis (n : AbcNtk) (i : Nat) (b : Bool) :
    (if b then abcNodeSetTravIdCurrent n i else n).vPis = n.vPis := by
  cases b <;> rfl

theorem labelStep_pos (n : AbcNtk) (i : Nat) (b : Bool) :
    (if b then abcNodeSetTravIdCurrent n i else n).vPos = n.vPos := by
  cases b <;> rfl

theorem labelStep_cis (n : AbcNtk) (i : Nat) (b : Bool) :
    (if b then abcNodeSetTravIdCurrent n i else n).vCis = n.vCis := by
  cases b <;> rfl

theorem labelStep_cos (n : AbcNtk) (i : Nat) (b : Bool) :
    (if b then abcNodeSetTravIdCurrent n i else n).vCos = n.vCos := by
  cases b <;> rfl

theorem labelStep_boxes (n : AbcNtk) (i : Nat) (b : Bool) :
    (if b then abcNodeSetTravIdCurrent n i else n).vBoxes = n.vBoxes := by
  cases b <;> rfl

theorem labelStep_names (n : AbcNtk) (i : Nat) (b : Bool) :
    (if b then abcNodeSetTravIdCurrent n i else n).names = n.names := by
  cases b <;> rfl

theorem labelStep_table (n : AbcNtk) (i : Nat) (b : Bool) :
    (if b then abcNodeSetTravIdCurrent n i else n).table = n.table := by
  cases b <;> rfl

theorem abcRefDeref_none (fuel : Nat) (n : AbcNtk) (i : Nat) (fRef fLabel : Bool)
    (h : abcNtkObj n i = none) :
    abcNodeRefDeref (fuel + 1) n i fRef fLabel =
      ((if fLabel then abcNodeSetTravIdCurrent n i else n), 0) := by
  simp [abcNodeRefDeref, labelStep_obj, h]

theorem abcRefDeref_ci (fuel : Nat) (n : AbcNtk) (i : Nat) (fRef fLabel : Bool)
    (oo : AbcObj) (h : abcNtkObj n i = some oo) (hci : abcObjIsCi oo = true) :
    abcNodeRefDeref (fuel + 1) n i fRef fLabel =
      ((if fLabel then abcNodeSetTravIdCurrent n i else n), 0) := by
  simp [abcNodeRefDeref, labelStep_obj, h, hci]

theorem abcRefDeref_int (fuel : Nat) (n : AbcNtk) (i : Nat) (fRef fLabel : Bool)
    (oo : AbcObj) (h : abcNtkObj n i = some oo) (hci : abcObjIsCi oo = false) :
    abcNodeRefDeref (fuel + 1) n i fRef fLabel =
      (let n0 := if fLabel then abcNodeSetTravIdCurrent n i else n
       let f0 := abcObjFanin0 oo
       let f1 := abcObjFanin1 oo
       let c0 := abcNtkFanoutCount n0 f0
       let c0n := if fRef then c0 + 1 else c0 - 1
       let n1 := abcNtkWriteFanout n0 f0 c0n
       let t0 := if fRef then c0 else c0n
       let p0 := if t0 = 0 then abcNodeRefDeref fuel n1 f0 fRef fLabel else (n1, 0)
       let c1 := abcNtkFanoutCount p0.1 f1
       let c1n := if fRef then c1 + 1 else c1 - 1
       let n3 := abcNtkWriteFanout p0.1 f1 c1n
       let t1 := if fRef then c1 else c1n
       let p1 := if t1 = 0 then abcNodeRefDeref fuel n3 f1 fRef fLabel else (n3, 0)
       (p1.1, 1 + p0.2 + p1.2)) := by
  conv_lhs => rw [abcNodeRefDeref]
  rw [labelStep_obj, h]
  simp only [hci]
  rfl

theorem labelStep_fan (n : AbcNtk) (i : Nat) (b : Bool) :
    abcFanView (if b then abcNodeSetTravIdCurrent n i else n) = abcFanView n := by
  cases b
  · rfl
  · rfl

theorem graphView_label (n : AbcNtk) (i : Nat) (b : Bool) :
    abcGraphView (if b then abcNodeSetTravIdCurrent n i else n) = abcGraphView n := by
  funext j
  unfold abcGraphView
  rw [labelStep_obj]

theorem graphView_writeFanout (n : AbcNtk) (i k : Nat) :
    abcGraphView (abcNtkWriteFanout n i k) = abcGraphView n := by
  funext j
  unfold abcGraphView
  rw [writeFanout_obj]
  by_cases hji : j = i
  · subst hji
    rw [if_pos rfl]
    cases h : abcNtkObj n j <;> simp [h, abcObjIsCi, abcObjFanin0, abcObjFanin1]
  · rw [if_neg hji]

theorem writeFanout_len (n : AbcNtk) (i k : Nat) :
    (abcNtkWriteFanout n i k).vObjs.length = n.vObjs.length := by
  unfold abcNtkWriteFanout
  exact List.length_set _ _ _

theorem fan_absent (n : AbcNtk) (j : Nat) (h : abcNtkObj n j = none) :
    abcFanView n j = 0 := by
  unfold abcFanView abcNtkFanoutCount
  rw [h]

theorem writeFanout_fan (n : AbcNtk) (i k : Nat) (hi : (abcNtkObj n i).isSome) (x : Nat) :
    abcFanView (abcNtkWriteFanout n i k) x = Mffc.upd (abcFanView n) i k x := by
  unfold abcFanView abcNtkFanoutCount Mffc.upd
  rw [writeFanout_obj]
  by_cases hxi : x = i
  · rw [if_pos hxi, if_pos hxi]
    subst hxi
    cases h : abcNtkObj n x
    · rw [h] at hi
      exact Bool.noConfusion hi
    · rfl
  · rw [if_neg hxi, if_neg hxi]

/-- The result of one faithful `Abc_NodeRefDeref` call agrees with the
model pass: same count, reference counts as in the model state, all
other object data and network fields untouched, and the traversal IDs
of exactly the visited nodes set to the current ID when `fLabel` is
set. -/

theorem SimRes.fanview {n : AbcNtk} {fLabel : Bool} {r : Mffc.MRes} {res : AbcNtk × Nat}
    (hs : SimRes n fLabel r res) : abcFanView res.1 = r.s := by
  funext j
  cases h : abcNtkObj n j with
  | none =>
    have h1 : abcNtkObj res.1 j = none := by
      rw [hs.objs j, h]
      rfl
    rw [fan_absent _ _ h1, hs.absent j h, fan_absent _ _ h]
  | some o =>
    have h1 : abcNtkObj res.1 j = some { o with nFanouts := r.s j } := by
      rw [hs.objs j, h]
      rfl
    unfold abcFanView abcNtkFanoutCount
    rw [h1]

theorem simres_id (n : AbcNtk) (fLabel : Bool) :
    SimRes n fLabel ⟨abcFanView n, 0, []⟩ (n, 0) := by
  refine ⟨rfl, ?_, fun _ _ => rfl, rfl, rfl, ?_, rfl, rfl, rfl, rfl, rfl, rfl, rfl⟩
  · intro j
    exact (mapFan_self n j).symm
  · intro x
    simp

theorem SimRes.gview {n : AbcNtk} {fLabel : Bool} {r : Mffc.MRes} {res : AbcNtk × Nat}
    (hs : SimRes n fLabel r res) : abcGraphView res.1 = abcGraphView n := by
  funext j
  unfold abcGraphView
  rw [hs.objs j]
  cases h : abcNtkObj n j <;> simp [abcObjIsCi, abcObjFanin0, abcObjFanin1]

/-- The faithful `Abc_NodeRefDeref` computes exactly what the model
pass computes, provided every fanin of an internal object is present. -/

theorem refDeref_sim (g : Nat → Option Mffc.MObj) (UL : List Nat)
    (hUfan : ∀ j ∈ UL, ∀ o, g j = some o → o.ci = false →
      (g o.a).isSome ∧ (g o.b).isSome)
    (hUclosed : ∀ j ∈ UL, ∀ o, g j = some o → o.ci = false →
      (Mffc.mInternal g o.a → o.a ∈ UL) ∧ (Mffc.mInternal g o.b → o.b ∈ UL)) :
    ∀ fuel (n : AbcNtk) (i : Nat) (fRef fLabel : Bool) (r : Mffc.MRes),
    (Mffc.mInternal g i → i ∈ UL) →
    (∀ j, abcGraphView n j = g j) →
    Mffc.mPass g fRef fuel (abcFanView n) i = some r →
    SimRes n fLabel r (abcNodeRefDeref fuel n i fRef fLabel) := by
  intro fuel
  induction fuel with
  | zero =>
    intro n i fRef fLabel r hiU hg hm
    exact absurd hm (by simp [Mffc.mPass])
  | succ fuel IH =>
    intro n i fRef fLabel r hiU hg hm
    cases hobji : abcNtkObj n i with
    | none =>
      have hgi : g i = none := by
        rw [← hg i]
        unfold abcGraphView
        rw [hobji]
      rw [Mffc.mPass_eq_none hgi] at hm
      cases Option.some.inj hm
      rw [abcRefDeref_none fuel n i fRef fLabel hobji]
      refine ⟨rfl, ?_, fun _ _ => rfl, ?_, labelStep_ntrav n i fLabel, ?_,
        labelStep_pis n i fLabel, labelStep_pos n i fLabel, labelStep_cis n i fLabel,
        labelStep_cos n i fLabel, labelStep_boxes n i fLabel,
        labelStep_names n i fLabel, labelStep_table n i fLabel⟩
      · intro j
        rw [labelStep_obj]
        exact (mapFan_self n j).symm
      · show (if fLabel then abcNodeSetTravIdCurrent n i else n).vObjs.length = _
        rw [labelStep_vObjs]
      · intro x
        rw [labelStep_trav]
        by_cases hxi : x = i <;> simp [hxi]
    | some oo =>
      have hgi : g i = some ⟨abcObjIsCi oo, abcObjFanin0 oo, abcObjFanin1 oo⟩ := by
        rw [← hg i]
        unfold abcGraphView
        rw [hobji]
      cases hciB : abcObjIsCi oo with
      | true =>
        rw [Mffc.mPass_eq_ci hgi hciB] at hm
        cases Option.some.inj hm
        rw [abcRefDeref_ci fuel n i fRef fLabel oo hobji hciB]
        refine ⟨rfl, ?_, fun _ _ => rfl, ?_, labelStep_ntrav n i fLabel, ?_,
          labelStep_pis n i fLabel, labelStep_pos n i fLabel, labelStep_cis n i fLabel,
          labelStep_cos n i fLabel, labelStep_boxes n i fLabel,
          labelStep_names n i fLabel, labelStep_table n i fLabel⟩
        · intro j
          rw [labelStep_obj]
          exact (mapFan_self n j).symm
        · show (if fLabel then abcNodeSetTravIdCurrent n i else n).vObjs.length = _
          rw [labelStep_vObjs]
        · intro x
          rw [labelStep_trav]
          by_cases hxi : x = i <;> simp [hxi]
      | false =>
        obtain ⟨r0, r1, hb0, hb1, hr⟩ := Mffc.mPass_destruct hgi hciB hm
        have hba : (⟨abcObjIsCi oo, abcObjFanin0 oo, abcObjFanin1 oo⟩ : Mffc.MObj).a =
            abcObjFanin0 oo := rfl
        have hbb : (⟨abcObjIsCi oo, abcObjFanin0 oo, abcObjFanin1 oo⟩ : Mffc.MObj).b =
            abcObjFanin1 oo := rfl
        simp only [hba, hbb] at hb0 hb1
        subst hr
        have hiUm : i ∈ UL := hiU ⟨_, hgi, hciB⟩
        have hg0s : (g (abcObjFanin0 oo)).isSome := (hUfan i hiUm _ hgi hciB).1
        have hg1s : (g (abcObjFanin1 oo)).isSome := (hUfan i hiUm _ hgi hciB).2
        have hUcl0 : Mffc.mInternal g (abcObjFanin0 oo) → abcObjFanin0 oo ∈ UL :=
          (hUclosed i hiUm _ hgi hciB).1
        have hUcl1 : Mffc.mInternal g (abcObjFanin1 oo) → abcObjFanin1 oo ∈ UL :=
          (hUclosed i hiUm _ hgi hciB).2
        have hpres0 : (abcNtkObj n (abcObjFanin0 oo)).isSome := by
          have h := hg (abcObjFanin0 oo)
          cases habs : abcNtkObj n (abcObjFanin0 oo)
          · unfold abcGraphView at h
            simp only [habs] at h
            rw [← h] at hg0s
            exact Bool.noConfusion hg0s
          · rfl
        have hpres1 : (abcNtkObj n (abcObjFanin1 oo)).isSome := by
          have h := hg (abcObjFanin1 oo)
          cases habs : abcNtkObj n (abcObjFanin1 oo)
          · unfold abcGraphView at h
            simp only [habs] at h
            rw [← h] at hg1s
            exact Bool.noConfusion hg1s
          · rfl
        set F0 := abcObjFanin0 oo with hF0
        set F1 := abcObjFanin1 oo with hF1
        set n0 := if fLabel then abcNodeSetTravIdCurrent n i else n with hn0
        have hobj0 : ∀ j, abcNtkObj n0 j = abcNtkObj n j := by
          intro j
          rw [hn0]
          exact labelStep_obj n i fLabel j
        have hfv0 : abcFanView n0 = abcFanView n := by
          rw [hn0]
          exact labelStep_fan n i fLabel
        set c0 := abcNtkFanoutCount n0 F0 with hc0
        have hc0v : c0 = abcFanView n F0 := by
          rw [hc0]
          show abcFanView n0 F0 = abcFanView n F0
          rw [hfv0]
        rw [← hc0v] at hb0
        set c0n := if fRef then c0 + 1 else c0 - 1 with hc0n
        set n1 := abcNtkWriteFanout n0 F0 c0n with hn1
        have hpres0' : (abcNtkObj n0 F0).isSome := by
          rw [hobj0 F0]
          exact hpres0
        have hfv1 : abcFanView n1 = Mffc.upd (abcFanView n) F0 c0n := by
          funext x
          rw [hn1, writeFanout_fan n0 F0 c0n hpres0' x, hfv0]
        rw [← hfv1] at hb0
        set t0 := if fRef then c0 else c0n with ht0
        have ht0v : t0 = if fRef then c0 else c0 - 1 := by
          rw [ht0, hc0n]
          cases fRef <;> simp
        rw [← ht0v] at hb0
        set p0 := if t0 = 0 then abcNodeRefDeref fuel n1 F0 fRef fLabel else (n1, 0) with hp0
        have hg1 : ∀ j, abcGraphView n1 j = g j := by
          intro j
          rw [hn1, graphView_writeFanout, hn0, graphView_label]
          exact hg j
        have hsim0 : SimRes n1 fLabel r0 p0 := by
          rw [hp0]
          by_cases hz : t0 = 0
          · rw [if_pos hz] at hb0 ⊢
            exact IH n1 F0 fRef fLabel r0 hUcl0 hg1 hb0
          · rw [if_neg hz] at hb0 ⊢
            have hre : r0 = ⟨abcFanView n1, 0, []⟩ := (Option.some.inj hb0).symm
            rw [hre]
            exact simres_id n1 fLabel
        set c1 := abcNtkFanoutCount p0.1 F1 with hc1
        have hc1v : c1 = r0.s F1 := by
          rw [hc1]
          show abcFanView p0.1 F1 = r0.s F1
          rw [hsim0.fanview]
        rw [← hc1v] at hb1
        set c1n := if fRef then c1 + 1 else c1 - 1 with hc1n
        set n3 := abcNtkWriteFanout p0.1 F1 c1n with hn3
        have hpres1n1 : (abcNtkObj n1 F1).isSome := by
          rw [hn1, writeFanout_obj]
          by_cases hj : F1 = F0
          · rw [if_pos hj, hobj0 F0]
            rw [hj] at hpres1
            cases habs : abcNtkObj n F0
            · rw [habs] at hpres1
              exact Bool.noConfusion hpres1
            · rfl
          · rw [if_neg hj, hobj0 F1]
            exact hpres1
        have hpres1' : (abcNtkObj p0.1 F1).isSome := by
          rw [hsim0.objs F1]
          cases habs : abcNtkObj n1 F1
          · rw [habs] at hpres1n1
            exact Bool.noConfusion hpres1n1
          · rfl
        have hfv3 : abcFanView n3 = Mffc.upd r0.s F1 c1n := by
          funext x
          rw [hn3, writeFanout_fan p0.1 F1 c1n hpres1' x, hsim0.fanview]
        rw [← hfv3] at hb1
        set t1 := if fRef then c1 else c1n with ht1
        have ht1v : t1 = if fRef then c1 else c1 - 1 := by
          rw [ht1, hc1n]
          cases fRef <;> simp
        rw [← ht1v] at hb1
        set p1 := if t1 = 0 then abcNodeRefDeref fuel n3 F1 fRef fLabel else (n3, 0) with hp1
        have hg3 : ∀ j, abcGraphView n3 j = g j := by
          intro j
          rw [hn3, graphView_writeFanout, hsim0.gview, hn1, graphView_writeFanout,
            hn0, graphView_label]
          exact hg j
        have hsim1 : SimRes n3 fLabel r1 p1 := by
          rw [hp1]
          by_cases hz : t1 = 0
          · rw [if_pos hz] at hb1 ⊢
            exact IH n3 F1 fRef fLabel r1 hUcl1 hg3 hb1
          · rw [if_neg hz] at hb1 ⊢
            have hre : r1 = ⟨abcFanView n3, 0, []⟩ := (Option.some.inj hb1).symm
            rw [hre]
            exact simres_id n3 fLabel
        have hstep : abcNodeRefDeref (fuel + 1) n i fRef fLabel = (p1.1, 1 + p0.2 + p1.2) := by
          rw [abcRefDeref_int fuel n i fRef fLabel oo hobji hciB]
        rw [hstep]
        have hshape : ∀ j, ∃ k, abcNtkObj n3 j =
            (abcNtkObj n j).map (fun o => { o with nFanouts := k }) := by
          intro j
          have h1 : ∃ k, abcNtkObj n1 j =
              (abcNtkObj n j).map (fun o => { o with nFanouts := k }) := by
            rw [hn1, writeFanout_obj]
            by_cases hj : j = F0
            · subst hj
              rw [if_pos rfl, hobj0]
              exact ⟨c0n, rfl⟩
            · rw [if_neg hj, hobj0 j]
              exact ⟨abcFanView n j, (mapFan_self n j).symm⟩
          obtain ⟨k1, hk1⟩ := h1
          have hk2 : abcNtkObj p0.1 j =
              (abcNtkObj n j).map (fun o => { o with nFanouts := r0.s j }) := by
            rw [hsim0.objs j, hk1, mapFan_mapFan]
          rw [hn3, writeFanout_obj]
          by_cases hj : j = F1
          · subst hj
            rw [if_pos rfl, hk2, mapFan_mapFan]
            exact ⟨c1n, rfl⟩
          · rw [if_neg hj]
            exact ⟨r0.s j, hk2⟩
        refine ⟨?_, ?_, ?_, ?_, ?_, ?_, ?_, ?_, ?_, ?_, ?_, ?_, ?_⟩
        · show 1 + p0.2 + p1.2 = 1 + r0.cnt + r1.cnt
          rw [hsim0.cnt, hsim1.cnt]
        · intro j
          show abcNtkObj p1.1 j =
            (abcNtkObj n j).map (fun o => { o with nFanouts := r1.s j })
          obtain ⟨k, hk⟩ := hshape j
          rw [hsim1.objs j, hk, mapFan_mapFan]
        · intro j hj
          show r1.s j = abcFanView n j
          obtain ⟨k, hk⟩ := hshape j
          rw [hj] at hk
          have hk' : abcNtkObj n3 j = none := by
            rw [hk]
            rfl
          have h3 := hsim1.absent j hk'
          rw [fan_absent n3 j hk'] at h3
          rw [h3, fan_absent n j hj]
        · show p1.1.vObjs.length = n.vObjs.length
          rw [hsim1.len, hn3, writeFanout_len, hsim0.len, hn1, writeFanout_len, hn0,
            labelStep_vObjs]
        · show p1.1.nTravIds = n.nTravIds
          rw [hsim1.ntrav, hn3]
          show p0.1.nTravIds = n.nTravIds
          rw [hsim0.ntrav, hn1]
          show n0.nTravIds = n.nTravIds
          rw [hn0]
          exact labelStep_ntrav n i fLabel
        · intro x
          show abcNodeTravId p1.1 x =
            if fLabel = true ∧ x ∈ i :: (r0.vis ++ r1.vis) then n.nTravIds
            else abcNodeTravId n x
          have en1t : n1.nTravIds = n.nTravIds := by
            rw [hn1]
            show n0.nTravIds = n.nTravIds
            rw [hn0]
            exact labelStep_ntrav n i fLabel
          have en3t : n3.nTravIds = n.nTravIds := by
            rw [hn3]
            show p0.1.nTravIds = n.nTravIds
            rw [hsim0.ntrav]
            exact en1t
          have e1 := hsim1.trav x
          have e0 := hsim0.trav x
          have etrav3 : abcNodeTravId n3 x = abcNodeTravId p0.1 x := by
            rw [hn3]
            exact writeFanout_travId _ _ _ _
          have etrav1 : abcNodeTravId n1 x =
              if fLabel = true ∧ x = i then n.nTravIds else abcNodeTravId n x := by
            rw [hn1, writeFanout_travId, hn0]
            exact labelStep_trav n i fLabel x
          rw [e1, etrav3, e0, etrav1, en3t, en1t]
          by_cases hfl : fLabel = true
          · simp only [hfl, true_and]
            by_cases h1m : x ∈ r1.vis
            · simp [h1m, List.mem_cons, List.mem_append]
            · by_cases h0m : x ∈ r0.vis
              · simp [h1m, h0m, List.mem_cons, List.mem_append]
              · by_cases hxi : x = i
                · simp [h1m, h0m, hxi]
                · simp [h1m, h0m, hxi, List.mem_cons, List.mem_append]
          · simp [hfl]
        · show p1.1.vPis = n.vPis
          rw [hsim1.pis, hn3]
          show p0.1.vPis = n.vPis
          rw [hsim0.pis, hn1]
          show n0.vPis = n.vPis
          rw [hn0]
          exact labelStep_pis n i fLabel
        · show p1.1.vPos = n.vPos
          rw [hsim1.pos, hn3]
          show p0.1.vPos = n.vPos
          rw [hsim0.pos, hn1]
          show n0.vPos = n.vPos
          rw [hn0]
          exact labelStep_pos n i fLabel
        · show p1.1.vCis = n.vCis
          rw [hsim1.cis, hn3]
          show p0.1.vCis = n.vCis
          rw [hsim0.cis, hn1]
          show n0.vCis = n.vCis
          rw [hn0]
          exact labelStep_cis n i fLabel
        · show p1.1.vCos = n.vCos
          rw [hsim1.cos, hn3]
          show p0.1.vCos = n.vCos
          rw [hsim0.cos, hn1]
          show n0.vCos = n.vCos
          rw [hn0]
          exact labelStep_cos n i fLabel
        · show p1.1.vBoxes = n.vBoxes
          rw [hsim1.boxes, hn3]
          show p0.1.vBoxes = n.vBoxes
          rw [hsim0.boxes, hn1]
          show n0.vBoxes = n.vBoxes
          rw [hn0]
          exact labelStep_boxes n i fLabel
        · show p1.1.names = n.names
          rw [hsim1.names, hn3]
          show p0.1.names = n.names
          rw [hsim0.names, hn1]
          show n0.names = n.names
          rw [hn0]
          exact labelStep_names n i fLabel
        · show p1.1.table = n.table
          rw [hsim1.table, hn3]
          show p0.1.table = n.table
          rw [hsim0.table, hn1]
          show n0.table = n.table
          rw [hn0]
          exact labelStep_table n i fLabel

theorem node_not_ci (o : AbcObj) (h : abcObjIsNode o = true) : abcObjIsCi o = false := by
  revert h
  unfold abcObjIsNode abcObjIsCi
  cases o.otype <;> simp

theorem abcNtkObj_lt (n : AbcNtk) (j : Nat) (o : AbcObj) (h : abcNtkObj n j = some o) :
    j < n.vObjs.length := by
  by_contra hge
  unfold abcNtkObj at h
  rw [List.get?_eq_getElem?, List.getElem?_eq_none (by omega)] at h
  exact Option.noConfusion h

theorem mem_abcNodeIds (n : AbcNtk) (j : Nat) :
    j ∈ abcNodeIds n ↔ ∃ o, abcNtkObj n j = some o ∧ abcObjIsNode o = true := by
  unfold abcNodeIds
  rw [List.mem_filter, List.mem_range]
  constructor
  · rintro ⟨hlt, hpred⟩
    cases h : abcNtkObj n j with
    | none =>
      rw [h] at hpred
      exact Bool.noConfusion hpred
    | some o =>
      rw [h] at hpred
      exact ⟨o, rfl, hpred⟩
  · rintro ⟨o, ho, hnode⟩
    refine ⟨abcNtkObj_lt n j o ho, ?_⟩
    rw [ho]
    exact hnode

theorem abcNodeIds_nodup (n : AbcNtk) : (abcNodeIds n).Nodup :=
  (List.nodup_range _).filter _

theorem gview_internal_iff (n : AbcNtk) (j : Nat) :
    Mffc.mInternal (abcGraphView n) j ↔
      ∃ o, abcNtkObj n j = some o ∧ abcObjIsCi o = false := by
  unfold Mffc.mInternal abcGraphView
  cases h : abcNtkObj n j <;> simp [h]

theorem abcNodeIds_uint (n : AbcNtk) :
    ∀ u ∈ abcNodeIds n, Mffc.mInternal (abcGraphView n) u := by
  intro u hu
  obtain ⟨o, ho, hnode⟩ := (mem_abcNodeIds n u).1 hu
  exact (gview_internal_iff n u).2 ⟨o, ho, node_not_ci o hnode⟩

theorem gview_some_lt (n : AbcNtk) (v : Nat) (h : (abcGraphView n v).isSome) :
    v < n.vObjs.length := by
  cases habs : abcNtkObj n v with
  | none =>
    exfalso
    unfold abcGraphView at h
    rw [habs] at h
    exact Bool.noConfusion h
  | some o => exact abcNtkObj_lt n v o habs

set_option maxHeartbeats 1000000 in
/-- C4: for an AND node `rt` with fanins, `Abc_NodeMffcLabelAig` — the
dereference pass followed by the mirror reference pass — makes both
passes return the same node count, leaves every object (in particular
every reference count) exactly as it was before the call, and marks
with the current traversal ID exactly the nodes of `rt`'s MFFC: besides
`rt`, an object is marked iff it is referenced and all of its
references come from marked internal nodes. -/
theorem c4_mffc_label (n : AbcNtk) (rt : Nat) (rank extra : Nat → Nat) (ort : AbcObj)
    (hobj : abcNtkObj n rt = some ort)
    (hnode : abcObjIsNode ort = true)
    (hfanin : ¬ (abcObjFaninNum ort = 0))
    (hranklt : ∀ u x, Mffc.mInternal (abcGraphView n) u →
      Mffc.mFaninOf (abcGraphView n) u x → rank x < rank u)
    (hab : ∀ u o, abcGraphView n u = some o → o.ci = false → o.a ≠ o.b)
    (hclosed : ∀ u ∈ abcNodeIds n, ∀ x, Mffc.mFaninOf (abcGraphView n) u x →
      Mffc.mInternal (abcGraphView n) x → x ∈ abcNodeIds n)
    (hUfan : ∀ j ∈ abcNodeIds n, ∀ o, abcGraphView n j = some o → o.ci = false →
      ((abcGraphView n) o.a).isSome ∧ ((abcGraphView n) o.b).isSome)
    (hfuel : rank rt < abcNtkObjNumMax n + 1)
    (hstate0 : ∀ x, abcFanView n x =
      Mffc.mEdges (abcGraphView n) (abcNodeIds n) x + extra x)
    (hpos0 : ∀ x ∈ abcNodeIds n, x ≠ rt → 0 < abcFanView n x)
    (hclean : ∀ x, abcNodeIsTravIdCurrent n x = false) :
    (abcNodeRefDeref (abcNtkObjNumMax n + 1) n rt false true).2 =
      (abcNodeRefDeref (abcNtkObjNumMax n + 1)
        (abcNodeRefDeref (abcNtkObjNumMax n + 1) n rt false true).1 rt true false).2 ∧
    (abcNodeMffcLabelAig n rt).1 =
      (abcNodeRefDeref (abcNtkObjNumMax n + 1)
        (abcNodeRefDeref (abcNtkObjNumMax n + 1) n rt false true).1 rt true false).1 ∧
    (abcNodeMffcLabelAig n rt).2 =
      (abcNodeRefDeref (abcNtkObjNumMax n + 1) n rt false true).2 ∧
    (∀ j, abcNtkObj (abcNodeMffcLabelAig n rt).1 j = abcNtkObj n j) ∧
    abcNodeIsTravIdCurrent (abcNodeMffcLabelAig n rt).1 rt = true ∧
    (∀ x, x ≠ rt →
      (abcNodeIsTravIdCurrent (abcNodeMffcLabelAig n rt).1 x = true ↔
        0 < abcFanView n x ∧
        abcFanView n x = Mffc.mEdges (abcGraphView n)
          (abcMarkedIds (abcNodeMffcLabelAig n rt).1) x)) := by
  have hrtci : abcObjIsCi ort = false := node_not_ci ort hnode
  have hrtlt : rt < n.vObjs.length := abcNtkObj_lt n rt ort hobj
  have hrtU : rt ∈ abcNodeIds n := (mem_abcNodeIds n rt).2 ⟨ort, hobj, hnode⟩
  have hgrt : abcGraphView n rt =
      some ⟨abcObjIsCi ort, abcObjFanin0 ort, abcObjFanin1 ort⟩ := by
    unfold abcGraphView
    rw [hobj]
  have hrtint : Mffc.mInternal (abcGraphView n) rt := ⟨_, hgrt, hrtci⟩
  have hG : Mffc.GOk (abcGraphView n) (abcNodeIds n) rank :=
    ⟨hranklt, hab, hclosed, abcNodeIds_uint n, abcNodeIds_nodup n⟩
  obtain ⟨rD, rR, hrD, hrR, hcnt, hrestore, hrtvis, hvnodup, hparents, hcharac⟩ :=
    Mffc.mMffc_spec (abcGraphView n) (abcNodeIds n) rank hG (abcNtkObjNumMax n + 1) rt
      (abcFanView n) extra hfuel hstate0 hpos0 hrtint hrtU
  have hUclosed : ∀ j ∈ abcNodeIds n, ∀ o, abcGraphView n j = some o → o.ci = false →
      (Mffc.mInternal (abcGraphView n) o.a → o.a ∈ abcNodeIds n) ∧
      (Mffc.mInternal (abcGraphView n) o.b → o.b ∈ abcNodeIds n) := by
    intro j hj o hgj hci
    constructor
    · intro hint
      exact hclosed j hj o.a ⟨o, hgj, Or.inl rfl⟩ hint
    · intro hint
      exact hclosed j hj o.b ⟨o, hgj, Or.inr rfl⟩ hint
  set F := abcNtkObjNumMax n + 1 with hF
  set d := abcNodeRefDeref F n rt false true with hd
  have sim1 : SimRes n true rD d := by
    rw [hd]
    exact refDeref_sim (abcGraphView n) (abcNodeIds n) hUfan hUclosed F n rt false true
      rD (fun _ => hrtU) (fun j => rfl) hrD
  have hg2 : ∀ j, abcGraphView d.1 j = abcGraphView n j := fun j => congrFun sim1.gview j
  have hm2 : Mffc.mPass (abcGraphView n) true F (abcFanView d.1) rt = some rR := by
    rw [sim1.fanview]
    exact hrR
  set r2 := abcNodeRefDeref F d.1 rt true false with hr2
  have sim2 : SimRes d.1 false rR r2 := by
    rw [hr2]
    exact refDeref_sim (abcGraphView n) (abcNodeIds n) hUfan hUclosed F d.1 rt true false
      rR (fun _ => hrtU) hg2 hm2
  have hmf : abcNodeMffcLabelAig n rt = (r2.1, d.2) := by
    unfold abcNodeMffcLabelAig
    rw [hobj]
    simp only [if_neg hfanin]
  have hntrav2 : r2.1.nTravIds = n.nTravIds := by
    rw [sim2.ntrav, sim1.ntrav]
  have htrav2 : ∀ x, abcNodeTravId r2.1 x =
      if x ∈ rD.vis then n.nTravIds else abcNodeTravId n x := by
    intro x
    rw [sim2.trav x, if_neg (fun h => Bool.noConfusion h.1), sim1.trav x]
    by_cases hxv : x ∈ rD.vis
    · rw [if_pos ⟨rfl, hxv⟩, if_pos hxv]
    · rw [if_neg (fun h => hxv h.2), if_neg hxv]
  have hmarked : ∀ x, (abcNodeIsTravIdCurrent r2.1 x = true) ↔ x ∈ rD.vis := by
    intro x
    unfold abcNodeIsTravIdCurrent
    rw [htrav2 x, hntrav2]
    by_cases hxv : x ∈ rD.vis
    · simp [hxv]
    · rw [if_neg hxv]
      constructor
      · intro h
        exfalso
        have hc := hclean x
        unfold abcNodeIsTravIdCurrent at hc
        rw [h] at hc
        exact Bool.noConfusion hc
      · intro h
        exact absurd h hxv
  have hvislt : ∀ v ∈ rD.vis, v < n.vObjs.length := by
    intro v hv
    by_cases hvr : v = rt
    · subst hvr
      exact hrtlt
    · obtain ⟨p, hpU, hpint, hpfan⟩ := hparents v hv hvr
      obtain ⟨op, hgp, hopci⟩ := hpint
      obtain ⟨op2, hgp2, hor⟩ := hpfan
      rw [hgp] at hgp2
      cases Option.some.inj hgp2
      have hfans := hUfan p hpU op hgp hopci
      apply gview_some_lt n v
      rcases hor with h | h
      · rw [← h]
        exact hfans.1
      · rw [← h]
        exact hfans.2
  have hlen2 : r2.1.vObjs.length = n.vObjs.length := by
    rw [sim2.len, sim1.len]
  have hmem : ∀ u, u ∈ abcMarkedIds r2.1 ↔ u ∈ rD.vis := by
    intro u
    unfold abcMarkedIds
    rw [List.mem_filter, List.mem_range]
    constructor
    · rintro ⟨hlt, hmk⟩
      exact (hmarked u).1 hmk
    · intro hu
      refine ⟨?_, (hmarked u).2 hu⟩
      rw [hlen2]
      exact hvislt u hu
  have hedges : ∀ x, Mffc.mEdges (abcGraphView n) (abcMarkedIds r2.1) x =
      Mffc.mEdges (abcGraphView n) rD.vis x := by
    intro x
    apply Mffc.mEdges_congr_nodup
    · exact (List.nodup_range _).filter _
    · exact hvnodup
    · exact hmem
  refine ⟨?_, ?_, ?_, ?_, ?_, ?_⟩
  · rw [sim1.cnt, sim2.cnt, hcnt]
  · rw [hmf]
  · rw [hmf]
  · intro j
    rw [hmf]
    show abcNtkObj r2.1 j = abcNtkObj n j
    rw [sim2.objs j, sim1.objs j, mapFan_mapFan, hrestore j]
    exact mapFan_self n j
  · rw [hmf]
    show abcNodeIsTravIdCurrent r2.1 rt = true
    exact (hmarked rt).2 hrtvis
  · intro x hxr
    rw [hmf]
    show abcNodeIsTravIdCurrent r2.1 x = true ↔ _
    rw [hmarked x]
    show _ ↔ 0 < abcFanView n x ∧ abcFanView n x =
      Mffc.mEdges (abcGraphView n) (abcMarkedIds r2.1) x
    rw [hedges x]
    exact hcharac x hxr

theorem c4_mffc_label_witness :
    (abcNodeMffcLabelAig c4Net 3).2 = 2 ∧
    (∀ j, abcNtkObj (abcNodeMffcLabelAig c4Net 3).1 j = abcNtkObj c4Net j) ∧
    abcNodeIsTravIdCurrent (abcNodeMffcLabelAig c4Net 3).1 3 = true := by
  have hv0 : abcGraphView c4Net 0 = some ⟨true, 0, 0⟩ := rfl
  have hv1 : abcGraphView c4Net 1 = some ⟨true, 0, 0⟩ := rfl
  have hv2 : abcGraphView c4Net 2 = some ⟨false, 0, 1⟩ := rfl
  have hv3 : abcGraphView c4Net 3 = some ⟨false, 0, 2⟩ := rfl
  have hv4 : abcGraphView c4Net 4 = some ⟨false, 3, 0⟩ := rfl
  have h := c4_mffc_label c4Net 3 (fun x => x) (fun x => if x = 3 then 1 else 0)
    { oid := 3, otype := .node, vFanins := [0, 2], fCompl0 := false, fCompl1 := true,
      vFanouts := [4], nFanouts := 1, fPhase := false, pData := 0, pCopy := none }
    rfl rfl (by decide)
    (by
      intro u x hint hfan
      obtain ⟨o, ho, hci⟩ := hint
      obtain ⟨o2, ho2, hor⟩ := hfan
      rw [ho] at ho2
      cases Option.some.inj ho2
      have hu : u < 5 := gview_some_lt c4Net u (by rw [ho]; rfl)
      interval_cases u
      · rw [hv0] at ho
        cases Option.some.inj ho
        exact Bool.noConfusion hci
      · rw [hv1] at ho
        cases Option.some.inj ho
        exact Bool.noConfusion hci
      · rw [hv2] at ho
        cases Option.some.inj ho
        rcases hor with hx | hx <;> (rw [← hx]; decide)
      · rw [hv3] at ho
        cases Option.some.inj ho
        rcases hor with hx | hx <;> (rw [← hx]; decide)
      · rw [hv4] at ho
        cases Option.some.inj ho
        rcases hor with hx | hx <;> (rw [← hx]; decide))
    (by
      intro u o ho hci
      have hu : u < 5 := gview_some_lt c4Net u (by rw [ho]; rfl)
      interval_cases u
      · rw [hv0] at ho
        cases Option.some.inj ho
        exact Bool.noConfusion hci
      · rw [hv1] at ho
        cases Option.some.inj ho
        exact Bool.noConfusion hci
      · rw [hv2] at ho
        cases Option.some.inj ho
        decide
      · rw [hv3] at ho
        cases Option.some.inj ho
        decide
      · rw [hv4] at ho
        cases Option.some.inj ho
        decide)
    (by
      intro u hu x hfan hint
      have hu2 : u = 2 ∨ u = 3 := by
        have : abcNodeIds c4Net = [2, 3] := rfl
        rw [this] at hu
        rcases List.mem_cons.1 hu with h2 | h2
        · exact Or.inl h2
        · rcases List.mem_cons.1 h2 with h3 | h3
          · exact Or.inr h3
          · exact absurd h3 (List.not_mem_nil u)
      obtain ⟨o, ho, hor⟩ := hfan
      obtain ⟨o2, ho2, hci2⟩ := hint
      rcases hu2 with rfl | rfl
      · rw [hv2] at ho
        cases Option.some.inj ho
        rcases hor with hx | hx
        · rw [← hx] at ho2
          rw [hv0] at ho2
          cases Option.some.inj ho2
          exact Bool.noConfusion hci2
        · rw [← hx] at ho2
          rw [hv1] at ho2
          cases Option.some.inj ho2
          exact Bool.noConfusion hci2
      · rw [hv3] at ho
        cases Option.some.inj ho
        rcases hor with hx | hx
        · rw [← hx] at ho2
          rw [hv0] at ho2
          cases Option.some.inj ho2
          exact Bool.noConfusion hci2
        · rw [← hx]
          decide)
    (by
      intro j hj o ho hci
      have hu2 : j = 2 ∨ j = 3 := by
        have : abcNodeIds c4Net = [2, 3] := rfl
        rw [this] at hj
        rcases List.mem_cons.1 hj with h2 | h2
        · exact Or.inl h2
        · rcases List.mem_cons.1 h2 with h3 | h3
          · exact Or.inr h3
          · exact absurd h3 (List.not_mem_nil j)
      rcases hu2 with rfl | rfl
      · rw [hv2] at ho
        cases Option.some.inj ho
        exact ⟨rfl, rfl⟩
      · rw [hv3] at ho
        cases Option.some.inj ho
        exact ⟨rfl, rfl⟩)
    (by decide)
    (by
      intro x
      rcases x with _ | _ | _ | _ | _ | x <;> rfl)
    (by decide)
    (fun x => rfl)
  refine ⟨?_, h.2.2.2.1, h.2.2.2.2.1⟩
  rw [h.2.2.1]
  decide

end Abc

namespace Abc

theorem foldl_preserve {α β γ : Type} (f : α → β → α) (proj : α → γ)
    (h : ∀ m c, proj (f m c) = proj m) :
    ∀ (l : List β) (a : α), proj (l.foldl f a) = proj a := by
  intro l
  induction l with
  | nil =>
    intro a
    rfl
  | cons c cs ih =>
    intro a
    rw [List.foldl_cons, ih (f a c), h a c]

theorem incTravId_vObjs (n : AbcNtk) : (abcNtkIncrementTravId n).vObjs = n.vObjs := by
  unfold abcNtkIncrementTravId
  by_cases h : n.vTravIds = [] <;> simp [h]

theorem incTravId_pis (n : AbcNtk) : (abcNtkIncrementTravId n).vPis = n.vPis := by
  unfold abcNtkIncrementTravId
  by_cases h : n.vTravIds = [] <;> simp [h]

theorem incTravId_pos (n : AbcNtk) : (abcNtkIncrementTravId n).vPos = n.vPos := by
  unfold abcNtkIncrementTravId
  by_cases h : n.vTravIds = [] <;> simp [h]

theorem incTravId_cis (n : AbcNtk) : (abcNtkIncrementTravId n).vCis = n.vCis := by
  unfold abcNtkIncrementTravId
  by_cases h : n.vTravIds = [] <;> simp [h]

theorem incTravId_cos (n : AbcNtk) : (abcNtkIncrementTravId n).vCos = n.vCos := by
  unfold abcNtkIncrementTravId
  by_cases h : n.vTravIds = [] <;> simp [h]

theorem incTravId_boxes (n : AbcNtk) : (abcNtkIncrementTravId n).vBoxes = n.vBoxes := by
  unfold abcNtkIncrementTravId
  by_cases h : n.vTravIds = [] <;> simp [h]

theorem incTravId_names (n : AbcNtk) : (abcNtkIncrementTravId n).names = n.names := by
  unfold abcNtkIncrementTravId
  by_cases h : n.vTravIds = [] <;> simp [h]

theorem incTravId_table (n : AbcNtk) : (abcNtkIncrementTravId n).table = n.table := by
  unfold abcNtkIncrementTravId
  by_cases h : n.vTravIds = [] <;> simp [h]

theorem vObjs_obj (n n2 : AbcNtk) (h : n2.vObjs = n.vObjs) (j : Nat) :
    abcNtkObj n2 j = abcNtkObj n j := by
  unfold abcNtkObj
  rw [h]

theorem vObjs_ext (n n2 : AbcNtk) (hlen : n2.vObjs.length = n.vObjs.length)
    (h : ∀ j, abcNtkObj n2 j = abcNtkObj n j) : n2.vObjs = n.vObjs := by
  apply List.ext_get?
  intro j
  by_cases hj : j < n.vObjs.length
  · have h1 : n2.vObjs.get? j = some ((n2.vObjs.get? j).getD none) := by
      rw [List.get?_eq_getElem?]
      rw [List.getElem?_eq_getElem (by omega)]
      rfl
    have h2 : n.vObjs.get? j = some ((n.vObjs.get? j).getD none) := by
      rw [List.get?_eq_getElem?]
      rw [List.getElem?_eq_getElem (by omega)]
      rfl
    rw [h1, h2]
    have := h j
    unfold abcNtkObj at this
    rw [this]
  · rw [List.get?_eq_getElem?, List.get?_eq_getElem?,
      List.getElem?_eq_none (show n2.vObjs.length ≤ j by omega),
      List.getElem?_eq_none (show n.vObjs.length ≤ j by omega)]

theorem bump_obj : ∀ (cut : List Nat) (net : AbcNtk),
    (∀ c ∈ cut, (abcNtkObj net c).isSome) → ∀ j,
    abcNtkObj (abcBumpFanouts net cut) j =
      (abcNtkObj net j).map (fun o => { o with nFanouts := o.nFanouts + cut.count j }) := by
  intro cut
  induction cut with
  | nil =>
    intro net _ j
    show abcNtkObj net j = _
    cases h : abcNtkObj net j <;> simp [h]
  | cons c cs ih =>
    intro net hpres j
    have hcs : ∀ c2 ∈ cs, (abcNtkObj (abcNtkWriteFanout net c
        (abcNtkFanoutCount net c + 1)) c2).isSome := by
      intro c2 hc2
      rw [writeFanout_obj]
      by_cases hc2c : c2 = c
      · rw [if_pos hc2c]
        have := hpres c (List.mem_cons_self _ _)
        cases h : abcNtkObj net c
        · rw [h] at this
          exact Bool.noConfusion this
        · rfl
      · rw [if_neg hc2c]
        exact hpres c2 (List.mem_cons_of_mem _ hc2)
    show abcNtkObj (abcBumpFanouts (abcNtkWriteFanout net c
      (abcNtkFanoutCount net c + 1)) cs) j = _
    rw [ih _ hcs j, writeFanout_obj]
    by_cases hjc : j = c
    · rw [if_pos hjc, ← hjc]
      cases h : abcNtkObj net j
      · rfl
      · rename_i o
        have hfc : abcNtkFanoutCount net j = o.nFanouts := by
          unfold abcNtkFanoutCount
          rw [h]
        show some _ = some _
        rw [hfc]
        simp only [List.count_cons_self, Option.some.injEq, AbcObj.mk.injEq,
          eq_self_iff_true, true_and, and_true]
        omega
    · rw [if_neg hjc]
      cases h : abcNtkObj net j
      · rfl
      · have hcj : (c :: cs).count j = cs.count j := by
          simp [List.count_cons, hjc]
        show some _ = some _
        rw [hcj]

theorem unbump_obj : ∀ (cut : List Nat) (net : AbcNtk), ∀ j,
    abcNtkObj (abcUnbumpFanouts net cut) j =
      (abcNtkObj net j).map (fun o => { o with nFanouts := o.nFanouts - cut.count j }) := by
  intro cut
  induction cut with
  | nil =>
    intro net j
    show abcNtkObj net j = _
    cases h : abcNtkObj net j <;> simp [h]
  | cons c cs ih =>
    intro net j
    show abcNtkObj (abcUnbumpFanouts (abcNtkWriteFanout net c
      (abcNtkFanoutCount net c - 1)) cs) j = _
    rw [ih _ j, writeFanout_obj]
    by_cases hjc : j = c
    · rw [if_pos hjc, ← hjc]
      cases h : abcNtkObj net j
      · rfl
      · rename_i o
        have hfc : abcNtkFanoutCount net j = o.nFanouts := by
          unfold abcNtkFanoutCount
          rw [h]
        show some _ = some _
        rw [hfc]
        simp only [List.count_cons_self, Option.some.injEq, AbcObj.mk.injEq,
          eq_self_iff_true, true_and, and_true]
        omega
    · rw [if_neg hjc]
      cases h : abcNtkObj net j
      · rfl
      · have hcj : (c :: cs).count j = cs.count j := by
          simp [List.count_cons, hjc]
        show some _ = some _
        rw [hcj]

theorem refDeref_pair_eq (fuel : Nat) (n : AbcNtk) (i : Nat) (fRef fLabel : Bool)
    (oo : AbcObj) (h : abcNtkObj n i = some oo) (hci : abcObjIsCi oo = false) :
    abcNodeRefDeref (fuel + 1) n i fRef fLabel =
      (let n0 := if fLabel then abcNodeSetTravIdCurrent n i else n
       let c0 := abcNtkFanoutCount n0 (abcObjFanin0 oo)
       let c0n := if fRef then c0 + 1 else c0 - 1
       let n1 := abcNtkWriteFanout n0 (abcObjFanin0 oo) c0n
       let t0 := if fRef then c0 else c0n
       let p0 := if t0 = 0 then abcNodeRefDeref fuel n1 (abcObjFanin0 oo) fRef fLabel
                 else (n1, 0)
       let c1 := abcNtkFanoutCount p0.1 (abcObjFanin1 oo)
       let c1n := if fRef then c1 + 1 else c1 - 1
       let n3 := abcNtkWriteFanout p0.1 (abcObjFanin1 oo) c1n
       let t1 := if fRef then c1 else c1n
       let p1 := if t1 = 0 then abcNodeRefDeref fuel n3 (abcObjFanin1 oo) fRef fLabel
                 else (n3, 0)
       (p1.1, 1 + p0.2 + p1.2)) :=
  abcRefDeref_int fuel n i fRef fLabel oo h hci

theorem refDeref_proj {γ : Type} (proj : AbcNtk → γ)
    (hset : ∀ m x, proj (abcNodeSetTravIdCurrent m x) = proj m)
    (hwrite : ∀ m j k, proj (abcNtkWriteFanout m j k) = proj m) :
    ∀ fuel n i fRef fLabel, proj (abcNodeRefDeref fuel n i fRef fLabel).1 = proj n := by
  intro fuel
  induction fuel with
  | zero =>
    intro n i fRef fLabel
    rfl
  | succ fuel ih =>
    intro n i fRef fLabel
    have hlab : ∀ (m : AbcNtk) (x : Nat) (b : Bool),
        proj (if b then abcNodeSetTravIdCurrent m x else m) = proj m := by
      intro m x b
      cases b
      · rfl
      · exact hset m x
    have hpair : ∀ (m : AbcNtk) (x t : Nat),
        proj (if t = 0 then abcNodeRefDeref fuel m x fRef fLabel else (m, 0)).1 = proj m := by
      intro m x t
      by_cases ht : t = 0
      · rw [if_pos ht]
        exact ih m x fRef fLabel
      · rw [if_neg ht]
    cases h : abcNtkObj n i with
    | none =>
      rw [abcRefDeref_none fuel n i fRef fLabel h]
      exact hlab n i fLabel
    | some oo =>
      cases hci : abcObjIsCi oo with
      | true =>
        rw [abcRefDeref_ci fuel n i fRef fLabel oo h hci]
        exact hlab n i fLabel
      | false =>
        rw [refDeref_pair_eq fuel n i fRef fLabel oo h hci]
        show proj (if _ = 0 then abcNodeRefDeref fuel _ _ fRef fLabel else (_, 0)).1 = proj n
        rw [hpair, hwrite, hpair, hwrite, hlab]

theorem mffcLabel_proj {γ : Type} (proj : AbcNtk → γ)
    (hset : ∀ m x, proj (abcNodeSetTravIdCurrent m x) = proj m)
    (hwrite : ∀ m j k, proj (abcNtkWriteFanout m j k) = proj m)
    (n : AbcNtk) (i : Nat) : proj (abcNodeMffcLabelAig n i).1 = proj n := by
  unfold abcNodeMffcLabelAig
  cases h : abcNtkObj n i with
  | none => rfl
  | some o =>
    by_cases hf : abcObjFaninNum o = 0
    · simp only [if_pos hf]
    · simp only [if_neg hf]
      rw [refDeref_proj proj hset hwrite, refDeref_proj proj hset hwrite]

theorem vObjs_gview (n n2 : AbcNtk) (h : n2.vObjs = n.vObjs) :
    abcGraphView n2 = abcGraphView n := by
  funext j
  unfold abcGraphView
  rw [vObjs_obj n n2 h j]

theorem vObjs_fanView (n n2 : AbcNtk) (h : n2.vObjs = n.vObjs) :
    abcFanView n2 = abcFanView n := by
  funext j
  unfold abcFanView abcNtkFanoutCount
  rw [vObjs_obj n n2 h j]

theorem vObjs_nodeIds (n n2 : AbcNtk) (h : n2.vObjs = n.vObjs) :
    abcNodeIds n2 = abcNodeIds n := by
  unfold abcNodeIds
  rw [h]
  apply List.filter_congr
  intro j hj
  rw [vObjs_obj n n2 h j]

theorem vObjs_numMax (n n2 : AbcNtk) (h : n2.vObjs = n.vObjs) :
    abcNtkObjNumMax n2 = abcNtkObjNumMax n := by
  unfold abcNtkObjNumMax
  rw [h]

theorem bump_len (net : AbcNtk) (cut : List Nat) :
    (abcBumpFanouts net cut).vObjs.length = net.vObjs.length :=
  foldl_preserve _ (fun m => m.vObjs.length) (fun m c => writeFanout_len m c _) cut net

theorem unbump_len (net : AbcNtk) (cut : List Nat) :
    (abcUnbumpFanouts net cut).vObjs.length = net.vObjs.length :=
  foldl_preserve _ (fun m => m.vObjs.length) (fun m c => writeFanout_len m c _) cut net

theorem bump_gview (net : AbcNtk) (cut : List Nat)
    (hcut : ∀ c ∈ cut, (abcNtkObj net c).isSome) :
    abcGraphView (abcBumpFanouts net cut) = abcGraphView net := by
  funext j
  unfold abcGraphView
  rw [bump_obj cut net hcut j]
  cases h : abcNtkObj net j <;> simp [abcObjIsCi, abcObjFanin0, abcObjFanin1]

theorem bump_nodeIds (net : AbcNtk) (cut : List Nat)
    (hcut : ∀ c ∈ cut, (abcNtkObj net c).isSome) :
    abcNodeIds (abcBumpFanouts net cut) = abcNodeIds net := by
  unfold abcNodeIds
  rw [bump_len]
  apply List.filter_congr
  intro j hj
  rw [bump_obj cut net hcut j]
  cases h : abcNtkObj net j <;> simp [abcObjIsNode]

theorem bump_fanView (net : AbcNtk) (cut : List Nat)
    (hcut : ∀ c ∈ cut, (abcNtkObj net c).isSome) (x : Nat) :
    abcFanView (abcBumpFanouts net cut) x = abcFanView net x + cut.count x := by
  unfold abcFanView abcNtkFanoutCount
  rw [bump_obj cut net hcut x]
  cases h : abcNtkObj net x
  · have hxc : cut.count x = 0 := by
      rw [List.count_eq_zero]
      intro hmem
      have := hcut x hmem
      rw [h] at this
      exact Bool.noConfusion this
    simp [hxc]
  · simp

theorem bump_numMax (net : AbcNtk) (cut : List Nat) :
    abcNtkObjNumMax (abcBumpFanouts net cut) = abcNtkObjNumMax net := by
  unfold abcNtkObjNumMax
  rw [bump_len]

theorem incTravId_obj (n : AbcNtk) (j : Nat) :
    abcNtkObj (abcNtkIncrementTravId n) j = abcNtkObj n j :=
  vObjs_obj n (abcNtkIncrementTravId n) (incTravId_vObjs n) j

set_option maxHeartbeats 1000000 in
theorem mffcLabel_frame (n : AbcNtk) (rt : Nat) (rank extra : Nat → Nat) (ort : AbcObj)
    (hobj : abcNtkObj n rt = some ort)
    (hnode : abcObjIsNode ort = true)
    (hranklt : ∀ u x, Mffc.mInternal (abcGraphView n) u →
      Mffc.mFaninOf (abcGraphView n) u x → rank x < rank u)
    (hab : ∀ u o, abcGraphView n u = some o → o.ci = false → o.a ≠ o.b)
    (hclosed : ∀ u ∈ abcNodeIds n, ∀ x, Mffc.mFaninOf (abcGraphView n) u x →
      Mffc.mInternal (abcGraphView n) x → x ∈ abcNodeIds n)
    (hUfan : ∀ j ∈ abcNodeIds n, ∀ o, abcGraphView n j = some o → o.ci = false →
      ((abcGraphView n) o.a).isSome ∧ ((abcGraphView n) o.b).isSome)
    (hfuel : rank rt < abcNtkObjNumMax n + 1)
    (hstate0 : ∀ x, abcFanView n x =
      Mffc.mEdges (abcGraphView n) (abcNodeIds n) x + extra x)
    (hpos0 : ∀ x ∈ abcNodeIds n, x ≠ rt → 0 < abcFanView n x) :
    (abcNodeMffcLabelAig n rt).1.vObjs = n.vObjs := by
  by_cases hfanin : abcObjFaninNum ort = 0
  · unfold abcNodeMffcLabelAig
    rw [hobj]
    simp only [if_pos hfanin]
  · have hrtci : abcObjIsCi ort = false := node_not_ci ort hnode
    have hrtU : rt ∈ abcNodeIds n := (mem_abcNodeIds n rt).2 ⟨ort, hobj, hnode⟩
    have hgrt : abcGraphView n rt =
        some ⟨abcObjIsCi ort, abcObjFanin0 ort, abcObjFanin1 ort⟩ := by
      unfold abcGraphView
      rw [hobj]
    have hrtint : Mffc.mInternal (abcGraphView n) rt := ⟨_, hgrt, hrtci⟩
    have hG : Mffc.GOk (abcGraphView n) (abcNodeIds n) rank :=
      ⟨hranklt, hab, hclosed, abcNodeIds_uint n, abcNodeIds_nodup n⟩
    obtain ⟨rD, rR, hrD, hrR, hcnt, hrestore, hrtvis, hvnodup, hparents, hcharac⟩ :=
      Mffc.mMffc_spec (abcGraphView n) (abcNodeIds n) rank hG (abcNtkObjNumMax n + 1) rt
        (abcFanView n) extra hfuel hstate0 hpos0 hrtint hrtU
    have hUclosed : ∀ j ∈ abcNodeIds n, ∀ o, abcGraphView n j = some o → o.ci = false →
        (Mffc.mInternal (abcGraphView n) o.a → o.a ∈ abcNodeIds n) ∧
        (Mffc.mInternal (abcGraphView n) o.b → o.b ∈ abcNodeIds n) := by
      intro j hj o hgj hci
      constructor
      · intro hint
        exact hclosed j hj o.a ⟨o, hgj, Or.inl rfl⟩ hint
      · intro hint
        exact hclosed j hj o.b ⟨o, hgj, Or.inr rfl⟩ hint
    set F := abcNtkObjNumMax n + 1 with hF
    set d := abcNodeRefDeref F n rt false true with hd
    have sim1 : SimRes n true rD d := by
      rw [hd]
      exact refDeref_sim (abcGraphView n) (abcNodeIds n) hUfan hUclosed F n rt false true
        rD (fun _ => hrtU) (fun j => rfl) hrD
    have hg2 : ∀ j, abcGraphView d.1 j = abcGraphView n j := fun j => congrFun sim1.gview j
    have hm2 : Mffc.mPass (abcGraphView n) true F (abcFanView d.1) rt = some rR := by
      rw [sim1.fanview]
      exact hrR
    set r2 := abcNodeRefDeref F d.1 rt true false with hr2
    have sim2 : SimRes d.1 false rR r2 := by
      rw [hr2]
      exact refDeref_sim (abcGraphView n) (abcNodeIds n) hUfan hUclosed F d.1 rt true false
        rR (fun _ => hrtU) hg2 hm2
    have hmf : abcNodeMffcLabelAig n rt = (r2.1, d.2) := by
      unfold abcNodeMffcLabelAig
      rw [hobj]
      simp only [if_neg hfanin]
    have hlen2 : r2.1.vObjs.length = n.vObjs.length := by
      rw [sim2.len, sim1.len]
    rw [hmf]
    apply vObjs_ext n r2.1 hlen2
    intro j
    rw [sim2.objs j, sim1.objs j, mapFan_mapFan, hrestore j]
    exact mapFan_self n j

theorem cutStep_objs (n net : AbcNtk) (node : Nat) (rank extra : Nat → Nat)
    (ort : AbcObj)
    (hvobjs : net.vObjs = n.vObjs)
    (hobj : abcNtkObj n node = some ort)
    (hnode : abcObjIsNode ort = true)
    (hranklt : ∀ u x, Mffc.mInternal (abcGraphView n) u →
      Mffc.mFaninOf (abcGraphView n) u x → rank x < rank u)
    (hab : ∀ u o, abcGraphView n u = some o → o.ci = false → o.a ≠ o.b)
    (hclosed : ∀ u ∈ abcNodeIds n, ∀ x, Mffc.mFaninOf (abcGraphView n) u x →
      Mffc.mInternal (abcGraphView n) x → x ∈ abcNodeIds n)
    (hUfan : ∀ j ∈ abcNodeIds n, ∀ o, abcGraphView n j = some o → o.ci = false →
      ((abcGraphView n) o.a).isSome ∧ ((abcGraphView n) o.b).isSome)
    (hfuel : rank node < abcNtkObjNumMax n + 1)
    (hstate0 : ∀ x, abcFanView n x =
      Mffc.mEdges (abcGraphView n) (abcNodeIds n) x + extra x)
    (hpos0 : ∀ x ∈ abcNodeIds n, x ≠ node → 0 < abcFanView n x)
    (cut : List Nat) (hcut : ∀ c ∈ cut, (abcNtkObj n c).isSome) :
    (rwrCutStepNet node net cut).vObjs = n.vObjs := by
  have hnetobj : ∀ j, abcNtkObj net j = abcNtkObj n j := vObjs_obj n net hvobjs
  have hcutnet : ∀ c ∈ cut, (abcNtkObj net c).isSome := by
    intro c hc
    rw [hnetobj c]
    exact hcut c hc
  set nb := abcBumpFanouts net cut with hnb
  set nbm := abcNtkIncrementTravId nb with hnbm
  have hnbm_vObjs : nbm.vObjs = nb.vObjs := incTravId_vObjs nb
  have hnbm_obj : ∀ j, abcNtkObj nbm j =
      (abcNtkObj n j).map (fun o => { o with nFanouts := o.nFanouts + cut.count j }) := by
    intro j
    rw [vObjs_obj nb nbm hnbm_vObjs j, hnb, bump_obj cut net hcutnet j, hnetobj j]
  have hgv : abcGraphView nbm = abcGraphView n := by
    rw [vObjs_gview nb nbm hnbm_vObjs, hnb, bump_gview net cut hcutnet,
      vObjs_gview n net hvobjs]
  have hids : abcNodeIds nbm = abcNodeIds n := by
    rw [vObjs_nodeIds nb nbm hnbm_vObjs, hnb, bump_nodeIds net cut hcutnet,
      vObjs_nodeIds n net hvobjs]
  have hmax : abcNtkObjNumMax nbm = abcNtkObjNumMax n := by
    rw [vObjs_numMax nb nbm hnbm_vObjs, hnb, bump_numMax net cut,
      vObjs_numMax n net hvobjs]
  have hfv : ∀ x, abcFanView nbm x = abcFanView n x + cut.count x := by
    intro x
    rw [show abcFanView nbm = abcFanView nb from vObjs_fanView nb nbm hnbm_vObjs, hnb,
      bump_fanView net cut hcutnet x,
      show abcFanView net = abcFanView n from vObjs_fanView n net hvobjs]
  have hml : (abcNodeMffcLabelAig nbm node).1.vObjs = nbm.vObjs := by
    apply mffcLabel_frame nbm node rank (fun x => extra x + cut.count x)
      { ort with nFanouts := ort.nFanouts + cut.count node }
    · rw [hnbm_obj node, hobj]
      rfl
    · exact hnode
    · rw [hgv]
      exact hranklt
    · rw [hgv]
      exact hab
    · rw [hgv, hids]
      exact hclosed
    · rw [hgv, hids]
      exact hUfan
    · rw [hmax]
      exact hfuel
    · intro x
      rw [hfv x, hgv, hids, hstate0 x]
      omega
    · rw [hids]
      intro x hx hxn
      rw [hfv x]
      have := hpos0 x hx hxn
      omega
  show (abcUnbumpFanouts (abcNodeMffcLabelAig nbm node).1 cut).vObjs = n.vObjs
  apply vObjs_ext
  · rw [unbump_len, hml, hnbm_vObjs, hnb, bump_len, hvobjs]
  · intro j
    rw [unbump_obj cut _ j, vObjs_obj nbm (abcNodeMffcLabelAig nbm node).1 hml j,
      hnbm_obj j]
    cases h : abcNtkObj n j
    · rfl
    · show some _ = _
      simp [Nat.add_sub_cancel]

theorem cutStep_proj {γ : Type} (proj : AbcNtk → γ)
    (hset : ∀ m x, proj (abcNodeSetTravIdCurrent m x) = proj m)
    (hwrite : ∀ m j k, proj (abcNtkWriteFanout m j k) = proj m)
    (hinc : ∀ m, proj (abcNtkIncrementTravId m) = proj m)
    (node : Nat) (net : AbcNtk) (cut : List Nat) :
    proj (rwrCutStepNet node net cut) = proj net := by
  unfold rwrCutStepNet abcUnbumpFanouts abcBumpFanouts
  rw [foldl_preserve _ proj (fun m c => hwrite m c _) cut,
    mffcLabel_proj proj hset hwrite, hinc,
    foldl_preserve _ proj (fun m c => hwrite m c _) cut]

theorem sameShell_cutStep (n net : AbcNtk) (node : Nat) (rank extra : Nat → Nat)
    (ort : AbcObj)
    (hs : abcSameShell n net)
    (hobj : abcNtkObj n node = some ort)
    (hnode : abcObjIsNode ort = true)
    (hranklt : ∀ u x, Mffc.mInternal (abcGraphView n) u →
      Mffc.mFaninOf (abcGraphView n) u x → rank x < rank u)
    (hab : ∀ u o, abcGraphView n u = some o → o.ci = false → o.a ≠ o.b)
    (hclosed : ∀ u ∈ abcNodeIds n, ∀ x, Mffc.mFaninOf (abcGraphView n) u x →
      Mffc.mInternal (abcGraphView n) x → x ∈ abcNodeIds n)
    (hUfan : ∀ j ∈ abcNodeIds n, ∀ o, abcGraphView n j = some o → o.ci = false →
      ((abcGraphView n) o.a).isSome ∧ ((abcGraphView n) o.b).isSome)
    (hfuel : rank node < abcNtkObjNumMax n + 1)
    (hstate0 : ∀ x, abcFanView n x =
      Mffc.mEdges (abcGraphView n) (abcNodeIds n) x + extra x)
    (hpos0 : ∀ x ∈ abcNodeIds n, x ≠ node → 0 < abcFanView n x)
    (cut : List Nat) (hcut : ∀ c ∈ cut, (abcNtkObj n c).isSome) :
    abcSameShell n (rwrCutStepNet node net cut) := by
  obtain ⟨ho, hp1, hp2, hp3, hp4, hp5, hp6, hp7⟩ := hs
  refine ⟨?_, ?_, ?_, ?_, ?_, ?_, ?_, ?_⟩
  · exact cutStep_objs n net node rank extra ort ho hobj hnode hranklt hab hclosed
      hUfan hfuel hstate0 hpos0 cut hcut
  · rw [cutStep_proj (fun m => m.vPis) (fun m x => rfl) (fun m j k => rfl)
      incTravId_pis node net cut]
    exact hp1
  · rw [cutStep_proj (fun m => m.vPos) (fun m x => rfl) (fun m j k => rfl)
      incTravId_pos node net cut]
    exact hp2
  · rw [cutStep_proj (fun m => m.vCis) (fun m x => rfl) (fun m j k => rfl)
      incTravId_cis node net cut]
    exact hp3
  · rw [cutStep_proj (fun m => m.vCos) (fun m x => rfl) (fun m j k => rfl)
      incTravId_cos node net cut]
    exact hp4
  · rw [cutStep_proj (fun m => m.vBoxes) (fun m x => rfl) (fun m j k => rfl)
      incTravId_boxes node net cut]
    exact hp5
  · rw [cutStep_proj (fun m => m.names) (fun m x => rfl) (fun m j k => rfl)
      incTravId_names node net cut]
    exact hp6
  · rw [cutStep_proj (fun m => m.table) (fun m x => rfl) (fun m j k => rfl)
      incTravId_table node net cut]
    exact hp7

theorem rewriteNet_frame (n : AbcNtk) (node : Nat) (rank extra : Nat → Nat)
    (ort : AbcObj)
    (hobj : abcNtkObj n node = some ort)
    (hnode : abcObjIsNode ort = true)
    (hranklt : ∀ u x, Mffc.mInternal (abcGraphView n) u →
      Mffc.mFaninOf (abcGraphView n) u x → rank x < rank u)
    (hab : ∀ u o, abcGraphView n u = some o → o.ci = false → o.a ≠ o.b)
    (hclosed : ∀ u ∈ abcNodeIds n, ∀ x, Mffc.mFaninOf (abcGraphView n) u x →
      Mffc.mInternal (abcGraphView n) x → x ∈ abcNodeIds n)
    (hUfan : ∀ j ∈ abcNodeIds n, ∀ o, abcGraphView n j = some o → o.ci = false →
      ((abcGraphView n) o.a).isSome ∧ ((abcGraphView n) o.b).isSome)
    (hfuel : rank node < abcNtkObjNumMax n + 1)
    (hstate0 : ∀ x, abcFanView n x =
      Mffc.mEdges (abcGraphView n) (abcNodeIds n) x + extra x)
    (hpos0 : ∀ x ∈ abcNodeIds n, x ≠ node → 0 < abcFanView n x)
    (cuts : List (List Nat)) (hcuts : ∀ cut ∈ cuts, ∀ c ∈ cut, (abcNtkObj n c).isSome) :
    abcSameShell n (rwrNodeRewriteNet n node cuts) := by
  suffices h : ∀ (cs : List (List Nat)),
      (∀ cut ∈ cs, ∀ c ∈ cut, (abcNtkObj n c).isSome) →
      ∀ net, abcSameShell n net →
      abcSameShell n (cs.foldl (rwrCutStepNet node) net) by
    exact h cuts hcuts n ⟨rfl, rfl, rfl, rfl, rfl, rfl, rfl, rfl⟩
  intro cs
  induction cs with
  | nil =>
    intro _ net hs
    exact hs
  | cons cut cs ih =>
    intro hc net hs
    rw [List.foldl_cons]
    apply ih (fun cu hcu c hcc => hc cu (List.mem_cons_of_mem _ hcu) c hcc)
    exact sameShell_cutStep n net node rank extra ort hs hobj hnode hranklt hab
      hclosed hUfan hfuel hstate0 hpos0 cut (hc cut (List.mem_cons_self _ _))

theorem evalObj_none (n : AbcNtk) (inp : Nat → Bool) (fuel i : Nat)
    (h : abcNtkObj n i = none) : abcEvalObj n inp (fuel + 1) i = false := by
  simp [abcEvalObj, h]

theorem evalObj_some (n : AbcNtk) (inp : Nat → Bool) (fuel i : Nat) (o : AbcObj)
    (h : abcNtkObj n i = some o) :
    abcEvalObj n inp (fuel + 1) i =
      if o.otype = AbcType.const1 then true
      else if abcObjIsCi o then inp i
      else bconj ((abcReadLits o).map
        (fun l => Bool.xor (abcEvalObj n inp fuel l.1) l.2)) := by
  show (match abcNtkObj n i with
    | none => false
    | some o =>
      if o.otype = AbcType.const1 then true
      else if abcObjIsCi o then inp i
      else if abcObjIsNode o then
        (Bool.xor (abcEvalObj n inp fuel (abcObjFanin0 o)) o.fCompl0) &&
        (Bool.xor (abcEvalObj n inp fuel (abcObjFanin1 o)) o.fCompl1)
      else Bool.xor (abcEvalObj n inp fuel (abcObjFanin0 o)) o.fCompl0) = _
  rw [h]
  show (if o.otype = AbcType.const1 then true
      else if abcObjIsCi o then inp i
      else if abcObjIsNode o then
        (Bool.xor (abcEvalObj n inp fuel (abcObjFanin0 o)) o.fCompl0) &&
        (Bool.xor (abcEvalObj n inp fuel (abcObjFanin1 o)) o.fCompl1)
      else Bool.xor (abcEvalObj n inp fuel (abcObjFanin0 o)) o.fCompl0) = _
  by_cases h1 : o.otype = AbcType.const1
  · simp [h1]
  · rw [if_neg h1, if_neg h1]
    by_cases h2 : abcObjIsCi o = true
    · simp [h2]
    · rw [if_neg h2, if_neg h2]
      by_cases h3 : abcObjIsNode o = true
      · rw [if_pos h3]
        unfold abcReadLits bconj
        rw [if_neg h1, if_neg h2, if_pos h3]
        simp
      · rw [if_neg h3]
        unfold abcReadLits bconj
        rw [if_neg h1, if_neg h2, if_neg h3]
        simp

theorem evalObj_fuel (n : AbcNtk) (inp : Nat → Bool) (rank : Nat → Nat)
    (hr : RankOk n rank) :
    ∀ k i, rank i ≤ k → ∀ f1 f2, rank i < f1 → rank i < f2 →
      abcEvalObj n inp f1 i = abcEvalObj n inp f2 i := by
  intro k
  induction k with
  | zero =>
    intro i hik f1 f2 h1 h2
    obtain ⟨g1, rfl⟩ : ∃ g, f1 = g + 1 := ⟨f1 - 1, by omega⟩
    obtain ⟨g2, rfl⟩ : ∃ g, f2 = g + 1 := ⟨f2 - 1, by omega⟩
    cases h : abcNtkObj n i with
    | none =>
      rw [evalObj_none n inp g1 i h, evalObj_none n inp g2 i h]
    | some o =>
      rw [evalObj_some n inp g1 i o h, evalObj_some n inp g2 i o h]
      by_cases hc : o.otype = AbcType.const1
      · rw [if_pos hc, if_pos hc]
      · rw [if_neg hc, if_neg hc]
        by_cases hci : abcObjIsCi o = true
        · rw [if_pos hci, if_pos hci]
        · rw [if_neg hci, if_neg hci]
          have : abcReadLits o = [] := by
            cases hl : abcReadLits o with
            | nil => rfl
            | cons l ls =>
              have := hr i o h l (by rw [hl]; exact List.mem_cons_self _ _)
              exact absurd this (by omega)
          simp [this]
  | succ k ih =>
    intro i hik f1 f2 h1 h2
    obtain ⟨g1, rfl⟩ : ∃ g, f1 = g + 1 := ⟨f1 - 1, by omega⟩
    obtain ⟨g2, rfl⟩ : ∃ g, f2 = g + 1 := ⟨f2 - 1, by omega⟩
    cases h : abcNtkObj n i with
    | none =>
      rw [evalObj_none n inp g1 i h, evalObj_none n inp g2 i h]
    | some o =>
      rw [evalObj_some n inp g1 i o h, evalObj_some n inp g2 i o h]
      by_cases hc : o.otype = AbcType.const1
      · rw [if_pos hc, if_pos hc]
      · rw [if_neg hc, if_neg hc]
        by_cases hci : abcObjIsCi o = true
        · rw [if_pos hci, if_pos hci]
        · rw [if_neg hci, if_neg hci]
          have hmap : (abcReadLits o).map
              (fun l => Bool.xor (abcEvalObj n inp g1 l.1) l.2) =
            (abcReadLits o).map
              (fun l => Bool.xor (abcEvalObj n inp g2 l.1) l.2) := by
            apply List.map_congr_left
            intro l hl
            have hlt := hr i o h l hl
            rw [ih l.1 (by omega) g1 g2 (by omega) (by omega)]
          rw [hmap]

theorem evalObj_stable (n : AbcNtk) (inp : Nat → Bool) (rank : Nat → Nat)
    (hr : RankOk n rank) (fuel i : Nat) (hf : rank i < fuel) :
    abcEvalObj n inp fuel i = abcEvalR n inp rank i :=
  evalObj_fuel n inp rank hr (rank i) i (Nat.le_refl _) fuel (rank i + 1) hf
    (Nat.lt_succ_self _)

theorem replaceModel_obj (n : AbcNtk) (root : Nat) (nl : Nat × Bool) (j : Nat) :
    abcNtkObj (abcAigReplaceModel n root nl) j =
      (abcNtkObj n j).map (abcReplaceObj root nl) := by
  unfold abcAigReplaceModel abcNtkObj
  show ((n.vObjs.map _).get? j).getD none = _
  rw [List.get?_eq_getElem?, List.getElem?_map, List.get?_eq_getElem?]
  cases h : n.vObjs[j]? with
  | none => rfl
  | some s => cases s <;> rfl

theorem mapRedir_getD (l : List Nat) (root nid k : Nat) (hroot0 : root ≠ 0) :
    (l.map (fun f => if f = root then nid else f)).getD k 0 =
      if l.getD k 0 = root then nid else l.getD k 0 := by
  rw [List.getD_eq_getElem?_getD, List.getElem?_map, List.getD_eq_getElem?_getD]
  cases h : l[k]? with
  | none =>
    show (0 : Nat) = if (0 : Nat) = root then nid else 0
    rw [if_neg (fun heq => hroot0 heq.symm)]
  | some a => rfl

theorem readLits_replace (root : Nat) (nl : Nat × Bool) (o : AbcObj)
    (hroot0 : root ≠ 0) :
    abcReadLits (abcReplaceObj root nl o) =
      (abcReadLits o).map
        (fun l => if l.1 = root then (nl.1, Bool.xor l.2 nl.2) else l) := by
  have hf0 : abcObjFanin0 (abcReplaceObj root nl o) =
      if abcObjFanin0 o = root then nl.1 else abcObjFanin0 o :=
    mapRedir_getD o.vFanins root nl.1 0 hroot0
  have hf1 : abcObjFanin1 (abcReplaceObj root nl o) =
      if abcObjFanin1 o = root then nl.1 else abcObjFanin1 o :=
    mapRedir_getD o.vFanins root nl.1 1 hroot0
  unfold abcReadLits
  by_cases h1 : o.otype = AbcType.const1
  · rw [if_pos (show (abcReplaceObj root nl o).otype = AbcType.const1 from h1),
      if_pos h1]
    rfl
  · rw [if_neg (show ¬ (abcReplaceObj root nl o).otype = AbcType.const1 from h1),
      if_neg h1]
    by_cases h2 : abcObjIsCi o = true
    · rw [if_pos (show abcObjIsCi (abcReplaceObj root nl o) = true from h2), if_pos h2]
      rfl
    · rw [if_neg (show ¬ abcObjIsCi (abcReplaceObj root nl o) = true from h2),
        if_neg h2]
      by_cases h3 : abcObjIsNode o = true
      · rw [if_pos (show abcObjIsNode (abcReplaceObj root nl o) = true from h3),
          if_pos h3]
        show [(abcObjFanin0 (abcReplaceObj root nl o),
            if o.vFanins.getD 0 0 = root then Bool.xor o.fCompl0 nl.2 else o.fCompl0),
          (abcObjFanin1 (abcReplaceObj root nl o),
            if o.vFanins.getD 1 0 = root then Bool.xor o.fCompl1 nl.2 else o.fCompl1)] = _
        rw [hf0, hf1]
        show _ = [if abcObjFanin0 o = root then (nl.1, Bool.xor o.fCompl0 nl.2)
            else (abcObjFanin0 o, o.fCompl0),
          if abcObjFanin1 o = root then (nl.1, Bool.xor o.fCompl1 nl.2)
            else (abcObjFanin1 o, o.fCompl1)]
        simp only [abcObjFanin0, abcObjFanin1, List.getD_eq_getElem?_getD]
        by_cases hr0 : o.vFanins[0]?.getD 0 = root <;>
          by_cases hr1 : o.vFanins[1]?.getD 0 = root <;>
            simp [hr0, hr1]
      · rw [if_neg (show ¬ abcObjIsNode (abcReplaceObj root nl o) = true from h3),
          if_neg h3]
        show [(abcObjFanin0 (abcReplaceObj root nl o),
            if o.vFanins.getD 0 0 = root then Bool.xor o.fCompl0 nl.2 else o.fCompl0)] = _
        rw [hf0]
        show _ = [if abcObjFanin0 o = root then (nl.1, Bool.xor o.fCompl0 nl.2)
            else (abcObjFanin0 o, o.fCompl0)]
        simp only [abcObjFanin0, List.getD_eq_getElem?_getD]
        by_cases hr0 : o.vFanins[0]?.getD 0 = root <;> simp [hr0]

set_option maxHeartbeats 1000000 in
theorem replace_eval (n : AbcNtk) (inp : Nat → Bool) (rank rank2 : Nat → Nat)
    (root nid : Nat) (nc : Bool) (hroot0 : root ≠ 0)
    (hr : RankOk n rank)
    (hr2 : RankOk (abcAigReplaceModel n root (nid, nc)) rank2)
    (heq : Bool.xor (abcEvalR n inp rank nid) nc = abcEvalR n inp rank root) :
    ∀ i, abcEvalR (abcAigReplaceModel n root (nid, nc)) inp rank2 i =
      abcEvalR n inp rank i := by
  set n2 := abcAigReplaceModel n root (nid, nc) with hn2
  suffices h : ∀ k i, rank2 i ≤ k →
      abcEvalR n2 inp rank2 i = abcEvalR n inp rank i by
    intro i
    exact h (rank2 i) i (Nat.le_refl _)
  intro k
  induction k using Nat.strong_induction_on with
  | _ k ih =>
    intro i hik
    show abcEvalObj n2 inp (rank2 i + 1) i = abcEvalObj n inp (rank i + 1) i
    cases h : abcNtkObj n i with
    | none =>
      have h2 : abcNtkObj n2 i = none := by
        rw [hn2, replaceModel_obj, h]
        rfl
      rw [evalObj_none n2 inp _ i h2, evalObj_none n inp _ i h]
    | some o =>
      have h2 : abcNtkObj n2 i = some (abcReplaceObj root (nid, nc) o) := by
        rw [hn2, replaceModel_obj, h]
        rfl
      rw [evalObj_some n2 inp _ i _ h2, evalObj_some n inp _ i o h]
      by_cases hc : o.otype = AbcType.const1
      · rw [if_pos (show (abcReplaceObj root (nid, nc) o).otype = AbcType.const1 from hc),
          if_pos hc]
      · rw [if_neg (show ¬ (abcReplaceObj root (nid, nc) o).otype = AbcType.const1 from hc),
          if_neg hc]
        by_cases hci : abcObjIsCi o = true
        · rw [if_pos (show abcObjIsCi (abcReplaceObj root (nid, nc) o) = true from hci),
            if_pos hci]
        · rw [if_neg (show ¬ abcObjIsCi (abcReplaceObj root (nid, nc) o) = true from hci),
            if_neg hci]
          rw [readLits_replace root (nid, nc) o hroot0, List.map_map]
          congr 1
          apply List.map_congr_left
          intro l hl
          have hmem2 : (if l.1 = root then (nid, Bool.xor l.2 nc) else l) ∈
              abcReadLits (abcReplaceObj root (nid, nc) o) := by
            rw [readLits_replace root (nid, nc) o hroot0]
            exact List.mem_map_of_mem _ hl
          have hlt2 : rank2 (if l.1 = root then (nid, Bool.xor l.2 nc) else l).1 <
              rank2 i := hr2 i _ h2 _ hmem2
          have hlt1 : rank l.1 < rank i := hr i o h l hl
          have hstabL : abcEvalObj n2 inp (rank2 i)
              (if l.1 = root then (nid, Bool.xor l.2 nc) else l).1 =
            abcEvalR n2 inp rank2
              (if l.1 = root then (nid, Bool.xor l.2 nc) else l).1 :=
            evalObj_stable n2 inp rank2 hr2 _ _ hlt2
          have hstabR : abcEvalObj n inp (rank i) l.1 = abcEvalR n inp rank l.1 :=
            evalObj_stable n inp rank hr _ _ hlt1
          have hih : abcEvalR n2 inp rank2
              (if l.1 = root then (nid, Bool.xor l.2 nc) else l).1 =
            abcEvalR n inp rank
              (if l.1 = root then (nid, Bool.xor l.2 nc) else l).1 :=
            ih (rank2 (if l.1 = root then (nid, Bool.xor l.2 nc) else l).1)
              (by omega) _ (Nat.le_refl _)
          by_cases hlr : l.1 = root
          · rw [if_pos hlr] at hstabL hih
            show Bool.xor (abcEvalObj n2 inp (rank2 i)
                (if l.1 = root then (nid, Bool.xor l.2 nc) else l).1)
              (if l.1 = root then (nid, Bool.xor l.2 nc) else l).2 = _
            rw [if_pos hlr]
            show Bool.xor (abcEvalObj n2 inp (rank2 i) nid) (Bool.xor l.2 nc) = _
            rw [hstabL, hih, hstabR, hlr, ← heq, Bool.xor_assoc,
              Bool.xor_comm nc l.2]
          · rw [if_neg hlr] at hstabL hih
            show Bool.xor (abcEvalObj n2 inp (rank2 i)
                (if l.1 = root then (nid, Bool.xor l.2 nc) else l).1)
              (if l.1 = root then (nid, Bool.xor l.2 nc) else l).2 = _
            rw [if_neg hlr]
            rw [hstabL, hih, hstabR]

theorem updateSeq_cos : ∀ (ups : List (Nat × Nat × Bool)) (n : AbcNtk),
    (abcUpdateSeq n ups).vCos = n.vCos := by
  intro ups
  induction ups with
  | nil => intro n; rfl
  | cons u us ih =>
    intro n
    show (abcUpdateSeq (abcAigReplaceModel n u.1 (u.2.1, u.2.2)) us).vCos = n.vCos
    rw [ih]
    rfl

theorem node_not_const1 (o : AbcObj) (h : abcObjIsNode o = true) :
    ¬ o.otype = AbcType.const1 := by
  revert h
  unfold abcObjIsNode
  cases o.otype <;> simp

theorem bconj_absorb : ∀ (l : List Bool) (b : Bool), b ∈ l → (bconj l && b) = bconj l := by
  intro l
  induction l with
  | nil =>
    intro b hb
    exact absurd hb (List.not_mem_nil b)
  | cons a l ih =>
    intro b hb
    rcases List.mem_cons.1 hb with rfl | hb2
    · show ((b && bconj l) && b) = (b && bconj l)
      cases b <;> cases bconj l <;> rfl
    · show ((a && bconj l) && b) = (a && bconj l)
      rw [Bool.and_assoc, ih b hb2]

theorem bconj_absorb_false : ∀ (l : List Bool) (b : Bool), (!b) ∈ l →
    (bconj l && b) = false := by
  intro l
  induction l with
  | nil =>
    intro b hb
    exact absurd hb (List.not_mem_nil _)
  | cons a l ih =>
    intro b hb
    rcases List.mem_cons.1 hb with hab | hb2
    · show ((a && bconj l) && b) = false
      rw [← hab]
      cases b <;> cases bconj l <;> rfl
    · show ((a && bconj l) && b) = false
      rw [Bool.and_assoc, ih b hb2, Bool.and_false]

theorem bconj_push (l : List Bool) (b : Bool) : bconj (l ++ [b]) = (bconj l && b) := by
  induction l with
  | nil =>
    show (b && true) = (true && b)
    cases b <;> rfl
  | cons a l ih =>
    show (a && bconj (l ++ [b])) = ((a && bconj l) && b)
    rw [ih, Bool.and_assoc]

theorem evalLitR_not (n : AbcNtk) (inp : Nat → Bool) (rank : Nat → Nat) (l : Nat × Bool) :
    abcEvalLitR n inp rank (litNot l) = !(abcEvalLitR n inp rank l) := by
  show Bool.xor (abcEvalR n inp rank l.1) (!l.2) = !(Bool.xor (abcEvalR n inp rank l.1) l.2)
  cases abcEvalR n inp rank l.1 <;> cases l.2 <;> rfl

theorem evalLit_node (n : AbcNtk) (inp : Nat → Bool) (rank : Nat → Nat)
    (hr : RankOk n rank) (i : Nat) (o : AbcObj)
    (hobj : abcNtkObj n i = some o) (hnode : abcObjIsNode o = true) :
    abcEvalR n inp rank i =
      (abcEvalLitR n inp rank (abcObjFanin0 o, o.fCompl0) &&
        abcEvalLitR n inp rank (abcObjFanin1 o, o.fCompl1)) := by
  have hrl : abcReadLits o =
      [(abcObjFanin0 o, o.fCompl0), (abcObjFanin1 o, o.fCompl1)] := by
    unfold abcReadLits
    rw [if_neg (node_not_const1 o hnode),
      if_neg (show ¬ abcObjIsCi o = true by simp [node_not_ci o hnode]),
      if_pos hnode]
  have h0 := hr i o hobj (abcObjFanin0 o, o.fCompl0)
    (by rw [hrl]; exact List.mem_cons_self _ _)
  have h1 := hr i o hobj (abcObjFanin1 o, o.fCompl1) (by rw [hrl]; simp)
  show abcEvalObj n inp (rank i + 1) i = _
  rw [evalObj_some n inp _ i o hobj, if_neg (node_not_const1 o hnode),
    if_neg (show ¬ abcObjIsCi o = true by simp [node_not_ci o hnode]), hrl]
  show ((Bool.xor (abcEvalObj n inp (rank i) (abcObjFanin0 o)) o.fCompl0) &&
      ((Bool.xor (abcEvalObj n inp (rank i) (abcObjFanin1 o)) o.fCompl1) && true)) = _
  rw [Bool.and_true, evalObj_stable n inp rank hr _ _ h0,
    evalObj_stable n inp rank hr _ _ h1]
  rfl

theorem updateSeq_eval :
    ∀ (ups : List (Nat × Nat × Bool)) (n : AbcNtk) (ranks : Nat → Nat → Nat),
    (∀ k, k ≤ ups.length → RankOk (abcUpdateSeq n (ups.take k)) (ranks k)) →
    (∀ k, ∀ hk : k < ups.length, (ups.get ⟨k, hk⟩).1 ≠ 0) →
    (∀ k, ∀ hk : k < ups.length, ∀ inp,
      Bool.xor (abcEvalR (abcUpdateSeq n (ups.take k)) inp (ranks k)
          (ups.get ⟨k, hk⟩).2.1) (ups.get ⟨k, hk⟩).2.2 =
        abcEvalR (abcUpdateSeq n (ups.take k)) inp (ranks k) (ups.get ⟨k, hk⟩).1) →
    ∀ inp i, abcEvalR (abcUpdateSeq n ups) inp (ranks ups.length) i =
      abcEvalR n inp (ranks 0) i := by
  intro ups
  induction ups with
  | nil =>
    intro n ranks hranks hroots hequiv inp i
    rfl
  | cons u us ih =>
    intro n ranks hranks hroots hequiv inp i
    have hstep : abcEvalR (abcAigReplaceModel n u.1 (u.2.1, u.2.2)) inp (ranks 1) i =
        abcEvalR n inp (ranks 0) i := by
      apply replace_eval n inp (ranks 0) (ranks 1) u.1 u.2.1 u.2.2
        (hroots 0 (Nat.succ_pos _)) (hranks 0 (Nat.zero_le _))
        (hranks 1 (Nat.succ_le_succ (Nat.zero_le _)))
        (hequiv 0 (Nat.succ_pos _) inp)
    have hrest : abcEvalR (abcUpdateSeq (abcAigReplaceModel n u.1 (u.2.1, u.2.2)) us)
        inp (ranks (us.length + 1)) i =
        abcEvalR (abcAigReplaceModel n u.1 (u.2.1, u.2.2)) inp (ranks 1) i := by
      apply ih (abcAigReplaceModel n u.1 (u.2.1, u.2.2)) (fun k => ranks (k + 1))
      · intro k hk
        exact hranks (k + 1) (Nat.succ_le_succ hk)
      · intro k hk
        exact hroots (k + 1) (Nat.succ_lt_succ hk)
      · intro k hk inp2
        exact hequiv (k + 1) (Nat.succ_lt_succ hk) inp2
    show abcEvalR (abcUpdateSeq (abcAigReplaceModel n u.1 (u.2.1, u.2.2)) us)
      inp (ranks (us.length + 1)) i = abcEvalR n inp (ranks 0) i
    rw [hrest, hstep]

theorem balanceCone_mem (n : AbcNtk) (fDup fSel : Bool) (fuel : Nat)
    (p : Nat × Bool) (fFirst : Bool) (S : List (Nat × Bool)) (hmem : p ∈ S) :
    abcBalanceConeRec n fDup fSel (fuel + 1) p fFirst S = some (some S) := by
  show (if p ∈ S then some (some S) else _) = _
  rw [if_pos hmem]

theorem balanceCone_opp (n : AbcNtk) (fDup fSel : Bool) (fuel : Nat)
    (p : Nat × Bool) (fFirst : Bool) (S : List (Nat × Bool)) (hmem : ¬ p ∈ S)
    (hnot : litNot p ∈ S) :
    abcBalanceConeRec n fDup fSel (fuel + 1) p fFirst S = some none := by
  show (if p ∈ S then some (some S) else if litNot p ∈ S then some none else _) = _
  rw [if_neg hmem, if_pos hnot]

theorem balanceCone_absent (n : AbcNtk) (fDup fSel : Bool) (fuel : Nat)
    (p : Nat × Bool) (fFirst : Bool) (S : List (Nat × Bool)) (hmem : ¬ p ∈ S)
    (hnot : ¬ litNot p ∈ S) (hobj : abcNtkObj n p.1 = none) :
    abcBalanceConeRec n fDup fSel (fuel + 1) p fFirst S = some (some (S ++ [p])) := by
  show (if p ∈ S then some (some S) else if litNot p ∈ S then some none
    else match abcNtkObj n p.1 with
      | none => some (some (S ++ [p]))
      | some o =>
        if !fFirst && (p.2 || !(abcObjIsNode o) ||
            (!fDup && !fSel && decide (1 < o.nFanouts)) || decide (10000 < S.length)) then
          some (some (S ++ [p]))
        else
          match abcBalanceConeRec n fDup fSel fuel (abcObjFanin0 o, o.fCompl0) false S with
          | none => none
          | some none => some none
          | some (some S1) =>
            match abcBalanceConeRec n fDup fSel fuel (abcObjFanin1 o, o.fCompl1) false S1 with
            | none => none
            | some none => some none
            | some (some S2) => some (some S2)) = _
  rw [if_neg hmem, if_neg hnot, hobj]

theorem balanceCone_push (n : AbcNtk) (fDup fSel : Bool) (fuel : Nat)
    (p : Nat × Bool) (fFirst : Bool) (S : List (Nat × Bool)) (o : AbcObj)
    (hmem : ¬ p ∈ S) (hnot : ¬ litNot p ∈ S) (hobj : abcNtkObj n p.1 = some o)
    (hguard : (!fFirst && (p.2 || !(abcObjIsNode o) ||
      (!fDup && !fSel && decide (1 < o.nFanouts)) || decide (10000 < S.length))) = true) :
    abcBalanceConeRec n fDup fSel (fuel + 1) p fFirst S = some (some (S ++ [p])) := by
  show (if p ∈ S then some (some S) else if litNot p ∈ S then some none
    else match abcNtkObj n p.1 with
      | none => some (some (S ++ [p]))
      | some o =>
        if !fFirst && (p.2 || !(abcObjIsNode o) ||
            (!fDup && !fSel && decide (1 < o.nFanouts)) || decide (10000 < S.length)) then
          some (some (S ++ [p]))
        else
          match abcBalanceConeRec n fDup fSel fuel (abcObjFanin0 o, o.fCompl0) false S with
          | none => none
          | some none => some none
          | some (some S1) =>
            match abcBalanceConeRec n fDup fSel fuel (abcObjFanin1 o, o.fCompl1) false S1 with
            | none => none
            | some none => some none
            | some (some S2) => some (some S2)) = _
  rw [if_neg hmem, if_neg hnot, hobj]
  show (if (!fFirst && (p.2 || !(abcObjIsNode o) ||
      (!fDup && !fSel && decide (1 < o.nFanouts)) || decide (10000 < S.length))) = true
    then some (some (S ++ [p])) else _) = _
  rw [if_pos hguard]

theorem balanceCone_flatten (n : AbcNtk) (fDup fSel : Bool) (fuel : Nat)
    (p : Nat × Bool) (fFirst : Bool) (S : List (Nat × Bool)) (o : AbcObj)
    (hmem : ¬ p ∈ S) (hnot : ¬ litNot p ∈ S) (hobj : abcNtkObj n p.1 = some o)
    (hguard : ¬ (!fFirst && (p.2 || !(abcObjIsNode o) ||
      (!fDup && !fSel && decide (1 < o.nFanouts)) || decide (10000 < S.length))) = true) :
    abcBalanceConeRec n fDup fSel (fuel + 1) p fFirst S =
      (match abcBalanceConeRec n fDup fSel fuel (abcObjFanin0 o, o.fCompl0) false S with
      | none => none
      | some none => some none
      | some (some S1) =>
        match abcBalanceConeRec n fDup fSel fuel (abcObjFanin1 o, o.fCompl1) false S1 with
        | none => none
        | some none => some none
        | some (some S2) => some (some S2)) := by
  show (if p ∈ S then some (some S) else if litNot p ∈ S then some none
    else match abcNtkObj n p.1 with
      | none => some (some (S ++ [p]))
      | some o =>
        if !fFirst && (p.2 || !(abcObjIsNode o) ||
            (!fDup && !fSel && decide (1 < o.nFanouts)) || decide (10000 < S.length)) then
          some (some (S ++ [p]))
        else
          match abcBalanceConeRec n fDup fSel fuel (abcObjFanin0 o, o.fCompl0) false S with
          | none => none
          | some none => some none
          | some (some S1) =>
            match abcBalanceConeRec n fDup fSel fuel (abcObjFanin1 o, o.fCompl1) false S1 with
            | none => none
            | some none => some none
            | some (some S2) => some (some S2)) = _
  rw [if_neg hmem, if_neg hnot, hobj]
  show (if (!fFirst && (p.2 || !(abcObjIsNode o) ||
      (!fDup && !fSel && decide (1 < o.nFanouts)) || decide (10000 < S.length))) = true
    then some (some (S ++ [p])) else _) = _
  rw [if_neg hguard]

set_option maxHeartbeats 1000000 in
theorem balanceCone_sound (n : AbcNtk) (inp : Nat → Bool) (rank : Nat → Nat)
    (hr : RankOk n rank) (fDup fSel : Bool) :
    ∀ (fuel : Nat) (p : Nat × Bool) (fFirst : Bool) (S : List (Nat × Bool)),
    (fFirst = true → p.2 = false ∧
      ∀ o, abcNtkObj n p.1 = some o → abcObjIsNode o = true) →
    (∀ S', abcBalanceConeRec n fDup fSel fuel p fFirst S = some (some S') →
      bconj (S'.map (abcEvalLitR n inp rank)) =
        (bconj (S.map (abcEvalLitR n inp rank)) && abcEvalLitR n inp rank p)) ∧
    (abcBalanceConeRec n fDup fSel fuel p fFirst S = some none →
      (bconj (S.map (abcEvalLitR n inp rank)) && abcEvalLitR n inp rank p) = false) := by
  intro fuel
  induction fuel with
  | zero =>
    intro p fFirst S hroot
    constructor
    · intro S' hres
      exact Option.noConfusion hres
    · intro hres
      exact Option.noConfusion hres
  | succ fuel ih =>
    intro p fFirst S hroot
    by_cases hmem : p ∈ S
    · constructor
      · intro S' hres
        rw [balanceCone_mem n fDup fSel fuel p fFirst S hmem] at hres
        cases Option.some.inj (Option.some.inj hres)
        exact (bconj_absorb _ _ (List.mem_map_of_mem _ hmem)).symm
      · intro hres
        rw [balanceCone_mem n fDup fSel fuel p fFirst S hmem] at hres
        exact Option.noConfusion (Option.some.inj hres)
    · by_cases hnot : litNot p ∈ S
      · constructor
        · intro S' hres
          rw [balanceCone_opp n fDup fSel fuel p fFirst S hmem hnot] at hres
          exact Option.noConfusion (Option.some.inj hres)
        · intro hres
          apply bconj_absorb_false
          rw [← evalLitR_not n inp rank p]
          exact List.mem_map_of_mem _ hnot
      · cases hobj : abcNtkObj n p.1 with
        | none =>
          constructor
          · intro S' hres
            rw [balanceCone_absent n fDup fSel fuel p fFirst S hmem hnot hobj] at hres
            cases Option.some.inj (Option.some.inj hres)
            rw [List.map_append]
            show bconj (S.map (abcEvalLitR n inp rank) ++ [abcEvalLitR n inp rank p]) = _
            rw [bconj_push]
          · intro hres
            rw [balanceCone_absent n fDup fSel fuel p fFirst S hmem hnot hobj] at hres
            exact Option.noConfusion (Option.some.inj hres)
        | some o =>
          by_cases hguard : (!fFirst && (p.2 || !(abcObjIsNode o) ||
              (!fDup && !fSel && decide (1 < o.nFanouts)) ||
              decide (10000 < S.length))) = true
          · constructor
            · intro S' hres
              rw [balanceCone_push n fDup fSel fuel p fFirst S o hmem hnot hobj
                hguard] at hres
              cases Option.some.inj (Option.some.inj hres)
              rw [List.map_append]
              show bconj (S.map (abcEvalLitR n inp rank) ++ [abcEvalLitR n inp rank p]) = _
              rw [bconj_push]
            · intro hres
              rw [balanceCone_push n fDup fSel fuel p fFirst S o hmem hnot hobj
                hguard] at hres
              exact Option.noConfusion (Option.some.inj hres)
          · have hpn : p.2 = false ∧ abcObjIsNode o = true := by
              cases hf : fFirst with
              | true =>
                obtain ⟨h1, h2⟩ := hroot hf
                exact ⟨h1, h2 o hobj⟩
              | false =>
                rw [hf] at hguard
                simp only [Bool.not_false, Bool.true_and, Bool.or_eq_true,
                  not_or, Bool.not_eq_true] at hguard
                obtain ⟨⟨⟨h1, h2⟩, _⟩, _⟩ := hguard
                refine ⟨h1, ?_⟩
                revert h2
                cases abcObjIsNode o <;> simp
            have heval : abcEvalLitR n inp rank p =
                (abcEvalLitR n inp rank (abcObjFanin0 o, o.fCompl0) &&
                  abcEvalLitR n inp rank (abcObjFanin1 o, o.fCompl1)) := by
              show Bool.xor (abcEvalR n inp rank p.1) p.2 = _
              rw [hpn.1, Bool.xor_false, evalLit_node n inp rank hr p.1 o hobj hpn.2]
            have ih0 := ih (abcObjFanin0 o, o.fCompl0) false S
              (fun h => absurd h (by decide))
            cases hrec0 : abcBalanceConeRec n fDup fSel fuel
                (abcObjFanin0 o, o.fCompl0) false S with
            | none =>
              constructor
              · intro S' hres
                rw [balanceCone_flatten n fDup fSel fuel p fFirst S o hmem hnot hobj
                  hguard, hrec0] at hres
                exact Option.noConfusion hres
              · intro hres
                rw [balanceCone_flatten n fDup fSel fuel p fFirst S o hmem hnot hobj
                  hguard, hrec0] at hres
                exact Option.noConfusion hres
            | some r0 =>
              cases r0 with
              | none =>
                constructor
                · intro S' hres
                  rw [balanceCone_flatten n fDup fSel fuel p fFirst S o hmem hnot hobj
                    hguard, hrec0] at hres
                  exact Option.noConfusion (Option.some.inj hres)
                · intro hres
                  rw [heval, ← Bool.and_assoc, ih0.2 hrec0, Bool.false_and]
              | some S1 =>
                have ih1 := ih (abcObjFanin1 o, o.fCompl1) false S1
                  (fun h => absurd h (by decide))
                cases hrec1 : abcBalanceConeRec n fDup fSel fuel
                    (abcObjFanin1 o, o.fCompl1) false S1 with
                | none =>
                  constructor
                  · intro S' hres
                    rw [balanceCone_flatten n fDup fSel fuel p fFirst S o hmem hnot hobj
                      hguard, hrec0] at hres
                    have hres1 : (match abcBalanceConeRec n fDup fSel fuel
                        (abcObjFanin1 o, o.fCompl1) false S1 with
                      | none => (none : Option (Option (List (Nat × Bool))))
                      | some none => some none
                      | some (some S2) => some (some S2)) = some (some S') := hres
                    rw [hrec1] at hres1
                    exact Option.noConfusion hres1
                  · intro hres
                    rw [balanceCone_flatten n fDup fSel fuel p fFirst S o hmem hnot hobj
                      hguard, hrec0] at hres
                    have hres1 : (match abcBalanceConeRec n fDup fSel fuel
                        (abcObjFanin1 o, o.fCompl1) false S1 with
                      | none => (none : Option (Option (List (Nat × Bool))))
                      | some none => some none
                      | some (some S2) => some (some S2)) = some none := hres
                    rw [hrec1] at hres1
                    exact Option.noConfusion hres1
                | some r1 =>
                  cases r1 with
                  | none =>
                    constructor
                    · intro S' hres
                      rw [balanceCone_flatten n fDup fSel fuel p fFirst S o hmem hnot
                        hobj hguard, hrec0] at hres
                      have hres1 : (match abcBalanceConeRec n fDup fSel fuel
                          (abcObjFanin1 o, o.fCompl1) false S1 with
                        | none => (none : Option (Option (List (Nat × Bool))))
                        | some none => some none
                        | some (some S2) => some (some S2)) = some (some S') := hres
                      rw [hrec1] at hres1
                      exact Option.noConfusion (Option.some.inj hres1)
                    · intro hres
                      rw [heval, ← Bool.and_assoc, ← ih0.1 S1 hrec0]
                      exact ih1.2 hrec1
                  | some S2 =>
                    constructor
                    · intro S' hres
                      rw [balanceCone_flatten n fDup fSel fuel p fFirst S o hmem hnot
                        hobj hguard, hrec0] at hres
                      have hres1 : (match abcBalanceConeRec n fDup fSel fuel
                          (abcObjFanin1 o, o.fCompl1) false S1 with
                        | none => (none : Option (Option (List (Nat × Bool))))
                        | some none => some none
                        | some (some S2) => some (some S2)) = some (some S') := hres
                      rw [hrec1] at hres1
                      cases Option.some.inj (Option.some.inj hres1)
                      rw [ih1.1 S2 hrec1, ih0.1 S1 hrec0, Bool.and_assoc, ← heval]
                    · intro hres
                      rw [balanceCone_flatten n fDup fSel fuel p fFirst S o hmem hnot
                        hobj hguard, hrec0] at hres
                      have hres1 : (match abcBalanceConeRec n fDup fSel fuel
                          (abcObjFanin1 o, o.fCompl1) false S1 with
                        | none => (none : Option (Option (List (Nat × Bool))))
                        | some none => some none
                        | some (some S2) => some (some S2)) = some none := hres
                      rw [hrec1] at hres1
                      exact Option.noConfusion (Option.some.inj hres1)

theorem bconj_perm (l l' : List Bool) (h : List.Perm l l') : bconj l = bconj l' := by
  induction h with
  | nil => rfl
  | cons a h ih =>
    show (a && bconj _) = (a && bconj _)
    rw [ih]
  | swap a b l =>
    show (b && (a && bconj l)) = (a && (b && bconj l))
    rw [← Bool.and_assoc, Bool.and_comm b a, Bool.and_assoc]
  | trans h1 h2 ih1 ih2 =>
    rw [ih1, ih2]

theorem balanceBuild_eval : ∀ (fuel : Nat) (l : List Bool),
    abcBalanceBuild fuel l = bconj l := by
  intro fuel
  induction fuel with
  | zero =>
    intro l
    rfl
  | succ fuel ih =>
    intro l
    rcases l with _ | ⟨x, _ | ⟨y, rest⟩⟩
    · rfl
    · show x = (x && true)
      cases x <;> rfl
    · show abcBalanceBuild fuel ((x && y) :: rest) = _
      rw [ih]
      show ((x && y) && bconj rest) = (x && (y && bconj rest))
      rw [Bool.and_assoc]

/-- A conditional preservation result for the optimization passes: a
sequence of root replacements, each acyclic and functionally
equivalent to the root it replaces, preserves the CO list and the
function of every object; the supergate collected by
`Abc_NodeBalanceCone_rec` conjoins to exactly the node's function
(constant 0 when a literal meets its complement), and the balancing
loop computes the conjunction of the collected literals under any
ordering the level sort chooses.  The functional equivalence of each
accepted candidate — established by the cut truth-table, library,
factoring and resubstitution code — is assumed here, not proved, and
the node construction of `Dec_GraphToNetwork` is not represented, so
this theorem does not by itself settle the pass-level preservation
claim. -/
theorem updateBalance_preservation_support
    (n : AbcNtk) (ups : List (Nat × Nat × Bool)) (ranks : Nat → Nat → Nat)
    (hranks : ∀ k, k ≤ ups.length → RankOk (abcUpdateSeq n (ups.take k)) (ranks k))
    (hroots : ∀ k, ∀ hk : k < ups.length, (ups.get ⟨k, hk⟩).1 ≠ 0)
    (hequiv : ∀ k, ∀ hk : k < ups.length, ∀ inp,
      Bool.xor (abcEvalR (abcUpdateSeq n (ups.take k)) inp (ranks k)
          (ups.get ⟨k, hk⟩).2.1) (ups.get ⟨k, hk⟩).2.2 =
        abcEvalR (abcUpdateSeq n (ups.take k)) inp (ranks k) (ups.get ⟨k, hk⟩).1)
    (nb : AbcNtk) (rankb : Nat → Nat) (hrb : RankOk nb rankb)
    (fDup fSel : Bool) (root : Nat) (oroot : AbcObj)
    (hrootobj : abcNtkObj nb root = some oroot)
    (hrootnode : abcObjIsNode oroot = true) (fuel : Nat) :
    ((abcUpdateSeq n ups).vCos = n.vCos ∧
      ∀ inp i, abcEvalR (abcUpdateSeq n ups) inp (ranks ups.length) i =
        abcEvalR n inp (ranks 0) i) ∧
    (∀ inp S', abcBalanceConeRec nb fDup fSel fuel (root, false) true [] =
        some (some S') →
      abcEvalR nb inp rankb root = bconj (S'.map (abcEvalLitR nb inp rankb))) ∧
    (∀ inp, abcBalanceConeRec nb fDup fSel fuel (root, false) true [] = some none →
      abcEvalR nb inp rankb root = false) ∧
    (∀ bfuel l, abcBalanceBuild bfuel l = bconj l) ∧
    (∀ l l', List.Perm l l' → bconj l = bconj l') := by
  have hroot : (true : Bool) = true → ((root, false) : Nat × Bool).2 = false ∧
      ∀ o, abcNtkObj nb ((root, false) : Nat × Bool).1 = some o →
        abcObjIsNode o = true := by
    intro _
    refine ⟨rfl, fun o ho => ?_⟩
    rw [hrootobj] at ho
    cases Option.some.inj ho
    exact hrootnode
  refine ⟨⟨updateSeq_cos ups n, updateSeq_eval ups n ranks hranks hroots hequiv⟩,
    ?_, ?_, balanceBuild_eval, bconj_perm⟩
  · intro inp S' hres
    have h := (balanceCone_sound nb inp rankb hrb fDup fSel fuel (root, false)
      true [] hroot).1 S' hres
    rw [h]
    show abcEvalR nb inp rankb root =
      (true && Bool.xor (abcEvalR nb inp rankb root) false)
    cases abcEvalR nb inp rankb root <;> rfl
  · intro inp hres
    have h := (balanceCone_sound nb inp rankb hrb fDup fSel fuel (root, false)
      true [] hroot).2 hres
    have h2 : (true && Bool.xor (abcEvalR nb inp rankb root) false) = false := h
    revert h2
    cases abcEvalR nb inp rankb root <;> simp

theorem updateBalance_preservation_example :
    ((abcUpdateSeq c1Net [(3, 2, false)]).vCos = c1Net.vCos ∧
      ∀ inp i, abcEvalR (abcUpdateSeq c1Net [(3, 2, false)]) inp
          ((fun _ x => x : Nat → Nat → Nat) 1) i =
        abcEvalR c1Net inp ((fun _ x => x : Nat → Nat → Nat) 0) i) ∧
    (∀ inp S', abcBalanceConeRec c4Net false false 3 (3, false) true [] =
        some (some S') →
      abcEvalR c4Net inp (fun x => x) 3 =
        bconj (S'.map (abcEvalLitR c4Net inp (fun x => x)))) ∧
    (∀ inp, abcBalanceConeRec c4Net false false 3 (3, false) true [] = some none →
      abcEvalR c4Net inp (fun x => x) 3 = false) ∧
    (∀ bfuel l, abcBalanceBuild bfuel l = bconj l) ∧
    (∀ l l', List.Perm l l' → bconj l = bconj l') := by
  exact updateBalance_preservation_support c1Net [(3, 2, false)] (fun _ x => x)
    (by
      intro k hk
      have hk1 : k ≤ 1 := hk
      interval_cases k
      · intro i o h
        have hi : i < 5 := abcNtkObj_lt _ i o h
        interval_cases i <;> (cases Option.some.inj h; decide)
      · intro i o h
        have hi5 : (abcUpdateSeq c1Net
            (([(3, 2, false)] : List (Nat × Nat × Bool)).take 1)).vObjs.length = 5 := rfl
        have hi := abcNtkObj_lt _ i o h
        rw [hi5] at hi
        interval_cases i <;> (cases Option.some.inj h; decide))
    (by
      intro k hk
      have hk1 : k < 1 := hk
      interval_cases k
      show (3 : Nat) ≠ 0
      decide)
    (by
      intro k hk inp
      have hk1 : k < 1 := hk
      interval_cases k
      show Bool.xor ((Bool.xor (inp 0) false) && (Bool.xor (inp 1) false)) false =
        ((Bool.xor (inp 0) false) && (Bool.xor (inp 1) false))
      exact Bool.xor_false _)
    c4Net (fun x => x)
    (by
      intro i o h
      have hi : i < 5 := abcNtkObj_lt _ i o h
      interval_cases i <;> (cases Option.some.inj h; decide))
    false false 3
    { oid := 3, otype := .node, vFanins := [0, 2], fCompl0 := false, fCompl1 := true,
      vFanouts := [4], nFanouts := 1, fPhase := false, pData := 0, pCopy := none }
    rfl rfl 3

theorem markList_vObjs (n : AbcNtk) (marks : List Nat) :
    (abcMarkList n marks).vObjs = n.vObjs :=
  foldl_preserve (fun m x => abcNodeSetTravIdCurrent m x) (fun m => m.vObjs)
    (fun m c => rfl) marks n

theorem mapObjs_obj (n : AbcNtk) (φ : AbcObj → AbcObj) (j : Nat) :
    abcNtkObj { n with vObjs := n.vObjs.map (fun s => s.map φ) } j =
      (abcNtkObj n j).map φ := by
  unfold abcNtkObj
  show ((n.vObjs.map _).get? j).getD none = _
  rw [List.get?_eq_getElem?, List.getElem?_map, List.get?_eq_getElem?]
  cases h : n.vObjs[j]? with
  | none => rfl
  | some s => cases s <;> rfl

theorem mapObjs_len (n : AbcNtk) (φ : AbcObj → AbcObj) :
    ({ n with vObjs := n.vObjs.map (fun s => s.map φ) } : AbcNtk).vObjs.length =
      n.vObjs.length := by
  show (n.vObjs.map _).length = _
  rw [List.length_map]

theorem mapObjs_gview (n : AbcNtk) (φ : AbcObj → AbcObj)
    (hot : ∀ o, (φ o).otype = o.otype)
    (hfan : ∀ o, (φ o).vFanins = o.vFanins) :
    abcGraphView { n with vObjs := n.vObjs.map (fun s => s.map φ) } =
      abcGraphView n := by
  funext j
  unfold abcGraphView
  rw [mapObjs_obj]
  cases h : abcNtkObj n j with
  | none => rfl
  | some o =>
    have h1 : abcObjIsCi (φ o) = abcObjIsCi o := by
      unfold abcObjIsCi
      rw [hot]
    have h2 : abcObjFanin0 (φ o) = abcObjFanin0 o := by
      unfold abcObjFanin0
      rw [hfan]
    have h3 : abcObjFanin1 (φ o) = abcObjFanin1 o := by
      unfold abcObjFanin1
      rw [hfan]
    simp only [Option.map_some']
    rw [h1, h2, h3]

theorem mapObjs_fanView (n : AbcNtk) (φ : AbcObj → AbcObj)
    (hnf : ∀ o, (φ o).nFanouts = o.nFanouts) :
    abcFanView { n with vObjs := n.vObjs.map (fun s => s.map φ) } =
      abcFanView n := by
  funext j
  unfold abcFanView abcNtkFanoutCount
  rw [mapObjs_obj]
  cases h : abcNtkObj n j with
  | none => rfl
  | some o =>
    show (φ o).nFanouts = o.nFanouts
    exact hnf o

theorem mapObjs_nodeIds (n : AbcNtk) (φ : AbcObj → AbcObj)
    (hot : ∀ o, (φ o).otype = o.otype) :
    abcNodeIds { n with vObjs := n.vObjs.map (fun s => s.map φ) } =
      abcNodeIds n := by
  unfold abcNodeIds
  rw [mapObjs_len]
  apply List.filter_congr
  intro j hj
  rw [mapObjs_obj]
  cases h : abcNtkObj n j with
  | none => rfl
  | some o =>
    show abcObjIsNode (φ o) = abcObjIsNode o
    unfold abcObjIsNode
    rw [hot]

theorem mapObjs_numMax (n : AbcNtk) (φ : AbcObj → AbcObj) :
    abcNtkObjNumMax { n with vObjs := n.vObjs.map (fun s => s.map φ) } =
      abcNtkObjNumMax n :=
  mapObjs_len n φ

theorem mffcInside_proj {γ : Type} (proj : AbcNtk → γ)
    (hset : ∀ m x, proj (abcNodeSetTravIdCurrent m x) = proj m)
    (hwrite : ∀ m j k, proj (abcNtkWriteFanout m j k) = proj m)
    (hinc : ∀ m, proj (abcNtkIncrementTravId m) = proj m)
    (n : AbcNtk) (node : Nat) (vLeaves marks : List Nat) :
    proj (abcNodeMffcInsideNet n node vLeaves marks) = proj n := by
  show proj (abcUnbumpFanouts
    ((abcNodeRefDeref (abcNtkObjNumMax n + 1)
      (abcMarkList (abcNtkIncrementTravId
        ((abcNodeRefDeref (abcNtkObjNumMax n + 1) (abcBumpFanouts n vLeaves)
          node false false).1)) marks)
      node true false).1) vLeaves) = proj n
  unfold abcUnbumpFanouts abcBumpFanouts abcMarkList
  rw [foldl_preserve _ proj (fun m c => hwrite m c _) vLeaves,
    refDeref_proj proj hset hwrite,
    foldl_preserve (fun m x => abcNodeSetTravIdCurrent m x) proj
      (fun m c => hset m c) marks,
    hinc,
    refDeref_proj proj hset hwrite,
    foldl_preserve _ proj (fun m c => hwrite m c _) vLeaves]

theorem refactorEval_proj {γ : Type} (proj : AbcNtk → γ)
    (hset : ∀ m x, proj (abcNodeSetTravIdCurrent m x) = proj m)
    (hwrite : ∀ m j k, proj (abcNtkWriteFanout m j k) = proj m)
    (hinc : ∀ m, proj (abcNtkIncrementTravId m) = proj m)
    (hmapv : ∀ (m : AbcNtk) v, proj { m with vObjs := v } = proj m)
    (n : AbcNtk) (node : Nat) (vFanins cone : List Nat) (copyf : Nat → Option Nat) :
    proj (abcNodeRefactorEvalNet n node vFanins cone copyf) = proj n := by
  show proj (rwrCutStepNet node (abcWriteCopies n (vFanins ++ cone) copyf) vFanins) =
    proj n
  rw [cutStep_proj proj hset hwrite hinc]
  exact hmapv n _

theorem resubEval_proj {γ : Type} (proj : AbcNtk → γ)
    (hset : ∀ m x, proj (abcNodeSetTravIdCurrent m x) = proj m)
    (hwrite : ∀ m j k, proj (abcNtkWriteFanout m j k) = proj m)
    (hinc : ∀ m, proj (abcNtkIncrementTravId m) = proj m)
    (hmapv : ∀ (m : AbcNtk) v, proj { m with vObjs := v } = proj m)
    (n : AbcNtk) (node : Nat) (vLeaves marks1 marks2 divs : List Nat)
    (dataf : Nat → Nat) (phasef : Nat → Bool) :
    proj (abcManResubEvalNet n node vLeaves marks1 marks2 divs dataf phasef) =
      proj n := by
  show proj { abcMarkList (abcNtkIncrementTravId
      (abcNodeMffcInsideNet n node vLeaves marks1)) marks2 with vObjs := _ } = proj n
  rw [hmapv]
  show proj (List.foldl (fun m x => abcNodeSetTravIdCurrent m x)
    (abcNtkIncrementTravId (abcNodeMffcInsideNet n node vLeaves marks1)) marks2) = proj n
  rw [foldl_preserve (fun m x => abcNodeSetTravIdCurrent m x) proj
    (fun m c => hset m c) marks2, hinc,
    mffcInside_proj proj hset hwrite hinc]

set_option maxHeartbeats 1000000 in
theorem mffcInside_objs (n : AbcNtk) (node : Nat) (rank extra : Nat → Nat)
    (ort : AbcObj)
    (hobj : abcNtkObj n node = some ort)
    (hnode : abcObjIsNode ort = true)
    (hranklt : ∀ u x, Mffc.mInternal (abcGraphView n) u →
      Mffc.mFaninOf (abcGraphView n) u x → rank x < rank u)
    (hab : ∀ u o, abcGraphView n u = some o → o.ci = false → o.a ≠ o.b)
    (hclosed : ∀ u ∈ abcNodeIds n, ∀ x, Mffc.mFaninOf (abcGraphView n) u x →
      Mffc.mInternal (abcGraphView n) x → x ∈ abcNodeIds n)
    (hUfan : ∀ j ∈ abcNodeIds n, ∀ o, abcGraphView n j = some o → o.ci = false →
      ((abcGraphView n) o.a).isSome ∧ ((abcGraphView n) o.b).isSome)
    (hfuel : rank node < abcNtkObjNumMax n + 1)
    (hstate0 : ∀ x, abcFanView n x =
      Mffc.mEdges (abcGraphView n) (abcNodeIds n) x + extra x)
    (hpos0 : ∀ x ∈ abcNodeIds n, x ≠ node → 0 < abcFanView n x)
    (vLeaves marks : List Nat) (hlv : ∀ c ∈ vLeaves, (abcNtkObj n c).isSome) :
    (abcNodeMffcInsideNet n node vLeaves marks).vObjs = n.vObjs := by
  set nb := abcBumpFanouts n vLeaves with hnb
  have hb_obj : ∀ j, abcNtkObj nb j = (abcNtkObj n j).map
      (fun o => { o with nFanouts := o.nFanouts + vLeaves.count j }) := by
    intro j
    rw [hnb]
    exact bump_obj vLeaves n hlv j
  have hgv : abcGraphView nb = abcGraphView n := by
    rw [hnb]
    exact bump_gview n vLeaves hlv
  have hfv : ∀ x, abcFanView nb x = abcFanView n x + vLeaves.count x := by
    intro x
    rw [hnb]
    exact bump_fanView n vLeaves hlv x
  have hrtci : abcObjIsCi ort = false := node_not_ci ort hnode
  have hrtU : node ∈ abcNodeIds n := (mem_abcNodeIds n node).2 ⟨ort, hobj, hnode⟩
  have hgrt : abcGraphView n node =
      some ⟨abcObjIsCi ort, abcObjFanin0 ort, abcObjFanin1 ort⟩ := by
    unfold abcGraphView
    rw [hobj]
  have hrtint : Mffc.mInternal (abcGraphView n) node := ⟨_, hgrt, hrtci⟩
  have hG : Mffc.GOk (abcGraphView n) (abcNodeIds n) rank :=
    ⟨hranklt, hab, hclosed, abcNodeIds_uint n, abcNodeIds_nodup n⟩
  obtain ⟨rD, rR, hrD, hrR, hcnt, hrestore, hrtvis, hvnodup, hparents, hcharac⟩ :=
    Mffc.mMffc_spec (abcGraphView n) (abcNodeIds n) rank hG (abcNtkObjNumMax n + 1)
      node (abcFanView nb) (fun x => extra x + vLeaves.count x) hfuel
      (by
        intro x
        show abcFanView nb x =
          Mffc.mEdges (abcGraphView n) (abcNodeIds n) x + (extra x + vLeaves.count x)
        rw [hfv x, hstate0 x]
        omega)
      (by
        intro x hx hxn
        rw [hfv x]
        have := hpos0 x hx hxn
        omega)
      hrtint hrtU
  have hUclosed : ∀ j ∈ abcNodeIds n, ∀ o, abcGraphView n j = some o → o.ci = false →
      (Mffc.mInternal (abcGraphView n) o.a → o.a ∈ abcNodeIds n) ∧
      (Mffc.mInternal (abcGraphView n) o.b → o.b ∈ abcNodeIds n) := by
    intro j hj o hgj hci
    constructor
    · intro hint
      exact hclosed j hj o.a ⟨o, hgj, Or.inl rfl⟩ hint
    · intro hint
      exact hclosed j hj o.b ⟨o, hgj, Or.inr rfl⟩ hint
  set F := abcNtkObjNumMax n + 1 with hF
  set d := abcNodeRefDeref F nb node false false with hd
  have sim1 : SimRes nb false rD d := by
    rw [hd]
    exact refDeref_sim (abcGraphView n) (abcNodeIds n) hUfan hUclosed F nb node
      false false rD (fun _ => hrtU) (fun j => congrFun hgv j) hrD
  set n3 := abcMarkList (abcNtkIncrementTravId d.1) marks with hn3
  have hn3v : n3.vObjs = d.1.vObjs := by
    rw [hn3, markList_vObjs, incTravId_vObjs]
  have hg3 : ∀ j, abcGraphView n3 j = abcGraphView n j := by
    intro j
    rw [vObjs_gview d.1 n3 hn3v, congrFun sim1.gview j, congrFun hgv j]
  have hm2 : Mffc.mPass (abcGraphView n) true F (abcFanView n3) node = some rR := by
    rw [vObjs_fanView d.1 n3 hn3v, sim1.fanview]
    exact hrR
  set r2 := abcNodeRefDeref F n3 node true false with hr2
  have sim2 : SimRes n3 false rR r2 := by
    rw [hr2]
    exact refDeref_sim (abcGraphView n) (abcNodeIds n) hUfan hUclosed F n3 node
      true false rR (fun _ => hrtU) hg3 hm2
  show (abcUnbumpFanouts r2.1 vLeaves).vObjs = n.vObjs
  apply vObjs_ext
  · rw [unbump_len, sim2.len, hn3v, sim1.len, hnb, bump_len]
  · intro j
    rw [unbump_obj vLeaves _ j, sim2.objs j, vObjs_obj d.1 n3 hn3v j, sim1.objs j,
      mapFan_mapFan, hrestore j, mapFan_self nb j, hb_obj j]
    cases h : abcNtkObj n j
    · rfl
    · show some _ = _
      simp [Nat.add_sub_cancel]

set_option maxHeartbeats 1000000 in
theorem refactorEval_objs (n : AbcNtk) (node : Nat) (rank extra : Nat → Nat)
    (ort : AbcObj)
    (hobj : abcNtkObj n node = some ort)
    (hnode : abcObjIsNode ort = true)
    (hranklt : ∀ u x, Mffc.mInternal (abcGraphView n) u →
      Mffc.mFaninOf (abcGraphView n) u x → rank x < rank u)
    (hab : ∀ u o, abcGraphView n u = some o → o.ci = false → o.a ≠ o.b)
    (hclosed : ∀ u ∈ abcNodeIds n, ∀ x, Mffc.mFaninOf (abcGraphView n) u x →
      Mffc.mInternal (abcGraphView n) x → x ∈ abcNodeIds n)
    (hUfan : ∀ j ∈ abcNodeIds n, ∀ o, abcGraphView n j = some o → o.ci = false →
      ((abcGraphView n) o.a).isSome ∧ ((abcGraphView n) o.b).isSome)
    (hfuel : rank node < abcNtkObjNumMax n + 1)
    (hstate0 : ∀ x, abcFanView n x =
      Mffc.mEdges (abcGraphView n) (abcNodeIds n) x + extra x)
    (hpos0 : ∀ x ∈ abcNodeIds n, x ≠ node → 0 < abcFanView n x)
    (vFanins cone : List Nat) (copyf : Nat → Option Nat)
    (hvf : ∀ c ∈ vFanins, (abcNtkObj n c).isSome) :
    (abcNodeRefactorEvalNet n node vFanins cone copyf).vObjs =
      (abcWriteCopies n (vFanins ++ cone) copyf).vObjs := by
  set φ := fun o : AbcObj =>
    if o.oid ∈ vFanins ++ cone then { o with pCopy := copyf o.oid } else o with hφ
  have hot : ∀ o, (φ o).otype = o.otype := by
    intro o
    rw [hφ]
    by_cases h : o.oid ∈ vFanins ++ cone <;> simp [h]
  have hfanφ : ∀ o, (φ o).vFanins = o.vFanins := by
    intro o
    rw [hφ]
    by_cases h : o.oid ∈ vFanins ++ cone <;> simp [h]
  have hnf : ∀ o, (φ o).nFanouts = o.nFanouts := by
    intro o
    rw [hφ]
    by_cases h : o.oid ∈ vFanins ++ cone <;> simp [h]
  have hw : abcWriteCopies n (vFanins ++ cone) copyf =
      { n with vObjs := n.vObjs.map (fun s => s.map φ) } := rfl
  have hw_obj : ∀ j, abcNtkObj (abcWriteCopies n (vFanins ++ cone) copyf) j =
      (abcNtkObj n j).map φ := by
    intro j
    rw [hw]
    exact mapObjs_obj n φ j
  have hgv : abcGraphView (abcWriteCopies n (vFanins ++ cone) copyf) =
      abcGraphView n := by
    rw [hw]
    exact mapObjs_gview n φ hot hfanφ
  have hfvw : abcFanView (abcWriteCopies n (vFanins ++ cone) copyf) = abcFanView n := by
    rw [hw]
    exact mapObjs_fanView n φ hnf
  have hids : abcNodeIds (abcWriteCopies n (vFanins ++ cone) copyf) = abcNodeIds n := by
    rw [hw]
    exact mapObjs_nodeIds n φ hot
  have hmax : abcNtkObjNumMax (abcWriteCopies n (vFanins ++ cone) copyf) =
      abcNtkObjNumMax n := by
    rw [hw]
    exact mapObjs_numMax n φ
  show (rwrCutStepNet node (abcWriteCopies n (vFanins ++ cone) copyf) vFanins).vObjs = _
  apply cutStep_objs (abcWriteCopies n (vFanins ++ cone) copyf)
    (abcWriteCopies n (vFanins ++ cone) copyf) node rank extra (φ ort) rfl
  · rw [hw_obj node, hobj]
    rfl
  · rw [show abcObjIsNode (φ ort) = abcObjIsNode ort by
      unfold abcObjIsNode
      rw [hot]]
    exact hnode
  · rw [hgv]
    exact hranklt
  · rw [hgv]
    exact hab
  · rw [hgv, hids]
    exact hclosed
  · rw [hgv, hids]
    exact hUfan
  · rw [hmax]
    exact hfuel
  · intro x
    rw [hfvw, hgv, hids]
    exact hstate0 x
  · rw [hids]
    intro x hx hxn
    rw [hfvw]
    exact hpos0 x hx hxn
  · intro c hc
    rw [hw_obj c]
    cases h : abcNtkObj n c with
    | none =>
      have := hvf c hc
      rw [h] at this
      exact Bool.noConfusion this
    | some o => rfl

/-- C6: when a rewrite, refactor, or resubstitute step finds no
improving replacement for a node — the rewrite gain fails the
acceptance condition `nGain > 0 || (nGain == 0 && fUseZeros)`, the
refactor candidate fails its acceptance test
`!(nNodesAdded == -1 || (nNodesAdded == nNodesSaved && !fUseZeros))`,
or the resubstitution evaluation returns no factored form — the
network is left untouched for that node: `Dec_GraphUpdateNetwork` is
not called and no node is added, removed, or rewired.  The rewrite cut
loop restores every object exactly; the rejected refactor candidate
leaves every object field except the `pCopy` truth-table scratch of
the cut cone unchanged; the rejected resubstitution leaves the wiring
(ids, types, fanins, complement bits, fanout counts) of every object
unchanged, touching only the `pData`/`fPhase` simulation scratch of
the divisors; all collector lists are preserved, and only the
traversal-ID state changes besides. -/
theorem c6_no_gain_untouched (n : AbcNtk) (node : Nat) (rank extra : Nat → Nat)
    (ort : AbcObj)
    (hobj : abcNtkObj n node = some ort)
    (hnode : abcObjIsNode ort = true)
    (hranklt : ∀ u x, Mffc.mInternal (abcGraphView n) u →
      Mffc.mFaninOf (abcGraphView n) u x → rank x < rank u)
    (hab : ∀ u o, abcGraphView n u = some o → o.ci = false → o.a ≠ o.b)
    (hclosed : ∀ u ∈ abcNodeIds n, ∀ x, Mffc.mFaninOf (abcGraphView n) u x →
      Mffc.mInternal (abcGraphView n) x → x ∈ abcNodeIds n)
    (hUfan : ∀ j ∈ abcNodeIds n, ∀ o, abcGraphView n j = some o → o.ci = false →
      ((abcGraphView n) o.a).isSome ∧ ((abcGraphView n) o.b).isSome)
    (hfuel : rank node < abcNtkObjNumMax n + 1)
    (hstate0 : ∀ x, abcFanView n x =
      Mffc.mEdges (abcGraphView n) (abcNodeIds n) x + extra x)
    (hpos0 : ∀ x ∈ abcNodeIds n, x ≠ node → 0 < abcFanView n x)
    (cuts : List (List Nat)) (hcuts : ∀ cut ∈ cuts, ∀ c ∈ cut, (abcNtkObj n c).isSome)
    (nGain : Int) (fUseZeros : Bool) (update : AbcNtk → AbcNtk)
    (hguard : ¬ (0 < nGain ∨ (nGain = 0 ∧ fUseZeros = true)))
    (vFanins cone : List Nat) (copyf : Nat → Option Nat)
    (hvf : ∀ c ∈ vFanins, (abcNtkObj n c).isSome)
    (nNodesAdded nNodesSaved : Int) (fUseZerosR : Bool) (updateR : AbcNtk → AbcNtk)
    (hreject : nNodesAdded = -1 ∨ (nNodesAdded = nNodesSaved ∧ fUseZerosR = false))
    (vLeaves marks1 marks2 divs : List Nat) (dataf : Nat → Nat)
    (phasef : Nat → Bool) (updateS : AbcNtk → AbcNtk)
    (hlv : ∀ c ∈ vLeaves, (abcNtkObj n c).isSome) :
    abcNtkRewriteStep n node cuts nGain fUseZeros update =
      rwrNodeRewriteNet n node cuts ∧
    abcSameShell n (rwrNodeRewriteNet n node cuts) ∧
    abcNodeRefactorAccept nNodesAdded nNodesSaved fUseZerosR = false ∧
    abcNtkRefactorStep n node vFanins cone copyf
      (abcNodeRefactorAccept nNodesAdded nNodesSaved fUseZerosR) updateR =
      abcNodeRefactorEvalNet n node vFanins cone copyf ∧
    abcNoCopyView (abcNodeRefactorEvalNet n node vFanins cone copyf) =
      abcNoCopyView n ∧
    abcSameLists n (abcNodeRefactorEvalNet n node vFanins cone copyf) ∧
    abcNtkResubStep n node vLeaves marks1 marks2 divs dataf phasef false updateS =
      abcManResubEvalNet n node vLeaves marks1 marks2 divs dataf phasef ∧
    abcWireView (abcManResubEvalNet n node vLeaves marks1 marks2 divs dataf phasef) =
      abcWireView n ∧
    abcSameLists n (abcManResubEvalNet n node vLeaves marks1 marks2 divs dataf phasef) := by
  have haccF : abcNodeRefactorAccept nNodesAdded nNodesSaved fUseZerosR = false := by
    unfold abcNodeRefactorAccept
    rcases hreject with h1 | ⟨h1, h2⟩
    · simp [h1]
    · simp [h1, h2]
  refine ⟨?_, ?_, haccF, ?_, ?_, ?_, rfl, ?_, ?_⟩
  · unfold abcNtkRewriteStep
    rw [if_neg hguard]
  · exact rewriteNet_frame n node rank extra ort hobj hnode hranklt hab hclosed
      hUfan hfuel hstate0 hpos0 cuts hcuts
  · unfold abcNtkRefactorStep
    rw [haccF]
    rfl
  · have h1 := refactorEval_objs n node rank extra ort hobj hnode hranklt hab
      hclosed hUfan hfuel hstate0 hpos0 vFanins cone copyf hvf
    unfold abcNoCopyView
    rw [h1]
    show ((n.vObjs.map _).map _) = _
    rw [List.map_map]
    apply List.map_congr_left
    intro slot _
    cases slot with
    | none => rfl
    | some o =>
      show some (abcObjNoCopy
        (if o.oid ∈ vFanins ++ cone then { o with pCopy := copyf o.oid } else o)) =
        some (abcObjNoCopy o)
      by_cases h : o.oid ∈ vFanins ++ cone
      · rw [if_pos h]
        rfl
      · rw [if_neg h]
  · refine ⟨?_, ?_, ?_, ?_, ?_, ?_, ?_⟩
    · exact refactorEval_proj (fun m => m.vPis) (fun m x => rfl) (fun m j k => rfl)
        incTravId_pis (fun m v => rfl) n node vFanins cone copyf
    · exact refactorEval_proj (fun m => m.vPos) (fun m x => rfl) (fun m j k => rfl)
        incTravId_pos (fun m v => rfl) n node vFanins cone copyf
    · exact refactorEval_proj (fun m => m.vCis) (fun m x => rfl) (fun m j k => rfl)
        incTravId_cis (fun m v => rfl) n node vFanins cone copyf
    · exact refactorEval_proj (fun m => m.vCos) (fun m x => rfl) (fun m j k => rfl)
        incTravId_cos (fun m v => rfl) n node vFanins cone copyf
    · exact refactorEval_proj (fun m => m.vBoxes) (fun m x => rfl) (fun m j k => rfl)
        incTravId_boxes (fun m v => rfl) n node vFanins cone copyf
    · exact refactorEval_proj (fun m => m.names) (fun m x => rfl) (fun m j k => rfl)
        incTravId_names (fun m v => rfl) n node vFanins cone copyf
    · exact refactorEval_proj (fun m => m.table) (fun m x => rfl) (fun m j k => rfl)
        incTravId_table (fun m v => rfl) n node vFanins cone copyf
  · have h1 := mffcInside_objs n node rank extra ort hobj hnode hranklt hab hclosed
      hUfan hfuel hstate0 hpos0 vLeaves marks1 hlv
    have h2 : (abcManResubEvalNet n node vLeaves marks1 marks2 divs dataf phasef).vObjs =
        n.vObjs.map (fun slot => slot.map (fun o =>
          if o.oid ∈ divs then { o with pData := dataf o.oid, fPhase := phasef o.oid }
          else o)) := by
      show ((abcMarkList (abcNtkIncrementTravId
        (abcNodeMffcInsideNet n node vLeaves marks1)) marks2).vObjs.map _) = _
      rw [markList_vObjs, incTravId_vObjs, h1]
    unfold abcWireView
    rw [h2, List.map_map]
    apply List.map_congr_left
    intro slot _
    cases slot with
    | none => rfl
    | some o =>
      show some (abcObjWire
        (if o.oid ∈ divs then { o with pData := dataf o.oid, fPhase := phasef o.oid }
         else o)) = some (abcObjWire o)
      by_cases h : o.oid ∈ divs
      · rw [if_pos h]
        rfl
      · rw [if_neg h]
  · refine ⟨?_, ?_, ?_, ?_, ?_, ?_, ?_⟩
    · exact resubEval_proj (fun m => m.vPis) (fun m x => rfl) (fun m j k => rfl)
        incTravId_pis (fun m v => rfl) n node vLeaves marks1 marks2 divs dataf phasef
    · exact resubEval_proj (fun m => m.vPos) (fun m x => rfl) (fun m j k => rfl)
        incTravId_pos (fun m v => rfl) n node vLeaves marks1 marks2 divs dataf phasef
    · exact resubEval_proj (fun m => m.vCis) (fun m x => rfl) (fun m j k => rfl)
        incTravId_cis (fun m v => rfl) n node vLeaves marks1 marks2 divs dataf phasef
    · exact resubEval_proj (fun m => m.vCos) (fun m x => rfl) (fun m j k => rfl)
        incTravId_cos (fun m v => rfl) n node vLeaves marks1 marks2 divs dataf phasef
    · exact resubEval_proj (fun m => m.vBoxes) (fun m x => rfl) (fun m j k => rfl)
        incTravId_boxes (fun m v => rfl) n node vLeaves marks1 marks2 divs dataf phasef
    · exact resubEval_proj (fun m => m.names) (fun m x => rfl) (fun m j k => rfl)
        incTravId_names (fun m v => rfl) n node vLeaves marks1 marks2 divs dataf phasef
    · exact resubEval_proj (fun m => m.table) (fun m x => rfl) (fun m j k => rfl)
        incTravId_table (fun m v => rfl) n node vLeaves marks1 marks2 divs dataf phasef

theorem c6_no_gain_untouched_witness :
    abcNtkRewriteStep c4Net 3 [[0, 2]] (-1) false (fun _ => abcEmptyNtk) =
      rwrNodeRewriteNet c4Net 3 [[0, 2]] ∧
    abcSameShell c4Net (rwrNodeRewriteNet c4Net 3 [[0, 2]]) ∧
    abcNodeRefactorAccept (-1) 0 false = false ∧
    abcNtkRefactorStep c4Net 3 [0, 2] [3] (fun _ => some 0)
      (abcNodeRefactorAccept (-1) 0 false) (fun _ => abcEmptyNtk) =
      abcNodeRefactorEvalNet c4Net 3 [0, 2] [3] (fun _ => some 0) ∧
    abcNoCopyView (abcNodeRefactorEvalNet c4Net 3 [0, 2] [3] (fun _ => some 0)) =
      abcNoCopyView c4Net ∧
    abcSameLists c4Net (abcNodeRefactorEvalNet c4Net 3 [0, 2] [3] (fun _ => some 0)) ∧
    abcNtkResubStep c4Net 3 [0, 2] [3] [0, 2, 3] [0, 2] (fun _ => 1) (fun _ => true)
      false (fun _ => abcEmptyNtk) =
      abcManResubEvalNet c4Net 3 [0, 2] [3] [0, 2, 3] [0, 2] (fun _ => 1)
        (fun _ => true) ∧
    abcWireView (abcManResubEvalNet c4Net 3 [0, 2] [3] [0, 2, 3] [0, 2] (fun _ => 1)
        (fun _ => true)) = abcWireView c4Net ∧
    abcSameLists c4Net (abcManResubEvalNet c4Net 3 [0, 2] [3] [0, 2, 3] [0, 2]
      (fun _ => 1) (fun _ => true)) := by
  have hv0 : abcGraphView c4Net 0 = some ⟨true, 0, 0⟩ := rfl
  have hv1 : abcGraphView c4Net 1 = some ⟨true, 0, 0⟩ := rfl
  have hv2 : abcGraphView c4Net 2 = some ⟨false, 0, 1⟩ := rfl
  have hv3 : abcGraphView c4Net 3 = some ⟨false, 0, 2⟩ := rfl
  have hv4 : abcGraphView c4Net 4 = some ⟨false, 3, 0⟩ := rfl
  exact c6_no_gain_untouched c4Net 3 (fun x => x) (fun x => if x = 3 then 1 else 0)
    { oid := 3, otype := .node, vFanins := [0, 2], fCompl0 := false, fCompl1 := true,
      vFanouts := [4], nFanouts := 1, fPhase := false, pData := 0, pCopy := none }
    rfl rfl
    (by
      intro u x hint hfan
      obtain ⟨o, ho, hci⟩ := hint
      obtain ⟨o2, ho2, hor⟩ := hfan
      rw [ho] at ho2
      cases Option.some.inj ho2
      have hu : u < 5 := gview_some_lt c4Net u (by rw [ho]; rfl)
      interval_cases u
      · rw [hv0] at ho
        cases Option.some.inj ho
        exact Bool.noConfusion hci
      · rw [hv1] at ho
        cases Option.some.inj ho
        exact Bool.noConfusion hci
      · rw [hv2] at ho
        cases Option.some.inj ho
        rcases hor with hx | hx <;> (rw [← hx]; decide)
      · rw [hv3] at ho
        cases Option.some.inj ho
        rcases hor with hx | hx <;> (rw [← hx]; decide)
      · rw [hv4] at ho
        cases Option.some.inj ho
        rcases hor with hx | hx <;> (rw [← hx]; decide))
    (by
      intro u o ho hci
      have hu : u < 5 := gview_some_lt c4Net u (by rw [ho]; rfl)
      interval_cases u
      · rw [hv0] at ho
        cases Option.some.inj ho
        exact Bool.noConfusion hci
      · rw [hv1] at ho
        cases Option.some.inj ho
        exact Bool.noConfusion hci
      · rw [hv2] at ho
        cases Option.some.inj ho
        decide
      · rw [hv3] at ho
        cases Option.some.inj ho
        decide
      · rw [hv4] at ho
        cases Option.some.inj ho
        decide)
    (by
      intro u hu x hfan hint
      have hu2 : u = 2 ∨ u = 3 := by
        have : abcNodeIds c4Net = [2, 3] := rfl
        rw [this] at hu
        rcases List.mem_cons.1 hu with h2 | h2
        · exact Or.inl h2
        · rcases List.mem_cons.1 h2 with h3 | h3
          · exact Or.inr h3
          · exact absurd h3 (List.not_mem_nil u)
      obtain ⟨o, ho, hor⟩ := hfan
      obtain ⟨o2, ho2, hci2⟩ := hint
      rcases hu2 with rfl | rfl
      · rw [hv2] at ho
        cases Option.some.inj ho
        rcases hor with hx | hx
        · rw [← hx] at ho2
          rw [hv0] at ho2
          cases Option.some.inj ho2
          exact Bool.noConfusion hci2
        · rw [← hx] at ho2
          rw [hv1] at ho2
          cases Option.some.inj ho2
          exact Bool.noConfusion hci2
      · rw [hv3] at ho
        cases Option.some.inj ho
        rcases hor with hx | hx
        · rw [← hx] at ho2
          rw [hv0] at ho2
          cases Option.some.inj ho2
          exact Bool.noConfusion hci2
        · rw [← hx]
          decide)
    (by
      intro j hj o ho hci
      have hu2 : j = 2 ∨ j = 3 := by
        have : abcNodeIds c4Net = [2, 3] := rfl
        rw [this] at hj
        rcases List.mem_cons.1 hj with h2 | h2
        · exact Or.inl h2
        · rcases List.mem_cons.1 h2 with h3 | h3
          · exact Or.inr h3
          · exact absurd h3 (List.not_mem_nil j)
      rcases hu2 with rfl | rfl
      · rw [hv2] at ho
        cases Option.some.inj ho
        exact ⟨rfl, rfl⟩
      · rw [hv3] at ho
        cases Option.some.inj ho
        exact ⟨rfl, rfl⟩)
    (by decide)
    (by
      intro x
      rcases x with _ | _ | _ | _ | _ | x <;> rfl)
    (by decide)
    [[0, 2]] (by decide)
    (-1) false (fun _ => abcEmptyNtk) (by decide)
    [0, 2] [3] (fun _ => some 0) (by decide)
    (-1) 0 false (fun _ => abcEmptyNtk) (Or.inl rfl)
    [0, 2] [3] [0, 2, 3] [0, 2] (fun _ => 1) (fun _ => true)
    (fun _ => abcEmptyNtk) (by decide)

end Abc
